import Mathlib

/-!
# Verification of the `farm` linking engine

A shallow embedding, in Lean 4, of the core of the `farm` symlink manager:
the path/glob matcher (`internal/config/config.go`, `internal/linker/linker.go`),
the lockfile store (`internal/lockfile/lockfile.go`) and the tree linker
(`internal/linker/linker.go`), together with theorems settling the spec claims.

Modelling conventions:
* Absolute filesystem paths are represented as lists of path segments
  (`Path := List String`); `filepath.Join dir name` on clean paths becomes
  `dir ++ [name]`, `filepath.Dir` becomes `List.dropLast`.
* Pattern matching operates on the raw strings exactly as the Go code does;
  Go `strings.Split(s, "/")`, `strings.HasPrefix` and `filepath.Match` are
  embedded below as executable functions on `List Char` so that every
  concrete instance evaluates by `decide`.
* The filesystem is a finite association of paths to nodes plus two
  fault-injection sets (`statErr`: paths where `os.Lstat` fails with an
  error other than not-found, `removeErr`: paths where `os.Remove` fails
  with an error other than not-found).  `time.Now()` is passed as an
  explicit `now : Nat` argument.
* Fallible Go code returns `Except`/`Option`; a Go function that both
  mutates state and may return an error is modelled as returning
  `State × Option GoError` so that mutations made before the error are kept,
  as in Go.
-/

namespace Farm

/-! ## String helpers (Go `strings` package operations used by the code) -/

/-- Go `strings.Split(s, "/")` on the character list of `s`
(empty input yields `[[]]`, consecutive separators yield empty segments). -/
def splitOn (sep : Char) : List Char → List (List Char)
  | [] => [[]]
  | c :: rest =>
    if c = sep then [] :: splitOn sep rest
    else match splitOn sep rest with
      | [] => [[c]]
      | l :: ls => (c :: l) :: ls

/-- Go `strings.Split(s, "/")`. -/
def splitSlash (s : String) : List String :=
  (splitOn '/' s.toList).map String.mk

/-- Go `strings.HasPrefix s pre`. -/
def goHasPrefix (s pre : String) : Bool :=
  pre.toList.isPrefixOf s.toList

/-- Go `strings.Contains s sub` (some alignment of `sub` occurs inside `s`). -/
def goContains (s sub : String) : Bool :=
  (List.range (s.toList.length + 1)).any fun i =>
    sub.toList.isPrefixOf (s.toList.drop i)

/-! ## Go `path/filepath.Match` (glob matching)

Faithful embedding of Go's `filepath.Match` with `Separator = '/'`,
at the level of `List Char` (the inputs in this repository are ASCII, so
the byte/rune distinction of the Go original does not arise).  Malformed
patterns produce `none` (Go's `ErrBadPattern`); every caller in the
repository discards the error, and every error path of the Go function
returns `matched = false`, so the wrapper `filepathMatch` yields `false`
for errors exactly as the callers observe. -/

/-- Leading `*`s of a chunk scan: returns whether any star was seen and the rest. -/
def stripStars : List Char → Bool × List Char
  | [] => (false, [])
  | c :: rest =>
    if c = '*' then (true, (stripStars rest).2)
    else (false, c :: rest)

/-- Length of the chunk prefix scanned by Go `scanChunk`'s inner loop
(stops at a `*` that is not inside a `[...]` range). -/
def chunkLen : Bool → List Char → Nat
  | _, [] => 0
  | inrange, c :: rest =>
    if c = '\\' then
      match rest with
      | [] => 1
      | _ :: rest2 => 2 + chunkLen inrange rest2
    else if c = '[' then 1 + chunkLen true rest
    else if c = ']' then 1 + chunkLen false rest
    else if c = '*' then (if inrange then 1 + chunkLen inrange rest else 0)
    else 1 + chunkLen inrange rest

/-- Go `scanChunk`: strip leading stars, then split off the chunk up to the
next top-level `*`. -/
def scanChunk (pattern : List Char) : Bool × List Char × List Char :=
  let (star, p) := stripStars pattern
  let n := chunkLen false p
  (star, p.take n, p.drop n)

/-- Go `getEsc`: read one (possibly escaped) character of a `[...]` range.
`none` is `ErrBadPattern`. -/
def getEsc : List Char → Option (Char × List Char)
  | [] => none
  | c :: rest =>
    if c = '-' ∨ c = ']' then none
    else if c = '\\' then
      match rest with
      | [] => none
      | r :: rest2 => if rest2.isEmpty then none else some (r, rest2)
    else if rest.isEmpty then none else some (c, rest)

/-- The range-parsing loop inside Go `matchChunk`'s `[` case: parses ranges
until the closing `]` (requiring at least one range), accumulating whether
the candidate character `r` fell in some range.  `none` is `ErrBadPattern`. -/
def rangeLoop (r : Char) : Nat → List Char → Bool → Bool → Option (Bool × List Char)
  | 0, _, _, _ => none
  | fuel + 1, chunk, m, started =>
    match chunk with
    | ']' :: rest =>
      if started then some (m, rest)
      else none
    | _ =>
      match getEsc chunk with
      | none => none
      | some (lo, chunk1) =>
        match chunk1 with
        | '-' :: chunk2 =>
          match getEsc chunk2 with
          | none => none
          | some (hi, chunk3) =>
            rangeLoop r fuel chunk3 (m || (decide (lo ≤ r) && decide (r ≤ hi))) true
        | _ =>
          rangeLoop r fuel chunk1 (m || (decide (lo ≤ r) && decide (r ≤ lo))) true

/-- Go `matchChunk`: match a chunk (no top-level `*`) against the head of `s`.
Outer `none` is `ErrBadPattern`; `some none` is a failed match;
`some (some t)` is success with remaining input `t`.  The `failed` flag
mirrors the Go original: once the match has failed the loop keeps scanning
the chunk only to validate the pattern. -/
def matchChunkGo : Nat → List Char → List Char → Bool → Option (Option (List Char))
  | 0, _, _, _ => none
  | fuel + 1, chunk, s, failed0 =>
    match chunk with
    | [] => if failed0 then some none else some (some s)
    | c :: rest =>
      let failed := failed0 || s.isEmpty
      if c = '[' then
        let r := s.headD (Char.ofNat 0)
        let s1 := if failed then s else s.tail
        let (negated, rest1) :=
          match rest with
          | '^' :: rest2 => (true, rest2)
          | _ => (false, rest)
        match rangeLoop r (rest1.length + 1) rest1 false false with
        | none => none
        | some (found, rest2) =>
          matchChunkGo fuel rest2 s1 (failed || (found == negated))
      else if c = '?' then
        let bad := match s with
          | x :: _ => decide (x = '/')
          | [] => false
        let s1 := if failed then s else s.tail
        matchChunkGo fuel rest s1 (failed || bad)
      else if c = '\\' then
        match rest with
        | [] => none
        | c2 :: rest2 =>
          let bad := match s with
            | x :: _ => decide (x ≠ c2)
            | [] => false
          let s1 := if failed then s else s.tail
          matchChunkGo fuel rest2 s1 (failed || bad)
      else
        let bad := match s with
          | x :: _ => decide (x ≠ c)
          | [] => false
        let s1 := if failed then s else s.tail
        matchChunkGo fuel rest s1 (failed || bad)

/-- `matchChunk chunk s` with adequate internal fuel. -/
def matchChunk (chunk s : List Char) : Option (Option (List Char)) :=
  matchChunkGo (chunk.length + 1) chunk s false

/-- The `star` backtracking loop of Go `Match`: try `matchChunk` at every
later position of `name` without crossing a `/`. -/
def starLoop : Nat → List Char → List Char → List Char → Option (Option (List Char))
  | 0, _, _, _ => none
  | fuel + 1, chunk, rest, name =>
    match name with
    | [] => some none
    | c :: name2 =>
      if c = '/' then some none
      else
        match matchChunk chunk name2 with
        | some (some t) =>
          if rest.isEmpty && !t.isEmpty then starLoop fuel chunk rest name2
          else some (some t)
        | some none => starLoop fuel chunk rest name2
        | none => none

/-- Go `filepath.Match` main loop.  `none` is `ErrBadPattern`. -/
def goMatch : Nat → List Char → List Char → Option Bool
  | 0, _, _ => none
  | fuel + 1, pattern, name =>
    match pattern with
    | [] => some name.isEmpty
    | _ :: _ =>
      let (star, chunk, rest) := scanChunk pattern
      if star && chunk.isEmpty then
        -- trailing * matches the rest of the name unless it contains a Separator
        some (name.all (· ≠ '/'))
      else
        match matchChunk chunk name with
        | some (some t) =>
          if t.isEmpty || !rest.isEmpty then goMatch fuel rest t
          else if star then
            match starLoop (name.length + 1) chunk rest name with
            | some (some t2) => goMatch fuel rest t2
            | some none => some false
            | none => none
          else some false
        | some none =>
          if star then
            match starLoop (name.length + 1) chunk rest name with
            | some (some t2) => goMatch fuel rest t2
            | some none => some false
            | none => none
          else some false
        | none => none

/-- `matched, _ := filepath.Match(pattern, name)` as every caller in this
repository uses it: the error is discarded and every error path of the Go
function returns `matched = false`. -/
def filepathMatch (pattern name : String) : Bool :=
  (goMatch (pattern.toList.length + 1) pattern.toList name.toList).getD false

/-! ## The linker's path matcher (`linker.go`, `matchesPath`) -/

/-- The final loop of `linker.matchesPath`: the pattern's segments must
glob-match the path's LEADING segments (`pathParts[i]` for `i` ranging over
the pattern's indices). -/
def leadingSegmentsMatch (patternParts pathParts : List String) : Bool :=
  if patternParts.length ≤ pathParts.length then
    (patternParts.zip pathParts).all fun ps => filepathMatch ps.1 ps.2
  else false

/-- `(l *Linker) matchesPath(pattern, path)` from `internal/linker/linker.go`. -/
def linkerMatchesPath (pattern path : String) : Bool :=
  if pattern = path then true
  else if filepathMatch pattern path then true
  else if goHasPrefix path (pattern ++ "/") then true
  else leadingSegmentsMatch (splitSlash pattern) (splitSlash path)

/-! ## The config-level path matcher (`config.go`, `Config.matchesPath`) -/

/-- The sliding-window loop of `Config.matchesPath`: for every start offset
into the path's segments, the pattern's segments must glob-match the path's
segments at that offset, consecutively. -/
def slidingWindowMatch (patternParts pathParts : List String) : Bool :=
  if patternParts.length ≤ pathParts.length then
    (List.range (pathParts.length - patternParts.length + 1)).any fun start =>
      (patternParts.zip (pathParts.drop start)).all fun ps => filepathMatch ps.1 ps.2
  else false

/-- The partial-component loop of `Config.matchesPath`: like the sliding
window, but a pattern segment may also occur as a substring of the path
segment. -/
def partialComponentMatch (patternParts pathParts : List String) : Bool :=
  (List.range pathParts.length).any fun start =>
    if patternParts.length ≤ pathParts.length - start then
      (patternParts.zip (pathParts.drop start)).all fun ps =>
        filepathMatch ps.1 ps.2 || goContains ps.2 ps.1
    else false

/-- `(c *Config) matchesPath(pattern, path)` from `internal/config/config.go`. -/
def configMatchesPath (pattern path : String) : Bool :=
  if pattern = path then true
  else if goHasPrefix path (pattern ++ "/") then true
  else
    let pathParts := splitSlash path
    let patternParts := splitSlash pattern
    if 1 < patternParts.length then
      if slidingWindowMatch patternParts pathParts then true
      else if goContains path pattern then true
      else partialComponentMatch patternParts pathParts
    else
      if filepathMatch pattern path then true
      else pathParts.any fun part => filepathMatch pattern part

/-! ## Configuration data model (`config.go`) -/

/-- An absolute, clean filesystem path, as its list of segments
(`/a/b` is `["a", "b"]`, the root is `[]`). -/
abbrev Path := List String

/-- A package from the configuration (already validated and normalized:
`Source` and `Targets` are absolute paths). -/
structure Package where
  source : Path
  targets : List Path
  noFold : List String
  fold : List String
  defaultFold : Bool
  deriving DecidableEq, Repr

/-- The configuration, after `Validate` compiled `IgnoreGlobs`. -/
structure Config where
  packages : List Package
  ignore : List String
  deriving DecidableEq, Repr

/-- The fixed `defaultIgnorePatterns` of `config.go`. -/
def defaultIgnorePatterns : List String :=
  [".DS_Store", ".git*", "README*", "LICENSE*", "COPYING"]

/-- `IgnoreGlobs` as computed by `Config.Validate`: defaults plus the
config-declared patterns. -/
def Config.ignoreGlobs (c : Config) : List String :=
  defaultIgnorePatterns ++ c.ignore

/-- `(c *Config) ShouldIgnore(path)`. -/
def Config.shouldIgnore (c : Config) (path : String) : Bool :=
  c.ignoreGlobs.any fun pattern => configMatchesPath pattern path

/-! ## The fold decision engine (`linker.go`, `shouldFold`) -/

/-- `/`-joining of relative path segments (the string form that the Go code
manipulates for relative paths). -/
def joinRel : List String → String
  | [] => ""
  | [x] => x
  | x :: y :: rest => x ++ "/" ++ joinRel (y :: rest)

/-- The relative-path construction shared by `linkDirectory` and
`shouldFold`: the current directory's path relative to the package source
(as segments, the Go `strings.TrimPrefix` of the absolute paths) joined
with the entry name (`filepath.Join(relativePath, entry.Name())`, or the
bare name at the top level). -/
def relString (parentRel : List String) (name : String) : String :=
  match parentRel with
  | [] => name
  | _ => joinRel parentRel ++ "/" ++ name

/-- The `no_fold` loop of `shouldFold`: a pattern that matches the candidate
relative path, or that denotes a path strictly nested under it
(`strings.HasPrefix(noFoldPath, relativePath+"/")`), forces no-fold. -/
def noFoldHit : List String → String → Bool
  | [], _ => false
  | p :: rest, relativePath =>
    if linkerMatchesPath p relativePath then true
    else if goHasPrefix p (relativePath ++ "/") then true
    else noFoldHit rest relativePath

/-- The `fold` loop of `shouldFold`. -/
def foldHit : List String → String → Bool
  | [], _ => false
  | p :: rest, relativePath =>
    if linkerMatchesPath p relativePath then true
    else foldHit rest relativePath

/-- `(l *Linker) shouldFold(dirName, currentPath, pkg)`.  `parentRel` is the
current directory's path relative to `pkg.source` (the result of the Go
`strings.TrimPrefix(currentPath, pkg.Source)` on the walk's clean paths). -/
def shouldFold (pkg : Package) (dirName : String) (parentRel : List String) : Bool :=
  let relativePath := relString parentRel dirName
  if noFoldHit pkg.noFold relativePath then false
  else if foldHit pkg.fold relativePath then true
  else pkg.defaultFold

/-! ## Filesystem model

A finite association of absolute paths to nodes.  A symlink stores the
destination exactly as `os.Readlink` would return it: either absolute, or
relative to the symlink's parent directory (relative destinations may
contain `..` segments, as produced by `filepath.Rel`).  Two fault-injection
sets model filesystem errors other than not-found: `statErr` for `os.Lstat`
and `removeErr` for `os.Remove`. -/

/-- A symlink destination as stored on disk: `isAbs` distinguishes an
absolute destination from one relative to the symlink's directory. -/
structure LinkDest where
  isAbs : Bool
  segs : List String
  deriving DecidableEq, Repr

/-- A filesystem node: regular file, directory, or symbolic link. -/
inductive FSNode where
  | file
  | dir
  | symlink (dest : LinkDest)
  deriving DecidableEq, Repr

/-- The filesystem state. -/
structure FS where
  entries : List (Path × FSNode)
  statErr : List Path
  removeErr : List Path
  deriving DecidableEq, Repr

/-- Node at a path (first binding wins; the operations below keep keys unique). -/
def FS.lookup (fs : FS) (p : Path) : Option FSNode :=
  (fs.entries.find? fun e => e.1 == p).map (·.2)

/-- Insert or overwrite the node at a path. -/
def FS.insert (fs : FS) (p : Path) (n : FSNode) : FS :=
  { fs with entries := (p, n) :: fs.entries.filter fun e => e.1 != p }

/-- Delete the node at a path. -/
def FS.erase (fs : FS) (p : Path) : FS :=
  { fs with entries := fs.entries.filter fun e => e.1 != p }

/-- `os.Lstat`: `.error ()` is a stat failure other than not-found,
`.ok none` is not-found, `.ok (some n)` is the node (links not followed). -/
def FS.lstat (fs : FS) (p : Path) : Except Unit (Option FSNode) :=
  if fs.statErr.contains p then .error ()
  else .ok (fs.lookup p)

/-- Outcome of `os.Remove`. -/
inductive RemoveOutcome where
  | ok
  | notExist
  | failed
  deriving DecidableEq, Repr

/-- `os.Remove`: fails (with an error other than not-found) on an injected
fault or on a non-empty directory; not-found is its own outcome. -/
def FS.removeOp (fs : FS) (p : Path) : FS × RemoveOutcome :=
  if fs.removeErr.contains p then (fs, .failed)
  else match fs.lookup p with
    | none => (fs, .notExist)
    | some .dir =>
      if fs.entries.any (fun e => p.isPrefixOf e.1 && e.1 != p) then (fs, .failed)
      else (fs.erase p, .ok)
    | some _ => (fs.erase p, .ok)

/-- One step of lexical path cleaning: `..` pops a segment, `.` and empty
segments vanish, anything else is kept. -/
def cleanStep (acc : List String) (s : String) : List String :=
  if s = "." ∨ s = "" then acc
  else if s = ".." then acc.dropLast
  else acc ++ [s]

/-- Lexical path cleaning of an absolute path's segments (the segment-level
effect of `filepath.Clean` on our paths). -/
def cleanSegs (segs : List String) : List String :=
  segs.foldl cleanStep []

/-- Resolution of a symlink destination to an absolute path, as done at
`linker.go:190-193` and `lockfile.go:140-143`: an absolute destination is
used as-is; a relative one is `filepath.Join`ed with the symlink's parent
directory (which cleans the `..` segments away). -/
def LinkDest.resolve (d : LinkDest) (linkPath : Path) : Path :=
  if d.isAbs then d.segs
  else cleanSegs (linkPath.dropLast ++ d.segs)

/-- `os.IsNotExist(err)` for `os.Stat(p)` (follows symlink chains; a cycle
exhausts the fuel and yields `false`, as `ELOOP` is not a not-found error). -/
def FS.statNotExist (fs : FS) : Nat → Path → Bool
  | 0, _ => false
  | fuel + 1, p =>
    match fs.lookup p with
    | none => true
    | some (.symlink d) => fs.statNotExist fuel (d.resolve p)
    | some _ => false

/-- `filepath.Rel(base, targ)` for clean absolute segment paths: strip the
common prefix, then climb with `..` segments (`[]` plays the role of Go's
`"."` for equal paths; it resolves identically). -/
def goRel : Path → Path → List String
  | b :: bs, t :: ts =>
    if b = t then goRel bs ts
    else List.replicate (bs.length + 1) ".." ++ (t :: ts)
  | [], ts => ts
  | bs, [] => List.replicate bs.length ".."

/-! ## Lockfile model (`internal/lockfile/lockfile.go`) -/

/-- A lockfile entry (`Symlink` in `lockfile.go`). -/
structure SymlinkRec where
  source : Path
  target : Path
  created : Nat
  isFolded : Bool
  deriving DecidableEq, Repr

/-- The lockfile (`LockFile` in `lockfile.go`); `symlinks` is the
target-keyed map, kept with unique keys by `addSymlink`. -/
structure LockFile where
  version : String
  updated : Nat
  symlinks : List (Path × SymlinkRec)
  deriving DecidableEq, Repr

/-- `lockfile.New()` (time passed explicitly). -/
def lockNew (now : Nat) : LockFile :=
  { version := "1.0", updated := now, symlinks := [] }

/-- Record lookup by target key. -/
def LockFile.lookup (l : LockFile) (target : Path) : Option SymlinkRec :=
  (l.symlinks.find? fun e => e.1 == target).map (·.2)

/-- `(l *LockFile) AddSymlink(target, source, isFolded)`: insert or
overwrite the record keyed by `target` (`time.Now()` passed as `now`). -/
def LockFile.addSymlink (l : LockFile) (target source : Path) (isFolded : Bool)
    (now : Nat) : LockFile :=
  { l with symlinks :=
      (target, { source := source, target := target, created := now, isFolded := isFolded })
        :: l.symlinks.filter fun e => e.1 != target }

/-- `(l *LockFile) RemoveSymlink(target)`: delete the record if present. -/
def LockFile.removeSymlink (l : LockFile) (target : Path) : LockFile :=
  { l with symlinks := l.symlinks.filter fun e => e.1 != target }

/-- Byte-order comparison of two absolute paths as Go `sort.Strings`
compares their joined string forms (all keys are absolute `/`-joined
strings; for such strings byte order coincides with this segment-wise
lexicographic order on characters). -/
def pathLe (a b : Path) : Bool :=
  let x := (String.intercalate "/" a).toList
  let y := (String.intercalate "/" b).toList
  decide (List.Lex (· < ·) x y) || x == y

/-- Insertion sort of path keys (ascending; keys are unique, so this agrees
with `sort.Strings`). -/
def insertPath (x : Path) : List Path → List Path
  | [] => [x]
  | y :: ys => if pathLe x y then x :: y :: ys else y :: insertPath x ys

/-- `sort.Strings` over the key list. -/
def sortPaths : List Path → List Path
  | [] => []
  | x :: xs => insertPath x (sortPaths xs)

/-- `(m SymlinkMap) Sorted()`: the records in ascending order of their
target keys. -/
def LockFile.sorted (l : LockFile) : List SymlinkRec :=
  (sortPaths (l.symlinks.map (·.1))).filterMap fun k =>
    ((l.symlinks.find? fun e => e.1 == k).map (·.2))

/-- The body of the `GetDeadSymlinks` loop for one record: `.error` aborts
the whole operation (a stat failure other than not-found), `.ok true`
classifies the record's target dead. -/
def deadCheck (fs : FS) (r : SymlinkRec) : Except Unit Bool :=
  match fs.lstat r.target with
  | .error _ => .error ()
  | .ok none => .ok true
  | .ok (some n) =>
    match n with
    | .symlink d =>
      let linkDestAbs := d.resolve r.target
      if fs.statNotExist (fs.entries.length + 1) linkDestAbs then .ok true
      else if linkDestAbs ≠ r.source then .ok true
      else .ok false
    | _ => .ok false

/-- The `GetDeadSymlinks` loop over the sorted records. -/
def deadLoop (fs : FS) : List SymlinkRec → Except Unit (List Path)
  | [] => .ok []
  | r :: rest =>
    match deadCheck fs r with
    | .error _ => .error ()
    | .ok true => (deadLoop fs rest).map (r.target :: ·)
    | .ok false => deadLoop fs rest

/-- `(l *LockFile) GetDeadSymlinks()`. -/
def getDeadSymlinks (fs : FS) (l : LockFile) : Except Unit (List Path) :=
  deadLoop fs l.sorted

/-! ## The tree linker (`internal/linker/linker.go`) -/

/-- Errors produced by the linker (`fmt.Errorf` values, identified by kind
and path). -/
inductive GoError where
  | removeDead (p : Path)
  | readDir (p : Path)
  | mkdir (p : Path)
  | conflict (p : Path)
  | removeExisting (p : Path)
  | symlinkFailed (p : Path)
  | removeSymlink (p : Path)
  deriving DecidableEq, Repr

/-- The linker's mutable state during one invocation: the filesystem, the
lock store, and the `LinkResult` fields. -/
structure LinkState where
  fs : FS
  lock : LockFile
  created : List Path
  removed : List Path
  errors : List GoError
  deriving DecidableEq, Repr

/-- The ancestor walk of `os.MkdirAll`: starting below the (always
existing) root, each successive ancestor that is already a directory is
kept, a missing one is created, and an existing non-directory stops the
operation with an error — the same effect as `os.MkdirAll`'s parent-first
recursion.  (Symlink-to-directory following is not modelled; in every state
the proofs reach, the ancestors are directories or absent.) -/
def mkdirAllFrom (fs : FS) (pre : Path) : List String → Except GoError FS
  | [] => .ok fs
  | x :: rest =>
    match fs.lookup (pre ++ [x]) with
    | some .dir => mkdirAllFrom fs (pre ++ [x]) rest
    | some _ => .error (.mkdir (pre ++ [x]))
    | none => mkdirAllFrom (fs.insert (pre ++ [x]) .dir) (pre ++ [x]) rest

/-- `os.MkdirAll(p, 0755)`. -/
def FS.mkdirAll (fs : FS) (p : Path) : Except GoError FS :=
  mkdirAllFrom fs [] p

/-- The creation tail of `createSymlink` (`linker.go:212-226`): compute the
relative destination, create the symlink (skipped in dry-run; an occupied
target makes the `os.Symlink` call fail), then record the link and append
it to the created list. -/
def createFinish (dryRun : Bool) (now : Nat) (source target : Path) (isFolded : Bool)
    (s : LinkState) : LinkState × Option GoError :=
  if dryRun then
    ({ s with lock := s.lock.addSymlink target source isFolded now,
              created := s.created ++ [target] }, none)
  else
    let relSource := goRel target.dropLast source
    match s.fs.lookup target with
    | some _ => (s, some (.symlinkFailed target))
    | none =>
      ({ s with fs := s.fs.insert target (.symlink ⟨false, relSource⟩),
                lock := s.lock.addSymlink target source isFolded now,
                created := s.created ++ [target] }, none)

/-- The existing-target check of `createSymlink` (`linker.go:187-210`),
run after the parent directories exist: verify or replace an existing
symlink, reject a non-symlink occupant, and fall through to the creation
tail. -/
def createCheck (dryRun : Bool) (now : Nat) (source target : Path) (isFolded : Bool)
    (st1 : LinkState) : LinkState × Option GoError :=
  match st1.fs.lstat target with
  | .ok (some existing) =>
    match existing with
    | .symlink d =>
      if d.resolve target = source then
        ({ st1 with lock := st1.lock.addSymlink target source isFolded now }, none)
      else if dryRun then createFinish dryRun now source target isFolded st1
      else
        match st1.fs.removeOp target with
        | (_, .failed) => (st1, some (.removeExisting target))
        | (fs2, _) => createFinish dryRun now source target isFolded { st1 with fs := fs2 }
    | _ => (st1, some (.conflict target))
  | _ => createFinish dryRun now source target isFolded st1

/-- `(l *Linker) createSymlink(source, target, isFolded, result)`:
returns the updated state and, on failure, the error that the caller
(`linkDirectory`) propagates.  Mutations made before a failure are kept. -/
def createSymlink (dryRun : Bool) (now : Nat) (source target : Path) (isFolded : Bool)
    (st : LinkState) : LinkState × Option GoError :=
  match (if dryRun then Except.ok st.fs else st.fs.mkdirAll target.dropLast) with
  | .error e => (st, some e)
  | .ok fs1 => createCheck dryRun now source target isFolded { st with fs := fs1 }

/-- The `(name, node)` pair a directory listing of `p` reports for a
sorted key `n` (a singleton name path). -/
def dirChild (fs : FS) (p : Path) : Path → Option (String × FSNode)
  | [name] => (fs.lookup (p ++ [name])).map (name, ·)
  | _ => none

/-- `os.ReadDir(p)`: the children of a directory, as sorted unique
`(name, node)` pairs; an error if `p` is not a directory. -/
def FS.readDir (fs : FS) (p : Path) : Except GoError (List (String × FSNode)) :=
  match fs.lookup p with
  | some .dir =>
    let names := (fs.entries.filterMap fun e =>
      if e.1.dropLast == p && e.1 != ([] : Path) then e.1.getLast? else none).dedup
    .ok ((sortPaths (names.map ([·]))).filterMap (dirChild fs p))
  | _ => .error (.readDir p)

/-- A pending step of the recursive tree walk: enter a directory (the body
of `linkDirectory`), or process the remaining entries of one (its loop). -/
inductive WalkTask where
  | dir (source target : Path)
  | entries (source target : Path) (es : List (String × FSNode))
  deriving DecidableEq, Repr

/-- The recursive walk of `linkDirectory`/its entry loop, as one function
structurally recursive on `fuel` (which bounds the number of walk steps;
exhaustion is modelled as a read error, never reached when `fuel` exceeds
the walked tree's size, and surfacing in `errors` so that error-free runs
never exhaust it).  Ignored entries are skipped; a directory is folded or
recursed per `shouldFold`; files get symlinks; the first error aborts the
walk of this package/target pair (the Go `return err`). -/
def walkGo (dryRun : Bool) (cfg : Config) (pkg : Package) (now : Nat) :
    Nat → WalkTask → LinkState → LinkState × Option GoError
  | 0, t, st =>
    (st, some (.readDir (match t with | .dir s _ => s | .entries s _ _ => s)))
  | fuel + 1, .dir source target, st =>
    match st.fs.readDir source with
    | .error e => (st, some e)
    | .ok entries => walkGo dryRun cfg pkg now fuel (.entries source target entries) st
  | _ + 1, .entries _ _ [], st => (st, none)
  | fuel + 1, .entries source target ((name, node) :: rest), st =>
    let parentRel := source.drop pkg.source.length
    if cfg.shouldIgnore (relString parentRel name) then
      walkGo dryRun cfg pkg now fuel (.entries source target rest) st
    else
      let sourcePath := source ++ [name]
      let targetPath := target ++ [name]
      match node with
      | .dir =>
        if shouldFold pkg name parentRel then
          match createSymlink dryRun now sourcePath targetPath true st with
          | (st2, some e) => (st2, some e)
          | (st2, none) => walkGo dryRun cfg pkg now fuel (.entries source target rest) st2
        else
          match walkGo dryRun cfg pkg now fuel (.dir sourcePath targetPath) st with
          | (st2, some e) => (st2, some e)
          | (st2, none) => walkGo dryRun cfg pkg now fuel (.entries source target rest) st2
      | _ =>
        match createSymlink dryRun now sourcePath targetPath false st with
        | (st2, some e) => (st2, some e)
        | (st2, none) => walkGo dryRun cfg pkg now fuel (.entries source target rest) st2

/-- The source path of a pending walk task. -/
def WalkTask.src : WalkTask → Path
  | .dir s _ => s
  | .entries s _ _ => s

/-- The target path of a pending walk task. -/
def WalkTask.tgt : WalkTask → Path
  | .dir _ t => t
  | .entries _ t _ => t

/-- `(l *Linker) linkDirectory(source, target, pkg, result)`. -/
def linkDirectory (dryRun : Bool) (cfg : Config) (pkg : Package) (now : Nat)
    (fuel : Nat) (source target : Path) (st : LinkState) : LinkState × Option GoError :=
  walkGo dryRun cfg pkg now fuel (.dir source target) st

/-- The entry loop of `linkDirectory` over an entry list. -/
def linkEntries (dryRun : Bool) (cfg : Config) (pkg : Package) (now : Nat)
    (fuel : Nat) (source target : Path) (entries : List (String × FSNode))
    (st : LinkState) : LinkState × Option GoError :=
  walkGo dryRun cfg pkg now fuel (.entries source target entries) st

/-- The dead-link reconciliation loop at the top of `Link()`
(`linker.go:45-54`): remove each dead target from the filesystem (unless
dry-run; not-found tolerated), then drop its lock record and report it
removed; a removal failure is recorded and that target skipped, its record
kept. -/
def removeDeadLoop (dryRun : Bool) : List Path → LinkState → LinkState
  | [], st => st
  | dead :: rest, st =>
    if dryRun then
      removeDeadLoop dryRun rest
        { st with lock := st.lock.removeSymlink dead, removed := st.removed ++ [dead] }
    else
      match st.fs.removeOp dead with
      | (fs2, .failed) =>
        removeDeadLoop dryRun rest
          { st with fs := fs2, errors := st.errors ++ [.removeDead dead] }
      | (fs2, _) =>
        removeDeadLoop dryRun rest
          { st with fs := fs2, lock := st.lock.removeSymlink dead,
                    removed := st.removed ++ [dead] }

/-- `linkPackage` over one package's target list: a pair's error is appended
to the result's errors and the next pair continues. -/
def linkTargets (dryRun : Bool) (cfg : Config) (pkg : Package) (now fuel : Nat) :
    List Path → LinkState → LinkState
  | [], st => st
  | t :: ts, st =>
    match linkDirectory dryRun cfg pkg now fuel pkg.source t st with
    | (st2, some e) =>
      linkTargets dryRun cfg pkg now fuel ts { st2 with errors := st2.errors ++ [e] }
    | (st2, none) => linkTargets dryRun cfg pkg now fuel ts st2

/-- The package loop of `Link()`. -/
def linkPackages (dryRun : Bool) (cfg : Config) (now fuel : Nat) :
    List Package → LinkState → LinkState
  | [], st => st
  | p :: ps, st =>
    linkPackages dryRun cfg now fuel ps (linkTargets dryRun cfg p now fuel p.targets st)

/-- `(l *Linker) Link()`: reconcile dead links, then walk every
package/target pair.  `.error ()` is the fatal `GetDeadSymlinks` failure
(`return nil, err`); otherwise the final state carries the `LinkResult`
fields. -/
def Link (dryRun : Bool) (cfg : Config) (now fuel : Nat) (fs : FS) (lock : LockFile) :
    Except Unit LinkState :=
  match getDeadSymlinks fs lock with
  | .error _ => .error ()
  | .ok dead =>
    let st0 : LinkState :=
      { fs := fs, lock := lock, created := [], removed := [], errors := [] }
    let st1 := removeDeadLoop dryRun dead st0
    .ok (linkPackages dryRun cfg now fuel cfg.packages st1)

/-- The loop of `Unlink()` over the sorted records: remove from the
filesystem (unless dry-run; not-found tolerated), then drop the record and
report it removed; a removal failure is recorded and the record kept. -/
def unlinkLoop (dryRun : Bool) : List SymlinkRec → LinkState → LinkState
  | [], st => st
  | r :: rest, st =>
    if dryRun then
      unlinkLoop dryRun rest
        { st with lock := st.lock.removeSymlink r.target,
                  removed := st.removed ++ [r.target] }
    else
      match st.fs.removeOp r.target with
      | (fs2, .failed) =>
        unlinkLoop dryRun rest
          { st with fs := fs2, errors := st.errors ++ [.removeSymlink r.target] }
      | (fs2, _) =>
        unlinkLoop dryRun rest
          { st with fs := fs2, lock := st.lock.removeSymlink r.target,
                    removed := st.removed ++ [r.target] }

/-- `(l *Linker) Unlink()`. -/
def Unlink (dryRun : Bool) (fs : FS) (lock : LockFile) : LinkState :=
  unlinkLoop dryRun lock.sorted
    { fs := fs, lock := lock, created := [], removed := [], errors := [] }

/-! ## Lock store operation sequences (for the invariant claims) -/

/-- A mutation of the lock store: the two operations `AddSymlink` and
`RemoveSymlink`. -/
inductive LockOp where
  | add (target source : Path) (isFolded : Bool) (now : Nat)
  | remove (target : Path)
  deriving DecidableEq, Repr

/-- Apply one operation. -/
def applyOp (l : LockFile) : LockOp → LockFile
  | .add t s f n => l.addSymlink t s f n
  | .remove t => l.removeSymlink t

/-- Apply a sequence of operations, oldest first. -/
def applyOps (l : LockFile) : List LockOp → LockFile
  | [] => l
  | op :: ops => applyOps (applyOp l op) ops

/-- Reference semantics of a key under an operation sequence: the record
made by the last `add` for that key that is not followed by a `remove` of
that key. -/
def lastWrite (t : Path) : List LockOp → Option SymlinkRec → Option SymlinkRec
  | [], acc => acc
  | .add t2 s f n :: ops, acc =>
    lastWrite t ops (if t2 = t then some ⟨s, t2, n, f⟩ else acc)
  | .remove t2 :: ops, acc =>
    lastWrite t ops (if t2 = t then none else acc)

/-! ## Deadness predicates (C4) -/

/-- The per-record deadness test implemented by the `GetDeadSymlinks` loop
body (for a record whose lstat does not fault): dead target iff nothing at
the target path, or a symlink whose resolved destination does not exist or
differs from the record's source. -/
def isDeadRec (fs : FS) (r : SymlinkRec) : Bool :=
  match fs.lookup r.target with
  | none => true
  | some (.symlink d) =>
    fs.statNotExist (fs.entries.length + 1) (d.resolve r.target)
      || decide (d.resolve r.target ≠ r.source)
  | some _ => false

/-- The deadness predicate as the claim words it, for comparison with the
code: dead iff nothing exists at the target path, or the target is a
symlink whose resolved absolute destination does not equal the record's
source. -/
def claimDeadRec (fs : FS) (r : SymlinkRec) : Bool :=
  match fs.lookup r.target with
  | none => true
  | some (.symlink d) => decide (d.resolve r.target ≠ r.source)
  | some _ => false

/-- A filesystem with a tracked symlink that still points at its recorded
source, but whose source no longer exists. -/
def fsBrokenDest : FS :=
  ⟨[(["t"], .symlink ⟨true, ["s"]⟩)], [], []⟩

/-- The lockfile tracking `/t -> /s` in `fsBrokenDest`. -/
def lockBrokenDest : LockFile :=
  ⟨"1.0", 0, [(["t"], ⟨["s"], ["t"], 0, false⟩)]⟩

/-- A package `/s -> /t` with no fold or ignore rules. -/
def pkgPlain : Package := ⟨["s"], [["t"]], [], [], false⟩

/-- A configuration with just `pkgPlain`. -/
def cfgPlain : Config := ⟨[pkgPlain], []⟩

/-- A source tree `/s/a.txt`, `/s/sub/b.txt` with a regular file already
occupying the target path `/t/a.txt`. -/
def fsConflict : FS :=
  ⟨[(["s"], .dir), (["s", "a.txt"], .file), (["s", "sub"], .dir),
    (["s", "sub", "b.txt"], .file), (["t"], .dir), (["t", "a.txt"], .file)], [], []⟩

/-- Every level of the relative path `base ++ rel` below `base` down to its
end survives the ignore check: no nonempty prefix extension of `base` along
`rel` is matched by the merged ignore patterns. -/
def chainOK (cfg : Config) (base rel : List String) : Prop :=
  ∀ k, k < rel.length → cfg.shouldIgnore (joinRel (base ++ rel.take (k + 1))) = false

/-- A configuration ignoring the bare name `a`. -/
def cfgIgn : Config := ⟨[pkgPlain], ["a"]⟩

/-- A source tree `/s/a` with a healthy pre-existing tracked symlink
`/t/a -> /s/a`. -/
def fsIgn : FS :=
  ⟨[(["s"], .dir), (["s", "a"], .file), (["t"], .dir),
    (["t", "a"], .symlink ⟨true, ["s", "a"]⟩)], [], []⟩

/-- The lockfile tracking `/t/a -> /s/a` in `fsIgn`. -/
def lockIgn : LockFile :=
  ⟨"1.0", 0, [(["t", "a"], ⟨["s", "a"], ["t", "a"], 0, false⟩)]⟩

/-- A source tree `/s/a.txt` and an empty target directory `/t`. -/
def fsDry : FS :=
  ⟨[(["s"], .dir), (["s", "a.txt"], .file), (["t"], .dir)], [], []⟩

/-- The state produced by a dry-run `Link` of `cfgPlain` over `fsDry`. -/
def linkStateDry : LinkState :=
  (Link true cfgPlain 0 10 fsDry (lockNew 0)).toOption.getD
    ⟨fsDry, lockNew 0, [], [], []⟩

/-- A filesystem with two tracked files where removing `/bad` faults. -/
def fsRemFault : FS :=
  ⟨[(["bad"], .file), (["ok"], .file)], [], [["bad"]]⟩

/-- A lockfile tracking `/bad` and `/ok`. -/
def lockRemFault : LockFile :=
  ⟨"1.0", 0, [(["bad"], ⟨["s1"], ["bad"], 0, false⟩),
              (["ok"], ⟨["s2"], ["ok"], 0, false⟩)]⟩

/-! ## Definitions for the idempotence analysis (C1) -/

/-- A path segment that `filepath.Clean` leaves unchanged. -/
def plainSeg (s : String) : Bool :=
  s != "" && s != "." && s != ".."

/-- A path all of whose segments are plain. -/
def plainPath (p : Path) : Bool :=
  p.all plainSeg

/-- The entries of `fs` that lie at or below `root`, order preserved: the
portion of the filesystem that a tree walk rooted at `root` reads. -/
def srcEntries (root : Path) (fs : FS) : List (Path × FSNode) :=
  fs.entries.filter fun e => root.isPrefixOf e.1

/-- The `(source, target, folded)` triples for which the walk of a task
invokes `createSymlink`, computed over a reference filesystem `fs0`. -/
def walkCalls (cfg : Config) (pkg : Package) (fs0 : FS) :
    Nat → WalkTask → List (Path × Path × Bool)
  | 0, _ => []
  | fuel + 1, .dir source target =>
    match fs0.readDir source with
    | .error _ => []
    | .ok entries => walkCalls cfg pkg fs0 fuel (.entries source target entries)
  | _ + 1, .entries _ _ [] => []
  | fuel + 1, .entries source target ((name, node) :: rest) =>
    let parentRel := source.drop pkg.source.length
    if cfg.shouldIgnore (relString parentRel name) then
      walkCalls cfg pkg fs0 fuel (.entries source target rest)
    else
      match node with
      | .dir =>
        if shouldFold pkg name parentRel then
          (source ++ [name], target ++ [name], true)
            :: walkCalls cfg pkg fs0 fuel (.entries source target rest)
        else
          walkCalls cfg pkg fs0 fuel (.dir (source ++ [name]) (target ++ [name]))
            ++ walkCalls cfg pkg fs0 fuel (.entries source target rest)
      | _ =>
        (source ++ [name], target ++ [name], false)
          :: walkCalls cfg pkg fs0 fuel (.entries source target rest)

/-- A symlink at `q` resolving to `s` is established in `fs`. -/
def Estab (fs : FS) (s q : Path) : Prop :=
  ∃ d, fs.lookup q = some (.symlink d) ∧ d.resolve q = s

/-- Every strict ancestor of `q` below the root is a directory in `fs`
(so `os.MkdirAll` of `q`'s parent is a no-op). -/
def DirsOK (fs : FS) (q : Path) : Prop :=
  ∀ pre, pre <+: q.dropLast → pre ≠ [] → fs.lookup pre = some FSNode.dir

/-- A lock record that describes a live link: its target is a symlink
resolving to its source, and the source exists and is not itself a
symlink. -/
def HealthyRec (fs : FS) (r : SymlinkRec) : Prop :=
  Estab fs r.source r.target ∧
  ∃ nd, fs.lookup r.source = some nd ∧ ∀ d, nd ≠ FSNode.symlink d

/-- The geometric separation hypotheses of the idempotence theorem: no
package source lies at or inside any target (nor conversely), and nested
targets coincide and share their package source. -/
def SepConfig (cfg : Config) : Prop :=
  (∀ p1 ∈ cfg.packages, ∀ p2 ∈ cfg.packages, ∀ t ∈ p2.targets,
    ¬ p1.source <+: t ∧ ¬ t <+: p1.source) ∧
  (∀ p1 ∈ cfg.packages, ∀ p2 ∈ cfg.packages, ∀ t1 ∈ p1.targets,
    ∀ t2 ∈ p2.targets, t1 <+: t2 → t1 = t2 ∧ p1.source = p2.source)

/-- A source tree whose single entry is a dangling symlink. -/
def fsDangling : FS :=
  ⟨[(["s"], .dir), (["s", "a"], .symlink ⟨true, ["x"]⟩), (["t"], .dir)], [], []⟩

/-- Two packages with different sources projecting into the same target. -/
def cfgTwo : Config :=
  ⟨[⟨["s1"], [["t"]], [], [], false⟩, ⟨["s2"], [["t"]], [], [], false⟩], []⟩

/-- A filesystem for `cfgTwo`: both sources hold a file `a`. -/
def fsTwo : FS :=
  ⟨[(["s1"], .dir), (["s1", "a"], .file), (["s2"], .dir), (["s2", "a"], .file),
    (["t"], .dir)], [], []⟩

/-- An entry list agrees with the reference filesystem below `s`: each
listed child is the node `fs0` holds at that child path. -/
def EsOK (fs0 : FS) (s : Path) (es : List (String × FSNode)) : Prop :=
  ∀ p ∈ es, fs0.lookup (s ++ [p.1]) = some p.2

/-- The geometric well-formedness of a pending walk task of the pair
`(S, T)`: source and target extend `S` and `T` by the same plain relative
path, and an entry task's list agrees with the reference filesystem and
has distinct names. -/
def TaskGeom (fs0 : FS) (S T : Path) : WalkTask → Prop
  | .dir s t => ∃ r, s = S ++ r ∧ t = T ++ r ∧ plainPath r = true
  | .entries s t es => (∃ r, s = S ++ r ∧ t = T ++ r ∧ plainPath r = true) ∧
      EsOK fs0 s es ∧ (es.map Prod.fst).Nodup

/-- Two `createSymlink` calls have prefix-incomparable targets. -/
def TgtSep (c1 c2 : Path × Path × Bool) : Prop :=
  ¬ c1.2.1 <+: c2.2.1 ∧ ¬ c2.2.1 <+: c1.2.1

/-- The state produced by the first (non-dry) `Link` run of `cfgPlain`
over `fsDry` at time 1: the relative symlink `/t/a.txt -> ../s/a.txt` has
been created and recorded. -/
def linkStateRun1 : LinkState :=
  ⟨⟨[(["t", "a.txt"], .symlink ⟨false, ["..", "s", "a.txt"]⟩),
     (["s"], .dir), (["s", "a.txt"], .file), (["t"], .dir)], [], []⟩,
   ⟨"1.0", 0, [(["t", "a.txt"], ⟨["s", "a.txt"], ["t", "a.txt"], 1, false⟩)]⟩,
   [["t", "a.txt"]], [], []⟩

/-! ## Basic lock store lemmas -/

theorem find?_filter_ne (xs : List (Path × SymlinkRec)) (t2 t : Path) :
    ((xs.filter fun e => e.1 != t2).find? fun e => e.1 == t)
      = if t2 = t then none else xs.find? fun e => e.1 == t := by
  induction xs with
  | nil => by_cases h : t2 = t <;> simp [h]
  | cons x xs ih =>
    by_cases hx : x.1 = t2
    · by_cases ht : t2 = t <;>
        simp_all [List.filter_cons, List.find?_cons, bne, beq_iff_eq]
    · by_cases hxt : x.1 = t
      · by_cases ht : t2 = t <;>
          simp_all [List.filter_cons, List.find?_cons, bne, beq_iff_eq]
      · by_cases ht : t2 = t <;>
          simp_all [List.filter_cons, List.find?_cons, bne, beq_iff_eq]

theorem lookup_addSymlink (l : LockFile) (t2 s : Path) (f : Bool) (n : Nat) (t : Path) :
    (l.addSymlink t2 s f n).lookup t
      = if t2 = t then some ⟨s, t2, n, f⟩ else l.lookup t := by
  unfold LockFile.addSymlink LockFile.lookup
  by_cases h : t2 = t
  · rw [List.find?_cons_of_pos _ (by simp [beq_iff_eq, h])]
    simp [h]
  · rw [List.find?_cons_of_neg _ (by simp [beq_iff_eq, h]), find?_filter_ne]
    simp [h]

theorem lookup_removeSymlink (l : LockFile) (t2 t : Path) :
    (l.removeSymlink t2).lookup t = if t2 = t then none else l.lookup t := by
  unfold LockFile.removeSymlink LockFile.lookup
  rw [find?_filter_ne]
  by_cases h : t2 = t <;> simp [h]

theorem applyOps_lookup (ops : List LockOp) (l : LockFile) (t : Path) :
    (applyOps l ops).lookup t = lastWrite t ops (l.lookup t) := by
  induction ops generalizing l with
  | nil => rfl
  | cons op ops ih =>
    cases op with
    | add t2 s f n =>
      simp only [applyOps, applyOp, lastWrite, ih, lookup_addSymlink]
    | remove t2 =>
      simp only [applyOps, applyOp, lastWrite, ih, lookup_removeSymlink]

theorem lastWrite_target (t : Path) (ops : List LockOp) (acc : Option SymlinkRec)
    (hacc : ∀ r, acc = some r → r.target = t) :
    ∀ r, lastWrite t ops acc = some r → r.target = t := by
  induction ops generalizing acc with
  | nil => exact hacc
  | cons op ops ih =>
    cases op with
    | add t2 s f n =>
      refine ih _ ?_
      by_cases h : t2 = t
      · simp only [h, if_pos rfl]
        rintro r hr
        cases hr
        rfl
      · simp only [if_neg h]
        exact hacc
    | remove t2 =>
      refine ih _ ?_
      by_cases h : t2 = t
      · simp [h]
      · simp only [if_neg h]
        exact hacc

/-- C10: starting from the empty store made by `New` and applying any
sequence of `AddSymlink`/`RemoveSymlink` operations, every key of the
symlink map equals the `Target` field of the record stored under it, and
the record under a key is precisely the one written by the last `add` for
that key not cancelled by a later `remove` (so its `Source` and `IsFolded`
fields are that call's arguments). -/
theorem C10_lock_store_invariant (now : Nat) (ops : List LockOp) :
    (∀ t r, (applyOps (lockNew now) ops).lookup t = some r → r.target = t) ∧
    (∀ t, (applyOps (lockNew now) ops).lookup t = lastWrite t ops none) := by
  constructor
  · intro t r h
    rw [applyOps_lookup] at h
    have hbase : (lockNew now).lookup t = none := rfl
    rw [hbase] at h
    exact lastWrite_target t ops none (by intro r h; cases h) r h
  · intro t
    rw [applyOps_lookup]
    rfl

/-- Witness for C10 at a concrete operation sequence. -/
theorem C10_lock_store_invariant_witness :
    (applyOps (lockNew 0) [.add ["t"] ["s"] true 1, .remove ["u"]]).lookup ["t"]
      = lastWrite ["t"] [.add ["t"] ["s"] true 1, .remove ["u"]] none :=
  (C10_lock_store_invariant 0 [.add ["t"] ["s"] true 1, .remove ["u"]]).2 ["t"]

/-- C9: `AddSymlink` is idempotent: calling it twice with identical
target, source, folded (and clock) arguments leaves the lock store in
exactly the state of calling it once. -/
theorem C9_addSymlink_idempotent (l : LockFile) (target source : Path)
    (f : Bool) (now : Nat) :
    (l.addSymlink target source f now).addSymlink target source f now
      = l.addSymlink target source f now := by
  unfold LockFile.addSymlink
  simp [List.filter_cons, List.filter_filter]

/-! ## Fold decision precedence (C2) -/

theorem noFoldHit_eq_any (l : List String) (rel : String) :
    noFoldHit l rel
      = l.any fun p => linkerMatchesPath p rel || goHasPrefix p (rel ++ "/") := by
  induction l with
  | nil => rfl
  | cons p rest ih =>
    unfold noFoldHit
    by_cases h1 : linkerMatchesPath p rel = true
    · simp [h1]
    · by_cases h2 : goHasPrefix p (rel ++ "/") = true
      · simp [h1, h2]
      · simp only [Bool.not_eq_true] at h1 h2
        simp [h1, h2, ih]

theorem foldHit_eq_any (l : List String) (rel : String) :
    foldHit l rel = l.any fun p => linkerMatchesPath p rel := by
  induction l with
  | nil => rfl
  | cons p rest ih =>
    unfold foldHit
    by_cases h1 : linkerMatchesPath p rel = true
    · simp [h1]
    · simp only [Bool.not_eq_true] at h1
      simp [h1, ih]

/-- C2: `shouldFold` implements the precedence `no_fold > fold >
default_fold`: a `no_fold` pattern that matches the candidate relative
path, or that denotes a path strictly nested under it, forces `false`
(even when a `fold` pattern matches, and even when `default_fold` is set);
otherwise a matching `fold` pattern forces `true`; otherwise the package's
`default_fold` flag is returned. -/
theorem C2_shouldFold_precedence (pkg : Package) (dirName : String)
    (parentRel : List String) :
    ((∃ p ∈ pkg.noFold, linkerMatchesPath p (relString parentRel dirName) = true ∨
        goHasPrefix p (relString parentRel dirName ++ "/") = true) →
      shouldFold pkg dirName parentRel = false) ∧
    ((∀ p ∈ pkg.noFold, linkerMatchesPath p (relString parentRel dirName) = false ∧
        goHasPrefix p (relString parentRel dirName ++ "/") = false) →
      ((∃ p ∈ pkg.fold, linkerMatchesPath p (relString parentRel dirName) = true) →
        shouldFold pkg dirName parentRel = true) ∧
      ((∀ p ∈ pkg.fold, linkerMatchesPath p (relString parentRel dirName) = false) →
        shouldFold pkg dirName parentRel = pkg.defaultFold)) := by
  unfold shouldFold
  constructor
  · rintro ⟨p, hp, hcase⟩
    have hhit : noFoldHit pkg.noFold (relString parentRel dirName) = true := by
      rw [noFoldHit_eq_any, List.any_eq_true]
      exact ⟨p, hp, by rcases hcase with h | h <;> simp [h]⟩
    simp [hhit]
  · intro hno
    have hhit : noFoldHit pkg.noFold (relString parentRel dirName) = false := by
      rw [noFoldHit_eq_any]
      rw [List.any_eq_false]
      intro p hp
      rcases hno p hp with ⟨h1, h2⟩
      simp [h1, h2]
    constructor
    · rintro ⟨p, hp, hmatch⟩
      have hf : foldHit pkg.fold (relString parentRel dirName) = true := by
        rw [foldHit_eq_any, List.any_eq_true]
        exact ⟨p, hp, hmatch⟩
      simp [hhit, hf]
    · intro hfold
      have hf : foldHit pkg.fold (relString parentRel dirName) = false := by
        rw [foldHit_eq_any, List.any_eq_false]
        intro p hp
        simp [hfold p hp]
      simp [hhit, hf]

/-- Witness for C2: a directory matched by both a `fold` and a `no_fold`
pattern is not folded, and a directory whose strict descendant is named by
`no_fold` is not folded even with `default_fold: true`. -/
theorem C2_shouldFold_precedence_witness :
    shouldFold ⟨["s"], [["t"]], ["conf"], ["conf"], true⟩ "conf" [] = false ∧
    shouldFold ⟨["s"], [["t"]], ["conf/nvim/init.lua"], [], true⟩ "conf" [] = false :=
  ⟨(C2_shouldFold_precedence ⟨["s"], [["t"]], ["conf"], ["conf"], true⟩ "conf" []).1
      ⟨"conf", by decide, Or.inl (by decide)⟩,
   (C2_shouldFold_precedence ⟨["s"], [["t"]], ["conf/nvim/init.lua"], [], true⟩ "conf" []).1
      ⟨"conf/nvim/init.lua", by decide, Or.inr (by decide)⟩⟩

/-! ## The path matcher and the sliding window (C5) -/

/-- C5 counterexample: the claimed equivalence between the path matcher and
sliding-window alignment fails in both directions on the code.  The
linker-level matcher rejects `a/b` against `x/a/b` although the window
aligns at offset 1 (it only aligns the pattern with the path's leading
segments), and the config-level matcher accepts `spoon/annotations` against
`EmmyLua.spoon/annotations` by substring containment although no window
aligns. -/
theorem C5_counterexample :
    1 < (splitSlash "a/b").length ∧
    slidingWindowMatch (splitSlash "a/b") (splitSlash "x/a/b") = true ∧
    linkerMatchesPath "a/b" "x/a/b" = false ∧
    1 < (splitSlash "spoon/annotations").length ∧
    slidingWindowMatch (splitSlash "spoon/annotations")
      (splitSlash "EmmyLua.spoon/annotations") = false ∧
    configMatchesPath "spoon/annotations" "EmmyLua.spoon/annotations" = true := by
  decide

/-- C5 (amended): a successful sliding-window alignment at any offset makes
the config-level matcher succeed (the converse fails: it also accepts
substring containment), while the linker-level matcher is only guaranteed
to succeed when the pattern's segments glob-match the path's leading
segments (alignment at offset zero). -/
theorem C5_matchesPath_window (pattern path : String) :
    (1 < (splitSlash pattern).length →
      slidingWindowMatch (splitSlash pattern) (splitSlash path) = true →
      configMatchesPath pattern path = true) ∧
    (leadingSegmentsMatch (splitSlash pattern) (splitSlash path) = true →
      linkerMatchesPath pattern path = true) := by
  constructor
  · intro hlen hwin
    unfold configMatchesPath
    by_cases h1 : pattern = path
    · simp [h1]
    · by_cases h2 : goHasPrefix path (pattern ++ "/") = true
      · simp [h1, h2]
      · simp only [Bool.not_eq_true] at h2
        simp [h1, h2, hlen, hwin]
  · intro hlead
    unfold linkerMatchesPath
    by_cases h1 : pattern = path
    · simp [h1]
    · by_cases h2 : filepathMatch pattern path = true
      · simp [h1, h2]
      · by_cases h3 : goHasPrefix path (pattern ++ "/") = true
        · simp [h1, h2, h3]
        · simp only [Bool.not_eq_true] at h2 h3
          simp [h1, h2, h3, hlead]

/-- Witness for C5 (amended) at concrete inputs. -/
theorem C5_matchesPath_window_witness :
    configMatchesPath "a/b" "x/a/b" = true ∧ linkerMatchesPath "a/b" "a/b/c" = true :=
  ⟨(C5_matchesPath_window "a/b" "x/a/b").1 (by decide) (by decide),
   (C5_matchesPath_window "a/b" "a/b/c").2 (by decide)⟩

/-! ## Dead-link detection (C4) -/

theorem deadCheck_eq_isDeadRec (fs : FS) (r : SymlinkRec)
    (h : fs.statErr.contains r.target = false) :
    deadCheck fs r = .ok (isDeadRec fs r) := by
  unfold deadCheck isDeadRec FS.lstat
  rw [h]
  simp only [Bool.false_eq_true, if_false]
  cases hl : fs.lookup r.target with
  | none => rfl
  | some n =>
    cases n with
    | file => rfl
    | dir => rfl
    | symlink d =>
      by_cases h1 : fs.statNotExist (fs.entries.length + 1) (d.resolve r.target) = true
      · simp [h1]
      · simp only [Bool.not_eq_true] at h1
        by_cases h2 : d.resolve r.target = r.source
        · rw [h2] at h1
          simp [h1, h2]
        · simp [h1, h2]

theorem deadLoop_eq_filter (fs : FS) (recs : List SymlinkRec)
    (h : ∀ r ∈ recs, fs.statErr.contains r.target = false) :
    deadLoop fs recs = .ok ((recs.filter (isDeadRec fs)).map (·.target)) := by
  induction recs with
  | nil => rfl
  | cons r rest ih =>
    have hr := h r (List.mem_cons_self r rest)
    have hrest := ih fun x hx => h x (List.mem_cons_of_mem r hx)
    unfold deadLoop
    rw [deadCheck_eq_isDeadRec fs r hr]
    by_cases hd : isDeadRec fs r = true
    · simp [hd, hrest, List.filter_cons, Except.map]
    · simp only [Bool.not_eq_true] at hd
      simp [hd, hrest, List.filter_cons]

theorem deadLoop_error (fs : FS) (recs : List SymlinkRec) (r : SymlinkRec)
    (hmem : r ∈ recs) (herr : fs.statErr.contains r.target = true) :
    deadLoop fs recs = .error () := by
  induction recs with
  | nil => cases hmem
  | cons x rest ih =>
    unfold deadLoop
    rcases List.mem_cons.mp hmem with heq | hrest
    · subst heq
      have : deadCheck fs r = .error () := by
        unfold deadCheck FS.lstat
        rw [herr]
        rfl
      rw [this]
    · cases hx : deadCheck fs x with
      | error e => rfl
      | ok b =>
        cases b
        · exact ih hrest
        · rw [ih hrest]
          rfl

/-- C4 counterexample: `GetDeadSymlinks` classifies dead a tracked symlink
that still resolves exactly to its recorded source when that source no
longer exists, which the claim's "exactly those ... whose resolved absolute
destination does not equal the record's source" excludes. -/
theorem C4_counterexample :
    getDeadSymlinks fsBrokenDest lockBrokenDest = .ok [["t"]] ∧
    (∃ d, fsBrokenDest.lookup ["t"] = some (.symlink d) ∧
      d.resolve ["t"] = (⟨["s"], ["t"], 0, false⟩ : SymlinkRec).source) ∧
    claimDeadRec fsBrokenDest ⟨["s"], ["t"], 0, false⟩ = false := by
  refine ⟨by rfl, ⟨⟨true, ["s"]⟩, by rfl, by rfl⟩, by rfl⟩

/-- C4 (amended): `GetDeadSymlinks` visits the records in sorted-by-target
order and, when no stat fault occurs, returns exactly the targets that are
dead, where dead means: nothing exists at the target path, or the target is
a symlink whose resolved absolute destination does not exist or does not
equal the record's source; a path occupied by an existing non-symlink is
never classified dead; and a stat failure other than not-found on any
visited target makes the whole operation return an error. -/
theorem C4_getDeadSymlinks (fs : FS) (l : LockFile) :
    ((∀ r ∈ l.sorted, fs.statErr.contains r.target = false) →
      getDeadSymlinks fs l = .ok ((l.sorted.filter (isDeadRec fs)).map (·.target))) ∧
    (∀ r ∈ l.sorted, fs.statErr.contains r.target = true →
      getDeadSymlinks fs l = .error ()) ∧
    (∀ r, (∃ n, fs.lookup r.target = some n ∧ ∀ d, n ≠ .symlink d) →
      isDeadRec fs r = false) := by
  refine ⟨fun h => deadLoop_eq_filter fs l.sorted h,
    fun r hr herr => deadLoop_error fs l.sorted r hr herr, ?_⟩
  rintro r ⟨n, hn, hnot⟩
  unfold isDeadRec
  rw [hn]
  cases n with
  | file => rfl
  | dir => rfl
  | symlink d => exact absurd rfl (hnot d)

/-- Witness for C4 (amended) at a concrete store. -/
theorem C4_getDeadSymlinks_witness :
    getDeadSymlinks fsBrokenDest lockBrokenDest
      = .ok ((lockBrokenDest.sorted.filter (isDeadRec fsBrokenDest)).map (·.target)) :=
  (C4_getDeadSymlinks fsBrokenDest lockBrokenDest).1 (by decide)

/-! ## Removal failure semantics (C7) -/

theorem unlinkLoop_cons (x : SymlinkRec) (rest : List SymlinkRec) (st : LinkState) :
    unlinkLoop false (x :: rest) st =
      if (st.fs.removeOp x.target).2 = .failed then
        unlinkLoop false rest
          { st with fs := (st.fs.removeOp x.target).1,
                    errors := st.errors ++ [.removeSymlink x.target] }
      else
        unlinkLoop false rest
          { st with fs := (st.fs.removeOp x.target).1,
                    lock := st.lock.removeSymlink x.target,
                    removed := st.removed ++ [x.target] } := by
  rcases h : st.fs.removeOp x.target with ⟨fs2, out⟩
  simp only [unlinkLoop, h]
  cases out <;> simp

theorem removeDeadLoop_cons (d : Path) (rest : List Path) (st : LinkState) :
    removeDeadLoop false (d :: rest) st =
      if (st.fs.removeOp d).2 = .failed then
        removeDeadLoop false rest
          { st with fs := (st.fs.removeOp d).1,
                    errors := st.errors ++ [.removeDead d] }
      else
        removeDeadLoop false rest
          { st with fs := (st.fs.removeOp d).1,
                    lock := st.lock.removeSymlink d,
                    removed := st.removed ++ [d] } := by
  rcases h : st.fs.removeOp d with ⟨fs2, out⟩
  simp only [removeDeadLoop, h]
  cases out <;> simp

theorem unlinkLoop_errors_mono (recs : List SymlinkRec) (st : LinkState)
    (e : GoError) (he : e ∈ st.errors) : e ∈ (unlinkLoop false recs st).errors := by
  induction recs generalizing st with
  | nil => exact he
  | cons x rest ih =>
    rw [unlinkLoop_cons]
    by_cases hf : (st.fs.removeOp x.target).2 = .failed
    · simp only [if_pos hf]
      exact ih _ (by simp [he])
    · simp only [if_neg hf]
      exact ih _ he

theorem unlinkLoop_removed_mono (recs : List SymlinkRec) (st : LinkState)
    (p : Path) (hp : p ∈ st.removed) : p ∈ (unlinkLoop false recs st).removed := by
  induction recs generalizing st with
  | nil => exact hp
  | cons x rest ih =>
    rw [unlinkLoop_cons]
    by_cases hf : (st.fs.removeOp x.target).2 = .failed
    · simp only [if_pos hf]
      exact ih _ hp
    · simp only [if_neg hf]
      exact ih _ (by simp [hp])

theorem unlinkLoop_removed_sub (recs : List SymlinkRec) (st : LinkState)
    (p : Path) (hp : p ∈ (unlinkLoop false recs st).removed) :
    p ∈ st.removed ∨ p ∈ recs.map (·.target) := by
  induction recs generalizing st with
  | nil => exact Or.inl hp
  | cons x rest ih =>
    rw [unlinkLoop_cons] at hp
    by_cases hf : (st.fs.removeOp x.target).2 = .failed
    · rw [if_pos hf] at hp
      rcases ih _ hp with h | h
      · exact Or.inl h
      · exact Or.inr (by simp [h])
    · rw [if_neg hf] at hp
      rcases ih _ hp with h | h
      · rcases List.mem_append.mp h with h2 | h2
        · exact Or.inl h2
        · exact Or.inr (by simp [List.mem_singleton.mp h2])
      · exact Or.inr (by simp [h])

theorem unlinkLoop_lock_frame (recs : List SymlinkRec) (st : LinkState)
    (t : Path) (ht : t ∉ recs.map (·.target)) :
    (unlinkLoop false recs st).lock.lookup t = st.lock.lookup t := by
  induction recs generalizing st with
  | nil => rfl
  | cons x rest ih =>
    have hx : x.target ≠ t := fun h => ht (by simp [← h])
    have hrest : t ∉ rest.map (·.target) := fun h => ht (by simp [h])
    rw [unlinkLoop_cons]
    by_cases hf : (st.fs.removeOp x.target).2 = .failed
    · simp only [if_pos hf]
      exact ih _ hrest
    · simp only [if_neg hf]
      rw [ih _ hrest]
      simp [lookup_removeSymlink, hx]

theorem unlinkLoop_spec (recs : List SymlinkRec) (st : LinkState)
    (hnodup : (recs.map (·.target)).Nodup)
    (r : SymlinkRec) (hr : r ∈ recs) (hfresh : r.target ∉ st.removed) :
    (GoError.removeSymlink r.target ∈ (unlinkLoop false recs st).errors ∧
      (unlinkLoop false recs st).lock.lookup r.target = st.lock.lookup r.target ∧
      r.target ∉ (unlinkLoop false recs st).removed) ∨
    (r.target ∈ (unlinkLoop false recs st).removed ∧
      (unlinkLoop false recs st).lock.lookup r.target = none) := by
  induction recs generalizing st with
  | nil => cases hr
  | cons x rest ih =>
    have hnodup2 : (rest.map (·.target)).Nodup := (List.nodup_cons.mp hnodup).2
    have hxnotin : x.target ∉ rest.map (·.target) := (List.nodup_cons.mp hnodup).1
    rw [unlinkLoop_cons]
    rcases List.mem_cons.mp hr with heq | hmem
    · subst heq
      by_cases hf : (st.fs.removeOp r.target).2 = .failed
      · simp only [if_pos hf]
        left
        refine ⟨unlinkLoop_errors_mono _ _ _ (by simp), ?_, ?_⟩
        · exact unlinkLoop_lock_frame _ _ _ hxnotin
        · intro hmem2
          rcases unlinkLoop_removed_sub _ _ _ hmem2 with h | h
          · exact hfresh (by simpa using h)
          · exact hxnotin h
      · simp only [if_neg hf]
        right
        refine ⟨unlinkLoop_removed_mono _ _ _ (by simp), ?_⟩
        rw [unlinkLoop_lock_frame _ _ _ hxnotin]
        simp [lookup_removeSymlink]
    · have hne : x.target ≠ r.target := by
        intro h
        exact hxnotin (h ▸ List.mem_map_of_mem (·.target) hmem)
      by_cases hf : (st.fs.removeOp x.target).2 = .failed
      · simp only [if_pos hf]
        exact ih _ hnodup2 hmem hfresh
      · simp only [if_neg hf]
        have : r.target ∉ st.removed ++ [x.target] := by
          intro h
          rcases List.mem_append.mp h with h2 | h2
          · exact hfresh h2
          · exact hne (List.mem_singleton.mp h2).symm
        have hres := ih ⟨(st.fs.removeOp x.target).1, st.lock.removeSymlink x.target,
          st.created, st.removed ++ [x.target], st.errors⟩ hnodup2 hmem this
        rcases hres with ⟨h1, h2, h3⟩ | ⟨h1, h2⟩
        · left
          refine ⟨h1, ?_, h3⟩
          rw [h2]
          simp [lookup_removeSymlink, hne]
        · exact Or.inr ⟨h1, h2⟩

theorem removeDeadLoop_errors_mono (deads : List Path) (st : LinkState)
    (e : GoError) (he : e ∈ st.errors) : e ∈ (removeDeadLoop false deads st).errors := by
  induction deads generalizing st with
  | nil => exact he
  | cons d rest ih =>
    rw [removeDeadLoop_cons]
    by_cases hf : (st.fs.removeOp d).2 = .failed
    · simp only [if_pos hf]
      exact ih _ (by simp [he])
    · simp only [if_neg hf]
      exact ih _ he

theorem removeDeadLoop_removed_mono (deads : List Path) (st : LinkState)
    (p : Path) (hp : p ∈ st.removed) : p ∈ (removeDeadLoop false deads st).removed := by
  induction deads generalizing st with
  | nil => exact hp
  | cons d rest ih =>
    rw [removeDeadLoop_cons]
    by_cases hf : (st.fs.removeOp d).2 = .failed
    · simp only [if_pos hf]
      exact ih _ hp
    · simp only [if_neg hf]
      exact ih _ (by simp [hp])

theorem removeDeadLoop_removed_sub (deads : List Path) (st : LinkState)
    (p : Path) (hp : p ∈ (removeDeadLoop false deads st).removed) :
    p ∈ st.removed ∨ p ∈ deads := by
  induction deads generalizing st with
  | nil => exact Or.inl hp
  | cons d rest ih =>
    rw [removeDeadLoop_cons] at hp
    by_cases hf : (st.fs.removeOp d).2 = .failed
    · rw [if_pos hf] at hp
      rcases ih _ hp with h | h
      · exact Or.inl h
      · exact Or.inr (by simp [h])
    · rw [if_neg hf] at hp
      rcases ih _ hp with h | h
      · rcases List.mem_append.mp h with h2 | h2
        · exact Or.inl h2
        · exact Or.inr (by simp [List.mem_singleton.mp h2])
      · exact Or.inr (by simp [h])

theorem removeDeadLoop_lock_frame (deads : List Path) (st : LinkState)
    (t : Path) (ht : t ∉ deads) :
    (removeDeadLoop false deads st).lock.lookup t = st.lock.lookup t := by
  induction deads generalizing st with
  | nil => rfl
  | cons d rest ih =>
    have hd : d ≠ t := fun h => ht (by simp [h])
    have hrest : t ∉ rest := fun h => ht (by simp [h])
    rw [removeDeadLoop_cons]
    by_cases hf : (st.fs.removeOp d).2 = .failed
    · simp only [if_pos hf]
      exact ih _ hrest
    · simp only [if_neg hf]
      rw [ih _ hrest]
      simp [lookup_removeSymlink, hd]

theorem removeDeadLoop_spec (deads : List Path) (st : LinkState)
    (hnodup : deads.Nodup)
    (d : Path) (hd : d ∈ deads) (hfresh : d ∉ st.removed) :
    (GoError.removeDead d ∈ (removeDeadLoop false deads st).errors ∧
      (removeDeadLoop false deads st).lock.lookup d = st.lock.lookup d ∧
      d ∉ (removeDeadLoop false deads st).removed) ∨
    (d ∈ (removeDeadLoop false deads st).removed ∧
      (removeDeadLoop false deads st).lock.lookup d = none) := by
  induction deads generalizing st with
  | nil => cases hd
  | cons x rest ih =>
    have hnodup2 : rest.Nodup := (List.nodup_cons.mp hnodup).2
    have hxnotin : x ∉ rest := (List.nodup_cons.mp hnodup).1
    rw [removeDeadLoop_cons]
    rcases List.mem_cons.mp hd with heq | hmem
    · subst heq
      by_cases hf : (st.fs.removeOp d).2 = .failed
      · simp only [if_pos hf]
        left
        refine ⟨removeDeadLoop_errors_mono _ _ _ (by simp), ?_, ?_⟩
        · exact removeDeadLoop_lock_frame _ _ _ hxnotin
        · intro hmem2
          rcases removeDeadLoop_removed_sub _ _ _ hmem2 with h | h
          · exact hfresh (by simpa using h)
          · exact hxnotin h
      · simp only [if_neg hf]
        right
        refine ⟨removeDeadLoop_removed_mono _ _ _ (by simp), ?_⟩
        rw [removeDeadLoop_lock_frame _ _ _ hxnotin]
        simp [lookup_removeSymlink]
    · have hne : x ≠ d := fun h => hxnotin (h ▸ hmem)
      by_cases hf : (st.fs.removeOp x).2 = .failed
      · simp only [if_pos hf]
        exact ih _ hnodup2 hmem hfresh
      · simp only [if_neg hf]
        have hfresh2 : d ∉ st.removed ++ [x] := by
          intro h
          rcases List.mem_append.mp h with h2 | h2
          · exact hfresh h2
          · exact hne (List.mem_singleton.mp h2).symm
        have hres := ih ⟨(st.fs.removeOp x).1, st.lock.removeSymlink x,
          st.created, st.removed ++ [x], st.errors⟩ hnodup2 hmem hfresh2
        rcases hres with ⟨h1, h2, h3⟩ | ⟨h1, h2⟩
        · left
          refine ⟨h1, ?_, h3⟩
          rw [h2]
          simp [lookup_removeSymlink, hne]
        · exact Or.inr ⟨h1, h2⟩

theorem unlinkLoop_head_fate (x : SymlinkRec) (rest : List SymlinkRec)
    (st : LinkState) (hnodup : ((x :: rest).map (·.target)).Nodup)
    (hfresh : x.target ∉ st.removed) :
    ((st.fs.removeOp x.target).2 = .failed →
      GoError.removeSymlink x.target ∈ (unlinkLoop false (x :: rest) st).errors ∧
      (unlinkLoop false (x :: rest) st).lock.lookup x.target
        = st.lock.lookup x.target ∧
      x.target ∉ (unlinkLoop false (x :: rest) st).removed) ∧
    ((st.fs.removeOp x.target).2 ≠ .failed →
      x.target ∈ (unlinkLoop false (x :: rest) st).removed ∧
      (unlinkLoop false (x :: rest) st).lock.lookup x.target = none) := by
  have hxnotin : x.target ∉ rest.map (·.target) := (List.nodup_cons.mp hnodup).1
  constructor
  · intro hf
    rw [unlinkLoop_cons]
    simp only [if_pos hf]
    refine ⟨unlinkLoop_errors_mono _ _ _ (by simp), ?_, ?_⟩
    · exact unlinkLoop_lock_frame _ _ _ hxnotin
    · intro hmem2
      rcases unlinkLoop_removed_sub _ _ _ hmem2 with h | h
      · exact hfresh (by simpa using h)
      · exact hxnotin h
  · intro hf
    rw [unlinkLoop_cons]
    simp only [if_neg hf]
    refine ⟨unlinkLoop_removed_mono _ _ _ (by simp), ?_⟩
    rw [unlinkLoop_lock_frame _ _ _ hxnotin]
    simp [lookup_removeSymlink]

theorem removeDeadLoop_head_fate (d : Path) (rest : List Path)
    (st : LinkState) (hnodup : (d :: rest).Nodup)
    (hfresh : d ∉ st.removed) :
    ((st.fs.removeOp d).2 = .failed →
      GoError.removeDead d ∈ (removeDeadLoop false (d :: rest) st).errors ∧
      (removeDeadLoop false (d :: rest) st).lock.lookup d = st.lock.lookup d ∧
      d ∉ (removeDeadLoop false (d :: rest) st).removed) ∧
    ((st.fs.removeOp d).2 ≠ .failed →
      d ∈ (removeDeadLoop false (d :: rest) st).removed ∧
      (removeDeadLoop false (d :: rest) st).lock.lookup d = none) := by
  have hxnotin : d ∉ rest := (List.nodup_cons.mp hnodup).1
  constructor
  · intro hf
    rw [removeDeadLoop_cons]
    simp only [if_pos hf]
    refine ⟨removeDeadLoop_errors_mono _ _ _ (by simp), ?_, ?_⟩
    · exact removeDeadLoop_lock_frame _ _ _ hxnotin
    · intro hmem2
      rcases removeDeadLoop_removed_sub _ _ _ hmem2 with h | h
      · exact hfresh (by simpa using h)
      · exact hxnotin h
  · intro hf
    rw [removeDeadLoop_cons]
    simp only [if_neg hf]
    refine ⟨removeDeadLoop_removed_mono _ _ _ (by simp), ?_⟩
    rw [removeDeadLoop_lock_frame _ _ _ hxnotin]
    simp [lookup_removeSymlink]

/-- C7: in the dead-link reconciliation loop of `Link` and in `Unlink`
(non-dry-run), each visited target is handled per-entry, conditionally on
the outcome of its removal: each loop step removes the head target and
branches on the result (the first two conjuncts); when the head's removal
fails with an error other than not-found, the failure is appended to the
result's errors, the target never enters `Removed`, and its lock record is
left in place at the loop's end, while a removal that succeeded or found
the entry already missing deletes the record and appends the target to
`Removed` (the next two conjuncts); and over a whole run every visited
record ends in exactly one of these two fates (the last two conjuncts). -/
theorem C7_removal_failure_semantics (fs : FS) (lock : LockFile) (deads : List Path)
    (st : LinkState) :
    (∀ (x : SymlinkRec) (rest : List SymlinkRec) (st1 : LinkState),
      unlinkLoop false (x :: rest) st1 =
        if (st1.fs.removeOp x.target).2 = .failed then
          unlinkLoop false rest
            { st1 with fs := (st1.fs.removeOp x.target).1,
                       errors := st1.errors ++ [.removeSymlink x.target] }
        else
          unlinkLoop false rest
            { st1 with fs := (st1.fs.removeOp x.target).1,
                       lock := st1.lock.removeSymlink x.target,
                       removed := st1.removed ++ [x.target] }) ∧
    (∀ (d : Path) (rest : List Path) (st1 : LinkState),
      removeDeadLoop false (d :: rest) st1 =
        if (st1.fs.removeOp d).2 = .failed then
          removeDeadLoop false rest
            { st1 with fs := (st1.fs.removeOp d).1,
                       errors := st1.errors ++ [.removeDead d] }
        else
          removeDeadLoop false rest
            { st1 with fs := (st1.fs.removeOp d).1,
                       lock := st1.lock.removeSymlink d,
                       removed := st1.removed ++ [d] }) ∧
    (∀ (x : SymlinkRec) (rest : List SymlinkRec) (st1 : LinkState),
      ((x :: rest).map (·.target)).Nodup → x.target ∉ st1.removed →
      ((st1.fs.removeOp x.target).2 = .failed →
        GoError.removeSymlink x.target ∈ (unlinkLoop false (x :: rest) st1).errors ∧
        (unlinkLoop false (x :: rest) st1).lock.lookup x.target
          = st1.lock.lookup x.target ∧
        x.target ∉ (unlinkLoop false (x :: rest) st1).removed) ∧
      ((st1.fs.removeOp x.target).2 ≠ .failed →
        x.target ∈ (unlinkLoop false (x :: rest) st1).removed ∧
        (unlinkLoop false (x :: rest) st1).lock.lookup x.target = none)) ∧
    (∀ (d : Path) (rest : List Path) (st1 : LinkState),
      (d :: rest).Nodup → d ∉ st1.removed →
      ((st1.fs.removeOp d).2 = .failed →
        GoError.removeDead d ∈ (removeDeadLoop false (d :: rest) st1).errors ∧
        (removeDeadLoop false (d :: rest) st1).lock.lookup d
          = st1.lock.lookup d ∧
        d ∉ (removeDeadLoop false (d :: rest) st1).removed) ∧
      ((st1.fs.removeOp d).2 ≠ .failed →
        d ∈ (removeDeadLoop false (d :: rest) st1).removed ∧
        (removeDeadLoop false (d :: rest) st1).lock.lookup d = none)) ∧
    ((lock.sorted.map (·.target)).Nodup → ∀ r ∈ lock.sorted,
      (GoError.removeSymlink r.target ∈ (Unlink false fs lock).errors ∧
        (Unlink false fs lock).lock.lookup r.target = lock.lookup r.target ∧
        r.target ∉ (Unlink false fs lock).removed) ∨
      (r.target ∈ (Unlink false fs lock).removed ∧
        (Unlink false fs lock).lock.lookup r.target = none)) ∧
    (deads.Nodup → ∀ d ∈ deads, d ∉ st.removed →
      (GoError.removeDead d ∈ (removeDeadLoop false deads st).errors ∧
        (removeDeadLoop false deads st).lock.lookup d = st.lock.lookup d ∧
        d ∉ (removeDeadLoop false deads st).removed) ∨
      (d ∈ (removeDeadLoop false deads st).removed ∧
        (removeDeadLoop false deads st).lock.lookup d = none)) := by
  refine ⟨unlinkLoop_cons, removeDeadLoop_cons, ?_, ?_, ?_, ?_⟩
  · intro x rest st1 hnodup hfresh
    exact unlinkLoop_head_fate x rest st1 hnodup hfresh
  · intro d rest st1 hnodup hfresh
    exact removeDeadLoop_head_fate d rest st1 hnodup hfresh
  · intro hnodup r hr
    exact unlinkLoop_spec lock.sorted _ hnodup r hr (by simp)
  · intro hnodup d hd hfresh
    exact removeDeadLoop_spec deads st hnodup d hd hfresh

/-- Witness for C7: over `fsRemFault`, removing `/bad` faults, so its
record survives `Unlink`'s loop with the failure reported, while removing
`/ok` succeeds, so its record is deleted and the target reported removed. -/
theorem C7_removal_failure_semantics_witness :
    ((fsRemFault.removeOp ["bad"]).2 = .failed ∧
      GoError.removeSymlink ["bad"] ∈ (unlinkLoop false
          [⟨["s1"], ["bad"], 0, false⟩, ⟨["s2"], ["ok"], 0, false⟩]
          ⟨fsRemFault, lockRemFault, [], [], []⟩).errors ∧
      (unlinkLoop false [⟨["s1"], ["bad"], 0, false⟩, ⟨["s2"], ["ok"], 0, false⟩]
          ⟨fsRemFault, lockRemFault, [], [], []⟩).lock.lookup ["bad"]
        = lockRemFault.lookup ["bad"] ∧
      ["bad"] ∉ (unlinkLoop false
          [⟨["s1"], ["bad"], 0, false⟩, ⟨["s2"], ["ok"], 0, false⟩]
          ⟨fsRemFault, lockRemFault, [], [], []⟩).removed) ∧
    ((fsRemFault.removeOp ["ok"]).2 ≠ .failed ∧
      ["ok"] ∈ (unlinkLoop false [⟨["s2"], ["ok"], 0, false⟩]
          ⟨fsRemFault, lockRemFault, [], [], []⟩).removed ∧
      (unlinkLoop false [⟨["s2"], ["ok"], 0, false⟩]
          ⟨fsRemFault, lockRemFault, [], [], []⟩).lock.lookup ["ok"] = none) ∧
    ((GoError.removeSymlink ["bad"] ∈ (Unlink false fsRemFault lockRemFault).errors ∧
      (Unlink false fsRemFault lockRemFault).lock.lookup ["bad"]
        = lockRemFault.lookup ["bad"] ∧
      ["bad"] ∉ (Unlink false fsRemFault lockRemFault).removed) ∨
    (["bad"] ∈ (Unlink false fsRemFault lockRemFault).removed ∧
      (Unlink false fsRemFault lockRemFault).lock.lookup ["bad"] = none)) := by
  have hC7 := C7_removal_failure_semantics fsRemFault lockRemFault []
    ⟨fsRemFault, lockRemFault, [], [], []⟩
  refine ⟨⟨by decide, ?_⟩, ⟨by decide, ?_⟩, ?_⟩
  · exact (hC7.2.2.1 ⟨["s1"], ["bad"], 0, false⟩ [⟨["s2"], ["ok"], 0, false⟩]
      ⟨fsRemFault, lockRemFault, [], [], []⟩ (by decide) (by decide)).1 (by decide)
  · exact (hC7.2.2.1 ⟨["s2"], ["ok"], 0, false⟩ []
      ⟨fsRemFault, lockRemFault, [], [], []⟩ (by decide) (by decide)).2 (by decide)
  · exact hC7.2.2.2.2.1 (by decide) ⟨["s1"], ["bad"], 0, false⟩ (by decide)

/-! ## Conflict error semantics (C3) -/

/-- C3 counterexample: with a regular file occupying `/t/a.txt`, `Link`
reports the conflict in `Errors` but creates nothing at all — the linkable
sibling `/s/sub/b.txt` (present, not ignored, target free) is skipped, so
the traversal of the remaining entries of that package/target pair does not
continue as claimed. -/
theorem C3_counterexample :
    (Link false cfgPlain 0 10 fsConflict (lockNew 0)).map
        (fun st => (st.created, st.errors))
      = .ok ([], [.conflict ["t", "a.txt"]]) ∧
    fsConflict.lookup ["s", "sub", "b.txt"] = some .file ∧
    cfgPlain.shouldIgnore "sub/b.txt" = false ∧
    fsConflict.lookup ["t", "sub", "b.txt"] = none := by
  exact ⟨by rfl, by rfl, by rfl, by rfl⟩

/-- C3 (amended): a non-symlink occupying a wanted target path produces a
conflict error scoped to that entry; the error is appended to the result's
`Errors` and the remaining package/target pairs are still processed, but
the traversal of the remaining entries of the same package/target pair is
aborted (the Go `return err` in `linkDirectory`). -/
theorem C3_conflict_semantics :
    (∀ (dryRun : Bool) (now : Nat) (source target : Path) (f : Bool)
      (st : LinkState) (fs1 : FS) (n : FSNode),
      (if dryRun then Except.ok st.fs else st.fs.mkdirAll target.dropLast) = .ok fs1 →
      fs1.statErr.contains target = false →
      fs1.lookup target = some n →
      (∀ d, n ≠ .symlink d) →
      createSymlink dryRun now source target f st
        = ({ st with fs := fs1 }, some (.conflict target))) ∧
    (∀ (dryRun : Bool) (cfg : Config) (pkg : Package) (now fuel : Nat)
      (source target : Path) (name : String) (node : FSNode)
      (rest : List (String × FSNode)) (st st2 : LinkState) (e : GoError),
      cfg.shouldIgnore (relString (source.drop pkg.source.length) name) = false →
      node ≠ .dir →
      createSymlink dryRun now (source ++ [name]) (target ++ [name]) false st
        = (st2, some e) →
      linkEntries dryRun cfg pkg now (fuel + 1) source target ((name, node) :: rest) st
        = (st2, some e)) ∧
    (∀ (dryRun : Bool) (cfg : Config) (pkg : Package) (now fuel : Nat) (t : Path)
      (ts : List Path) (st st2 : LinkState) (e : GoError),
      linkDirectory dryRun cfg pkg now fuel pkg.source t st = (st2, some e) →
      linkTargets dryRun cfg pkg now fuel (t :: ts) st
        = linkTargets dryRun cfg pkg now fuel ts
            { st2 with errors := st2.errors ++ [e] }) := by
  refine ⟨?_, ?_, ?_⟩
  · intro dryRun now source target f st fs1 n hstep hstat hlook hnotsym
    unfold createSymlink
    rw [hstep]
    have hls : fs1.lstat target = .ok (some n) := by
      unfold FS.lstat
      rw [hstat]
      simp [hlook]
    cases n with
    | symlink d => exact absurd rfl (hnotsym d)
    | file =>
      unfold createCheck
      simp only [hls]
    | dir =>
      unfold createCheck
      simp only [hls]
  · intro dryRun cfg pkg now fuel source target name node rest st st2 e hig hnode hcs
    cases node with
    | dir => exact absurd rfl hnode
    | file =>
      unfold linkEntries walkGo
      simp only [hig, Bool.false_eq_true, if_false]
      rw [hcs]
    | symlink d =>
      unfold linkEntries walkGo
      simp only [hig, Bool.false_eq_true, if_false]
      rw [hcs]
  · intro dryRun cfg pkg now fuel t ts st st2 e hdir
    conv_lhs => rw [linkTargets]
    rw [hdir]

/-- Witness for C3 (amended): the conflicting entry of `fsConflict`. -/
theorem C3_conflict_semantics_witness :
    createSymlink false 0 ["s", "a.txt"] ["t", "a.txt"] false
        ⟨fsConflict, lockNew 0, [], [], []⟩
      = (⟨fsConflict, lockNew 0, [], [], []⟩, some (.conflict ["t", "a.txt"])) :=
  C3_conflict_semantics.1 false 0 ["s", "a.txt"] ["t", "a.txt"] false
    ⟨fsConflict, lockNew 0, [], [], []⟩ fsConflict .file
    (by rfl) (by rfl) (by rfl) (by intro d h; cases h)

/-! ## Dry-run frame (C6) -/

theorem createSymlink_dry_fs (now : Nat) (source target : Path) (f : Bool)
    (st : LinkState) :
    (createSymlink true now source target f st).1.fs = st.fs := by
  unfold createSymlink createCheck createFinish
  simp only [if_true]
  cases hl : st.fs.lstat target with
  | error e => simp [hl]
  | ok v =>
    cases v with
    | none => simp [hl]
    | some n =>
      cases n with
      | file => simp [hl]
      | dir => simp [hl]
      | symlink d =>
        by_cases hr : d.resolve target = source
        · simp [hl, hr]
        · simp [hl, hr]

theorem walkGo_dry_fs (cfg : Config) (pkg : Package) (now : Nat) :
    ∀ (fuel : Nat) (task : WalkTask) (st : LinkState),
      (walkGo true cfg pkg now fuel task st).1.fs = st.fs := by
  intro fuel
  induction fuel with
  | zero => intro task st; rfl
  | succ fuel ih =>
    intro task st
    cases task with
    | dir source target =>
      unfold walkGo
      cases h : st.fs.readDir source with
      | error e => rfl
      | ok entries => exact ih _ _
    | entries source target es =>
      cases es with
      | nil => rfl
      | cons entry rest =>
        rcases entry with ⟨name, node⟩
        unfold walkGo
        by_cases hig :
            cfg.shouldIgnore (relString (source.drop pkg.source.length) name) = true
        · simp only [hig, if_true]
          exact ih _ _
        · simp only [Bool.not_eq_true] at hig
          simp only [hig, Bool.false_eq_true, if_false]
          cases node with
          | dir =>
            by_cases hfold : shouldFold pkg name (source.drop pkg.source.length) = true
            · simp only [hfold, if_true]
              rcases hcs : createSymlink true now (source ++ [name]) (target ++ [name])
                  true st with ⟨st2, oe⟩
              have hfs2 : st2.fs = st.fs := by
                have := createSymlink_dry_fs now (source ++ [name]) (target ++ [name]) true st
                rw [hcs] at this
                exact this
              cases oe with
              | some e => simp [hcs, hfs2]
              | none => simp [hcs, ih _ st2, hfs2]
            · simp only [Bool.not_eq_true] at hfold
              simp only [hfold, Bool.false_eq_true, if_false]
              rcases hwd : walkGo true cfg pkg now fuel
                  (.dir (source ++ [name]) (target ++ [name])) st with ⟨st2, oe⟩
              have hfs2 : st2.fs = st.fs := by
                have := ih (.dir (source ++ [name]) (target ++ [name])) st
                rw [hwd] at this
                exact this
              cases oe with
              | some e => simp [hwd, hfs2]
              | none => simp [hwd, ih _ st2, hfs2]
          | file =>
            rcases hcs : createSymlink true now (source ++ [name]) (target ++ [name])
                false st with ⟨st2, oe⟩
            have hfs2 : st2.fs = st.fs := by
              have := createSymlink_dry_fs now (source ++ [name]) (target ++ [name]) false st
              rw [hcs] at this
              exact this
            cases oe with
            | some e => simp [hcs, hfs2]
            | none => simp [hcs, ih _ st2, hfs2]
          | symlink d =>
            rcases hcs : createSymlink true now (source ++ [name]) (target ++ [name])
                false st with ⟨st2, oe⟩
            have hfs2 : st2.fs = st.fs := by
              have := createSymlink_dry_fs now (source ++ [name]) (target ++ [name]) false st
              rw [hcs] at this
              exact this
            cases oe with
            | some e => simp [hcs, hfs2]
            | none => simp [hcs, ih _ st2, hfs2]

theorem removeDeadLoop_dry_fs (deads : List Path) (st : LinkState) :
    (removeDeadLoop true deads st).fs = st.fs := by
  induction deads generalizing st with
  | nil => rfl
  | cons d rest ih =>
    unfold removeDeadLoop
    simp only [if_true]
    exact ih _

theorem linkTargets_dry_fs (cfg : Config) (pkg : Package) (now fuel : Nat)
    (ts : List Path) (st : LinkState) :
    (linkTargets true cfg pkg now fuel ts st).fs = st.fs := by
  induction ts generalizing st with
  | nil => rfl
  | cons t ts ih =>
    unfold linkTargets linkDirectory
    rcases hwd : walkGo true cfg pkg now fuel (.dir pkg.source t) st with ⟨st2, oe⟩
    have hfs2 : st2.fs = st.fs := by
      have := walkGo_dry_fs cfg pkg now fuel (.dir pkg.source t) st
      rw [hwd] at this
      exact this
    cases oe with
    | some e => simp only []; rw [ih]; exact hfs2
    | none => simp only []; rw [ih]; exact hfs2

theorem linkPackages_dry_fs (cfg : Config) (now fuel : Nat)
    (ps : List Package) (st : LinkState) :
    (linkPackages true cfg now fuel ps st).fs = st.fs := by
  induction ps generalizing st with
  | nil => rfl
  | cons p ps ih =>
    unfold linkPackages
    rw [ih, linkTargets_dry_fs]

/-- C6: in dry-run mode `Link` performs no filesystem mutation whatsoever —
the returned state's filesystem is the input filesystem — while the
in-memory lock store and result are still updated: concretely, for an empty
target directory and a source with one file, `Created` has length 1, the
lock store has gained the would-be record, yet nothing exists at the target
path afterwards. -/
theorem C6_dry_run_frame :
    (∀ (cfg : Config) (now fuel : Nat) (fs : FS) (lock : LockFile) (st : LinkState),
      Link true cfg now fuel fs lock = .ok st → st.fs = fs) ∧
    linkStateDry.created.length = 1 ∧
    linkStateDry.fs.lookup ["t", "a.txt"] = none ∧
    (linkStateDry.lock.lookup ["t", "a.txt"]).map (·.source) = some ["s", "a.txt"] ∧
    linkStateDry.fs = fsDry := by
  refine ⟨?_, by rfl, by rfl, by rfl, by rfl⟩
  intro cfg now fuel fs lock st hok
  unfold Link at hok
  cases hd : getDeadSymlinks fs lock with
  | error e => rw [hd] at hok; cases hok
  | ok dead =>
    rw [hd] at hok
    simp only [Except.ok.injEq] at hok
    subst hok
    rw [linkPackages_dry_fs, removeDeadLoop_dry_fs]

/-- Witness for C6 at the concrete dry-run scenario. -/
theorem C6_dry_run_frame_witness : linkStateDry.fs = fsDry :=
  C6_dry_run_frame.1 cfgPlain 0 10 fsDry (lockNew 0) linkStateDry (by rfl)

/-! ## Walk write discipline (C8) -/

theorem joinRel_append_singleton (l : List String) (n : String) (hl : l ≠ []) :
    joinRel (l ++ [n]) = joinRel l ++ "/" ++ n := by
  induction l with
  | nil => exact absurd rfl hl
  | cons x xs ih =>
    cases xs with
    | nil => rfl
    | cons y ys =>
      have hxs : (y :: ys : List String) ≠ [] := by simp
      have hstep : joinRel ((x :: y :: ys) ++ [n])
          = x ++ "/" ++ joinRel ((y :: ys) ++ [n]) := rfl
      have hj : joinRel (x :: y :: ys) = x ++ "/" ++ joinRel (y :: ys) := rfl
      rw [hstep, ih hxs, hj]
      simp [String.append_assoc]

theorem relString_joinRel (parentRel : List String) (name : String) :
    relString parentRel name = joinRel (parentRel ++ [name]) := by
  cases parentRel with
  | nil => rfl
  | cons x xs =>
    rw [joinRel_append_singleton _ _ (by simp)]
    rfl

theorem chainOK_nil (cfg : Config) (base : List String) : chainOK cfg base [] := by
  intro k hk
  cases hk

theorem chainOK_singleton (cfg : Config) (base : List String) (name : String)
    (h : cfg.shouldIgnore (joinRel (base ++ [name])) = false) :
    chainOK cfg base [name] := by
  intro k hk
  cases k with
  | zero => simpa using h
  | succ k => simp at hk

theorem chainOK_cons (cfg : Config) (base : List String) (name : String)
    (rel : List String)
    (h1 : cfg.shouldIgnore (joinRel (base ++ [name])) = false)
    (h2 : chainOK cfg (base ++ [name]) rel) :
    chainOK cfg base (name :: rel) := by
  intro k hk
  cases k with
  | zero => simpa using h1
  | succ k =>
    have hk2 : k < rel.length := by simpa using hk
    have h3 := h2 k hk2
    rw [List.take_succ_cons]
    rw [show base ++ (name :: rel.take (k + 1)) = (base ++ [name]) ++ rel.take (k + 1)
      by simp]
    exact h3

theorem chainOK_cons_inv (cfg : Config) (base : List String) (name : String)
    (rel : List String) (h : chainOK cfg base (name :: rel)) :
    chainOK cfg (base ++ [name]) rel := by
  intro k hk
  have h3 := h (k + 1) (by simpa using Nat.succ_lt_succ hk)
  rw [List.take_succ_cons] at h3
  rw [show base ++ (name :: rel.take (k + 1)) = (base ++ [name]) ++ rel.take (k + 1)
    by simp] at h3
  exact h3

theorem createSymlink_writes (dryRun : Bool) (now : Nat) (source target : Path)
    (f : Bool) (st : LinkState) :
    ((createSymlink dryRun now source target f st).1.created = st.created ∨
      (createSymlink dryRun now source target f st).1.created = st.created ++ [target]) ∧
    (∀ q, q ≠ target →
      (createSymlink dryRun now source target f st).1.lock.lookup q
        = st.lock.lookup q) := by
  unfold createSymlink createCheck createFinish
  cases hstep : (if dryRun = true then Except.ok st.fs
      else st.fs.mkdirAll target.dropLast) with
  | error e => exact ⟨Or.inl rfl, fun q hq => rfl⟩
  | ok fs1 =>
    cases hl : fs1.lstat target with
    | error e =>
      cases dryRun
      · cases hlk : fs1.lookup target with
        | none =>
          refine ⟨Or.inr ?_, fun q hq => ?_⟩
          · simp [hl, hlk]
          · simp [hl, hlk, lookup_addSymlink, Ne.symm hq]
        | some n =>
          refine ⟨Or.inl ?_, fun q hq => ?_⟩
          · simp [hl, hlk]
          · simp [hl, hlk]
      · refine ⟨Or.inr ?_, fun q hq => ?_⟩
        · simp [hl]
        · simp [hl, lookup_addSymlink, Ne.symm hq]
    | ok v =>
      cases v with
      | none =>
        cases dryRun
        · cases hlk : fs1.lookup target with
          | none =>
            refine ⟨Or.inr ?_, fun q hq => ?_⟩
            · simp [hl, hlk]
            · simp [hl, hlk, lookup_addSymlink, Ne.symm hq]
          | some n =>
            refine ⟨Or.inl ?_, fun q hq => ?_⟩
            · simp [hl, hlk]
            · simp [hl, hlk]
        · refine ⟨Or.inr ?_, fun q hq => ?_⟩
          · simp [hl]
          · simp [hl, lookup_addSymlink, Ne.symm hq]
      | some n =>
        cases n with
        | file =>
          refine ⟨Or.inl ?_, fun q hq => ?_⟩
          · simp [hl]
          · simp [hl]
        | dir =>
          refine ⟨Or.inl ?_, fun q hq => ?_⟩
          · simp [hl]
          · simp [hl]
        | symlink d =>
          by_cases hr : d.resolve target = source
          · refine ⟨Or.inl ?_, fun q hq => ?_⟩
            · simp [hl, hr]
            · simp [hl, hr, lookup_addSymlink, Ne.symm hq]
          · cases dryRun
            · rcases hro : fs1.removeOp target with ⟨fs2, out⟩
              cases out
              · cases hlk : fs2.lookup target with
                | none =>
                  refine ⟨Or.inr ?_, fun q hq => ?_⟩
                  · simp [hl, hr, hro, hlk]
                  · simp [hl, hr, hro, hlk, lookup_addSymlink, Ne.symm hq]
                | some m =>
                  refine ⟨Or.inl ?_, fun q hq => ?_⟩
                  · simp [hl, hr, hro, hlk]
                  · simp [hl, hr, hro, hlk]
              · cases hlk : fs2.lookup target with
                | none =>
                  refine ⟨Or.inr ?_, fun q hq => ?_⟩
                  · simp [hl, hr, hro, hlk]
                  · simp [hl, hr, hro, hlk, lookup_addSymlink, Ne.symm hq]
                | some m =>
                  refine ⟨Or.inl ?_, fun q hq => ?_⟩
                  · simp [hl, hr, hro, hlk]
                  · simp [hl, hr, hro, hlk]
              · refine ⟨Or.inl ?_, fun q hq => ?_⟩
                · simp [hl, hr, hro]
                · simp [hl, hr, hro]
            · refine ⟨Or.inr ?_, fun q hq => ?_⟩
              · simp [hl, hr]
              · simp [hl, hr, lookup_addSymlink, Ne.symm hq]

theorem walkGo_writes (dryRun : Bool) (cfg : Config) (pkg : Package) (now : Nat) :
    ∀ (fuel : Nat) (task : WalkTask) (st : LinkState),
      pkg.source.length ≤ task.src.length →
      (∀ p, p ∈ (walkGo dryRun cfg pkg now fuel task st).1.created →
        p ∈ st.created ∨ ∃ rel, p = task.tgt ++ rel ∧ rel ≠ [] ∧
          chainOK cfg (task.src.drop pkg.source.length) rel) ∧
      (∀ p, (∀ rel, p = task.tgt ++ rel → rel = [] ∨
          ¬ chainOK cfg (task.src.drop pkg.source.length) rel) →
        (walkGo dryRun cfg pkg now fuel task st).1.lock.lookup p
          = st.lock.lookup p) := by
  intro fuel
  induction fuel with
  | zero =>
    intro task st hlen
    exact ⟨fun p hp => Or.inl hp, fun p hp => rfl⟩
  | succ fuel ih =>
    intro task st hlen
    cases task with
    | dir source target =>
      unfold walkGo
      cases h : st.fs.readDir source with
      | error e => exact ⟨fun p hp => Or.inl hp, fun p hp => rfl⟩
      | ok entries => exact ih (.entries source target entries) st hlen
    | entries source target es =>
      cases es with
      | nil => exact ⟨fun p hp => Or.inl hp, fun p hp => rfl⟩
      | cons entry rest =>
        rcases entry with ⟨name, node⟩
        have hlen0 : pkg.source.length ≤ source.length := hlen
        unfold walkGo
        by_cases hig :
            cfg.shouldIgnore (relString (source.drop pkg.source.length) name) = true
        · simp only [hig, if_true]
          exact ih (.entries source target rest) st hlen
        · simp only [Bool.not_eq_true] at hig
          simp only [hig, Bool.false_eq_true, if_false]
          have hkf : cfg.shouldIgnore
              (joinRel (source.drop pkg.source.length ++ [name])) = false := by
            rw [← relString_joinRel]
            exact hig
          have hchain1 : chainOK cfg (source.drop pkg.source.length) [name] :=
            chainOK_singleton cfg _ name hkf
          have hcreate : ∀ (folded : Bool) (st0 : LinkState),
              (∀ p, p ∈ ((createSymlink dryRun now (source ++ [name])
                  (target ++ [name]) folded st0).1).created →
                p ∈ st0.created ∨ ∃ rel, p = target ++ rel ∧ rel ≠ [] ∧
                  chainOK cfg (source.drop pkg.source.length) rel) ∧
              (∀ p, (∀ rel, p = target ++ rel → rel = [] ∨
                  ¬ chainOK cfg (source.drop pkg.source.length) rel) →
                ((createSymlink dryRun now (source ++ [name]) (target ++ [name])
                  folded st0).1).lock.lookup p = st0.lock.lookup p) := by
            intro folded st0
            have hw := createSymlink_writes dryRun now (source ++ [name])
              (target ++ [name]) folded st0
            constructor
            · intro p hp
              rcases hw.1 with hc | hc
              · rw [hc] at hp
                exact Or.inl hp
              · rw [hc] at hp
                rcases List.mem_append.mp hp with h2 | h2
                · exact Or.inl h2
                · right
                  refine ⟨[name], ?_, by simp, hchain1⟩
                  simpa using (List.mem_singleton.mp h2)
            · intro p hp
              have hne : p ≠ target ++ [name] := by
                intro heq
                rcases hp [name] heq with h2 | h2
                · cases h2
                · exact h2 hchain1
              exact hw.2 p hne
          have hstep2 : ∀ (st2 : LinkState),
              (∀ p, p ∈ st2.created → p ∈ st.created ∨ ∃ rel, p = target ++ rel ∧
                rel ≠ [] ∧ chainOK cfg (source.drop pkg.source.length) rel) →
              (∀ p, (∀ rel, p = target ++ rel → rel = [] ∨
                  ¬ chainOK cfg (source.drop pkg.source.length) rel) →
                st2.lock.lookup p = st.lock.lookup p) →
              (∀ p, p ∈ (walkGo dryRun cfg pkg now fuel
                  (.entries source target rest) st2).1.created →
                p ∈ st.created ∨ ∃ rel, p = target ++ rel ∧ rel ≠ [] ∧
                  chainOK cfg (source.drop pkg.source.length) rel) ∧
              (∀ p, (∀ rel, p = target ++ rel → rel = [] ∨
                  ¬ chainOK cfg (source.drop pkg.source.length) rel) →
                (walkGo dryRun cfg pkg now fuel
                  (.entries source target rest) st2).1.lock.lookup p
                  = st.lock.lookup p) := by
            intro st2 hc2 hl2
            have hr2 := ih (.entries source target rest) st2 hlen
            constructor
            · intro p hp
              rcases hr2.1 p hp with h2 | h2
              · exact hc2 p h2
              · exact Or.inr h2
            · intro p hp
              rw [hr2.2 p hp]
              exact hl2 p hp
          cases node with
          | dir =>
            by_cases hfold : shouldFold pkg name (source.drop pkg.source.length) = true
            · simp only [hfold, if_true]
              rcases hcs : createSymlink dryRun now (source ++ [name])
                  (target ++ [name]) true st with ⟨st2, oe⟩
              have hcw := hcreate true st
              rw [hcs] at hcw
              cases oe with
              | some e => exact hcw
              | none => exact hstep2 st2 hcw.1 hcw.2
            · simp only [Bool.not_eq_true] at hfold
              simp only [hfold, Bool.false_eq_true, if_false]
              rcases hwd : walkGo dryRun cfg pkg now fuel
                  (.dir (source ++ [name]) (target ++ [name])) st with ⟨st2, oe⟩
              have hlen2 : pkg.source.length ≤ (source ++ [name]).length := by
                simp only [List.length_append, List.length_cons]
                omega
              have hdir := ih (.dir (source ++ [name]) (target ++ [name])) st hlen2
              rw [hwd] at hdir
              simp only [WalkTask.src, WalkTask.tgt] at hdir
              have hdrop : (source ++ [name]).drop pkg.source.length
                  = source.drop pkg.source.length ++ [name] :=
                List.drop_append_of_le_length hlen0
              have hdw : (∀ p, p ∈ st2.created → p ∈ st.created ∨
                    ∃ rel, p = target ++ rel ∧ rel ≠ [] ∧
                      chainOK cfg (source.drop pkg.source.length) rel) ∧
                  (∀ p, (∀ rel, p = target ++ rel → rel = [] ∨
                      ¬ chainOK cfg (source.drop pkg.source.length) rel) →
                    st2.lock.lookup p = st.lock.lookup p) := by
                constructor
                · intro p hp
                  rcases hdir.1 p hp with h2 | ⟨rel2, hp2, hne2, hch2⟩
                  · exact Or.inl h2
                  · right
                    refine ⟨name :: rel2, ?_, by simp, ?_⟩
                    · rw [hp2]
                      simp
                    · rw [hdrop] at hch2
                      exact chainOK_cons cfg _ name rel2 hkf hch2
                · intro p hp
                  refine hdir.2 p ?_
                  intro rel2 hp2
                  by_cases hrel2 : rel2 = []
                  · exact Or.inl hrel2
                  · right
                    intro hch2
                    rw [hdrop] at hch2
                    have := chainOK_cons cfg _ name rel2 hkf hch2
                    have hp3 : p = target ++ (name :: rel2) := by
                      rw [hp2]
                      simp
                    rcases hp (name :: rel2) hp3 with h2 | h2
                    · cases h2
                    · exact h2 this
              cases oe with
              | some e => exact hdw
              | none => exact hstep2 st2 hdw.1 hdw.2
          | file =>
            rcases hcs : createSymlink dryRun now (source ++ [name])
                (target ++ [name]) false st with ⟨st2, oe⟩
            have hcw := hcreate false st
            rw [hcs] at hcw
            cases oe with
            | some e => exact hcw
            | none => exact hstep2 st2 hcw.1 hcw.2
          | symlink d =>
            rcases hcs : createSymlink dryRun now (source ++ [name])
                (target ++ [name]) false st with ⟨st2, oe⟩
            have hcw := hcreate false st
            rw [hcs] at hcw
            cases oe with
            | some e => exact hcw
            | none => exact hstep2 st2 hcw.1 hcw.2

/-- C8 counterexample: with `a` on the merged ignore list and a healthy
pre-existing lockfile record at `/t/a`, a full `Link` run leaves that
record in the lock store (dead-link reconciliation keeps it because it is
healthy, and the link phase skips the ignored entry without touching it), so
a path of an ignored entry does appear in the lock store, contradicting
the claim's "no path of an ignored entry ever appears ... in the Lock
Store". -/
theorem C8_counterexample :
    cfgIgn.shouldIgnore "a" = true ∧
    (Link false cfgIgn 0 10 fsIgn lockIgn).map
        (fun st => (st.created, st.errors, (st.lock.lookup ["t", "a"]).isSome))
      = .ok ([], [], true) := by
  exact ⟨by decide, by rfl⟩

/-- C8 (amended): during the walk of a package/target pair, an entry whose
relative path (or any of whose ancestors' relative paths) matches the
merged ignore pattern list is skipped entirely: no target path at or below
it is newly appended to `Created`, and the lock store is unchanged at every
such key.  (A pre-existing lockfile record at such a path survives the run
if it is still healthy.) -/
theorem C8_ignore_exclusion (dryRun : Bool) (cfg : Config) (pkg : Package)
    (now fuel : Nat) (target : Path) (st : LinkState)
    (rel0 rel1 : List String)
    (hne : rel0 ≠ []) (hig : cfg.shouldIgnore (joinRel rel0) = true) :
    ((target ++ (rel0 ++ rel1))
        ∈ (linkDirectory dryRun cfg pkg now fuel pkg.source target st).1.created →
      (target ++ (rel0 ++ rel1)) ∈ st.created) ∧
    (linkDirectory dryRun cfg pkg now fuel pkg.source target st).1.lock.lookup
        (target ++ (rel0 ++ rel1))
      = st.lock.lookup (target ++ (rel0 ++ rel1)) := by
  have hw := walkGo_writes dryRun cfg pkg now fuel (.dir pkg.source target) st
    (le_refl _)
  simp only [WalkTask.src, WalkTask.tgt, List.drop_length] at hw
  have hnotchain : ¬ chainOK cfg [] (rel0 ++ rel1) := by
    intro hch
    have hlen1 : 1 ≤ rel0.length := by
      cases rel0 with
      | nil => exact absurd rfl hne
      | cons x xs => simp
    have hk : rel0.length - 1 < (rel0 ++ rel1).length := by
      simp only [List.length_append]
      omega
    have := hch (rel0.length - 1) hk
    rw [show rel0.length - 1 + 1 = rel0.length by omega] at this
    rw [List.take_append_of_le_length (le_refl _), List.take_length] at this
    simp only [List.nil_append] at this
    rw [hig] at this
    cases this
  constructor
  · intro hmem
    rcases hw.1 _ hmem with h2 | ⟨rel, hp, hrne, hch⟩
    · exact h2
    · have : rel0 ++ rel1 = rel := List.append_cancel_left hp
      rw [← this] at hch
      exact absurd hch hnotchain
  · refine hw.2 _ ?_
    intro rel hp
    have : rel0 ++ rel1 = rel := List.append_cancel_left hp
    right
    rw [← this]
    exact hnotchain

/-! ## Idempotence analysis (C1): filesystem lookup and path lemmas -/

theorem find?_filter_ne_fs (xs : List (Path × FSNode)) (t2 t : Path) :
    ((xs.filter fun e => e.1 != t2).find? fun e => e.1 == t)
      = if t2 = t then none else xs.find? fun e => e.1 == t := by
  induction xs with
  | nil => by_cases h : t2 = t <;> simp [h]
  | cons x xs ih =>
    by_cases hx : x.1 = t2
    · by_cases ht : t2 = t <;>
        simp_all [List.filter_cons, List.find?_cons, bne, beq_iff_eq]
    · by_cases hxt : x.1 = t
      · by_cases ht : t2 = t <;>
          simp_all [List.filter_cons, List.find?_cons, bne, beq_iff_eq]
      · by_cases ht : t2 = t <;>
          simp_all [List.filter_cons, List.find?_cons, bne, beq_iff_eq]

theorem lookup_insert (fs : FS) (p : Path) (n : FSNode) (q : Path) :
    (fs.insert p n).lookup q = if p = q then some n else fs.lookup q := by
  unfold FS.insert FS.lookup
  by_cases h : p = q
  · rw [List.find?_cons_of_pos _ (by simp [beq_iff_eq, h])]
    simp [h]
  · rw [List.find?_cons_of_neg _ (by simp [beq_iff_eq, h]), find?_filter_ne_fs]
    simp [h]

theorem lookup_erase (fs : FS) (p q : Path) :
    (fs.erase p).lookup q = if p = q then none else fs.lookup q := by
  unfold FS.erase FS.lookup
  rw [find?_filter_ne_fs]
  by_cases h : p = q <;> simp [h]

theorem insert_statErr (fs : FS) (p : Path) (n : FSNode) :
    (fs.insert p n).statErr = fs.statErr ∧ (fs.insert p n).removeErr = fs.removeErr :=
  ⟨rfl, rfl⟩

theorem removeOp_frame (fs : FS) (p : Path) (q : Path) (hq : q ≠ p) :
    (fs.removeOp p).1.lookup q = fs.lookup q := by
  unfold FS.removeOp
  by_cases h1 : fs.removeErr.contains p = true
  · rw [if_pos h1]
  · rw [if_neg h1]
    cases hl : fs.lookup p with
    | none => simp only [hl]
    | some n =>
      cases n with
      | file => simp only [hl, lookup_erase, if_neg (Ne.symm hq)]
      | symlink d => simp only [hl, lookup_erase, if_neg (Ne.symm hq)]
      | dir =>
        by_cases h2 : fs.entries.any (fun e => p.isPrefixOf e.1 && e.1 != p) = true
        · simp only [hl, if_pos h2]
        · simp only [hl, if_neg h2, lookup_erase]
          rw [if_neg (Ne.symm hq)]

theorem removeOp_faults (fs : FS) (p : Path) :
    (fs.removeOp p).1.statErr = fs.statErr ∧
    (fs.removeOp p).1.removeErr = fs.removeErr := by
  unfold FS.removeOp
  by_cases h1 : fs.removeErr.contains p = true
  · rw [if_pos h1]
    exact ⟨rfl, rfl⟩
  · rw [if_neg h1]
    cases hl : fs.lookup p with
    | none =>
      simp only [hl]
      constructor <;> trivial
    | some n =>
      cases n with
      | file =>
        simp only [hl]
        constructor <;> trivial
      | symlink d =>
        simp only [hl]
        constructor <;> trivial
      | dir =>
        by_cases h2 : fs.entries.any (fun e => p.isPrefixOf e.1 && e.1 != p) = true
        · simp only [hl, if_pos h2]
          constructor <;> trivial
        · simp only [hl, if_neg h2]
          constructor <;> trivial

theorem cleanStep_plain (acc : List String) (x : String) (hx : plainSeg x = true) :
    cleanStep acc x = acc ++ [x] := by
  have hx2 : x ≠ "" ∧ x ≠ "." ∧ x ≠ ".." := by
    simp only [plainSeg, Bool.and_eq_true, bne_iff_ne, ne_eq] at hx
    tauto
  unfold cleanStep
  rw [if_neg (by tauto), if_neg (by tauto)]

theorem cleanStep_dotdot (acc : List String) : cleanStep acc ".." = acc.dropLast := by
  unfold cleanStep
  rw [if_neg (by decide), if_pos rfl]

theorem foldl_clean_plain (l : List String) (hl : plainPath l = true) :
    ∀ acc, l.foldl cleanStep acc = acc ++ l := by
  induction l with
  | nil => intro acc; simp
  | cons x xs ih =>
    intro acc
    simp only [plainPath, List.all_cons, Bool.and_eq_true] at hl
    simp only [List.foldl_cons, cleanStep_plain acc x hl.1, ih hl.2]
    simp

theorem foldl_clean_dotdot (l : List String) :
    ∀ acc, (List.replicate l.length "..").foldl cleanStep (acc ++ l) = acc := by
  induction l using List.reverseRecOn with
  | nil => intro acc; simp
  | append_singleton l x ih =>
    intro acc
    rw [show (l ++ [x]).length = l.length + 1 by simp]
    rw [show List.replicate (l.length + 1) ".." = ".." :: List.replicate l.length ".."
      from rfl]
    rw [List.foldl_cons, cleanStep_dotdot]
    rw [show (acc ++ (l ++ [x])).dropLast = acc ++ l by
      rw [← List.append_assoc, List.dropLast_concat]]
    exact ih acc

theorem foldl_clean_goRel :
    ∀ (b s : Path), plainPath b = true → plainPath s = true →
    ∀ acc, (b ++ goRel b s).foldl cleanStep acc = acc ++ s := by
  intro b
  induction b with
  | nil =>
    intro s hb hs acc
    simp only [goRel, List.nil_append]
    exact foldl_clean_plain s hs acc
  | cons x bs ih =>
    intro s hb hs acc
    have hb2 : plainSeg x = true ∧ plainPath bs = true := by
      simpa [plainPath] using hb
    cases s with
    | nil =>
      have hrel : goRel (x :: bs) [] = List.replicate (x :: bs).length ".." := rfl
      rw [hrel, List.foldl_append]
      rw [foldl_clean_plain (x :: bs) hb]
      rw [foldl_clean_dotdot (x :: bs) acc]
      simp
    | cons y ts =>
      have hts : plainPath ts = true := by
        simp only [plainPath, List.all_cons, Bool.and_eq_true] at hs
        exact hs.2
      by_cases hxy : x = y
      · have hrel : goRel (x :: bs) (y :: ts) = goRel bs ts := by
          simp [goRel, hxy]
        rw [hrel]
        simp only [List.cons_append, List.foldl_cons]
        rw [cleanStep_plain acc x hb2.1, ih ts hb2.2 hts]
        subst hxy
        simp
      · have hrel : goRel (x :: bs) (y :: ts)
            = List.replicate (bs.length + 1) ".." ++ (y :: ts) := by
          simp [goRel, hxy]
        rw [hrel]
        rw [show (x :: bs) ++ (List.replicate (bs.length + 1) ".." ++ (y :: ts))
            = (x :: bs) ++ List.replicate (x :: bs).length ".." ++ (y :: ts) by simp]
        rw [List.foldl_append, List.foldl_append]
        rw [foldl_clean_plain (x :: bs) hb]
        rw [foldl_clean_dotdot (x :: bs) acc]
        exact foldl_clean_plain (y :: ts) hs acc

/-- The destination that `createSymlink` writes (`filepath.Rel` from the
target's directory to the source, `Join`-resolved back against that
directory) resolves to the source, for clean paths. -/
theorem resolve_goRel (q s : Path) (hq : plainPath q.dropLast = true)
    (hs : plainPath s = true) :
    (LinkDest.mk false (goRel q.dropLast s)).resolve q = s := by
  unfold LinkDest.resolve cleanSegs
  simp only [Bool.false_eq_true, if_false]
  exact foldl_clean_goRel q.dropLast s hq hs []

/-- Witness for C8 (amended) at the concrete ignored entry `a`. -/
theorem C8_ignore_exclusion_witness :
    ((["t", "a"] : Path)
        ∈ (linkDirectory false cfgIgn pkgPlain 0 10 pkgPlain.source ["t"]
            ⟨fsIgn, lockIgn, [], [], []⟩).1.created →
      (["t", "a"] : Path) ∈ ([] : List Path)) ∧
    (linkDirectory false cfgIgn pkgPlain 0 10 pkgPlain.source ["t"]
        ⟨fsIgn, lockIgn, [], [], []⟩).1.lock.lookup ["t", "a"]
      = lockIgn.lookup ["t", "a"] :=
  C8_ignore_exclusion false cfgIgn pkgPlain 0 10 ["t"]
    ⟨fsIgn, lockIgn, [], [], []⟩ ["a"] [] (by decide) (by decide)

/-! ## C1: the walk reads only the source portion of the filesystem -/

theorem find?_key_filter (l : List (Path × FSNode)) (P : Path × FSNode → Bool)
    (q : Path) (h : ∀ n, P (q, n) = true) :
    ((l.filter P).find? fun e => e.1 == q) = l.find? fun e => e.1 == q := by
  induction l with
  | nil => rfl
  | cons e l ih =>
    rcases e with ⟨k, n⟩
    by_cases hk : k = q
    · subst hk
      rw [List.filter_cons, if_pos (h n)]
      rw [List.find?_cons_of_pos _ (by simp), List.find?_cons_of_pos _ (by simp)]
    · by_cases hp : P (k, n) = true
      · rw [List.filter_cons, if_pos hp]
        rw [List.find?_cons_of_neg _ (by simp [hk]),
          List.find?_cons_of_neg _ (by simp [hk])]
        exact ih
      · rw [List.filter_cons, if_neg hp]
        rw [List.find?_cons_of_neg _ (by simp [hk])]
        exact ih

theorem lookup_eq_of_srcEntries_eq (root : Path) (fs1 fs2 : FS)
    (h : srcEntries root fs1 = srcEntries root fs2) (q : Path)
    (hq : root.isPrefixOf q = true) : fs1.lookup q = fs2.lookup q := by
  unfold FS.lookup
  have e1 := find?_key_filter fs1.entries (fun e => root.isPrefixOf e.1) q fun n => hq
  have e2 := find?_key_filter fs2.entries (fun e => root.isPrefixOf e.1) q fun n => hq
  unfold srcEntries at h
  rw [← e1, ← e2, h]

theorem filterMap_filter_support {α β : Type} (g : α → Option β) (P : α → Bool)
    (l : List α) (h : ∀ e, (g e).isSome → P e = true) :
    (l.filter P).filterMap g = l.filterMap g := by
  induction l with
  | nil => rfl
  | cons e l ih =>
    by_cases hp : P e = true
    · rw [List.filter_cons, if_pos hp, List.filterMap_cons, List.filterMap_cons]
      cases g e <;> simp [ih]
    · rw [List.filter_cons, if_neg hp]
      have hge : g e = none := by
        cases hg : g e with
        | none => rfl
        | some b => exact absurd (h e (by simp [hg])) hp
      rw [List.filterMap_cons, hge, ih]

theorem readDir_eq_of_srcEntries_eq (root : Path) (fs1 fs2 : FS)
    (h : srcEntries root fs1 = srcEntries root fs2) (p : Path)
    (hp : root.isPrefixOf p = true) : fs1.readDir p = fs2.readDir p := by
  have hsupport : ∀ (fs : FS), ∀ e : Path × FSNode,
      ((if e.1.dropLast == p && e.1 != ([] : Path) then e.1.getLast? else none)).isSome →
      root.isPrefixOf e.1 = true := by
    intro fs e hsome
    by_cases hc : (e.1.dropLast == p && e.1 != ([] : Path)) = true
    · simp only [Bool.and_eq_true, beq_iff_eq, bne_iff_ne, ne_eq] at hc
      have hpre : root <+: e.1 := by
        have h1 : root <+: p := (List.isPrefixOf_iff_prefix).mp hp
        have h2 : p <+: e.1 := by
          rw [← hc.1]
          exact List.dropLast_prefix e.1
        exact h1.trans h2
      exact (List.isPrefixOf_iff_prefix).mpr hpre
    · rw [if_neg hc] at hsome
      cases hsome
  have hnames : fs1.entries.filterMap
        (fun e => if e.1.dropLast == p && e.1 != ([] : Path) then e.1.getLast? else none)
      = fs2.entries.filterMap
        (fun e => if e.1.dropLast == p && e.1 != ([] : Path) then e.1.getLast? else none) := by
    rw [← filterMap_filter_support _ (fun e => root.isPrefixOf e.1) fs1.entries
        (hsupport fs1)]
    rw [← filterMap_filter_support _ (fun e => root.isPrefixOf e.1) fs2.entries
        (hsupport fs2)]
    unfold srcEntries at h
    rw [h]
  unfold FS.readDir
  rw [lookup_eq_of_srcEntries_eq root fs1 fs2 h p hp]
  cases fs2.lookup p with
  | none => rfl
  | some n =>
    cases n with
    | file => rfl
    | symlink d => rfl
    | dir =>
      rw [hnames]
      refine congrArg Except.ok ?_
      apply List.filterMap_congr
      intro a _
      cases a with
      | nil => rfl
      | cons name restn =>
        cases restn with
        | cons y ys => rfl
        | nil =>
          have : fs1.lookup (p ++ [name]) = fs2.lookup (p ++ [name]) := by
            refine lookup_eq_of_srcEntries_eq root fs1 fs2 h _ ?_
            refine (List.isPrefixOf_iff_prefix).mpr ?_
            exact ((List.isPrefixOf_iff_prefix).mp hp).trans (List.prefix_append _ _)
          show Option.map (fun x => (name, x)) (fs1.lookup (p ++ [name]))
            = Option.map (fun x => (name, x)) (fs2.lookup (p ++ [name]))
          rw [this]

/-! ## C1: `MkdirAll` lemmas -/

theorem mkdirAllFrom_noop : ∀ (rest : List String) (pre : Path) (fs : FS),
    (∀ k, 1 ≤ k → k ≤ rest.length → fs.lookup (pre ++ rest.take k) = some .dir) →
    mkdirAllFrom fs pre rest = .ok fs := by
  intro rest
  induction rest with
  | nil => intro pre fs h; rfl
  | cons x rest ih =>
    intro pre fs h
    have h1 : fs.lookup (pre ++ [x]) = some .dir := by
      have := h 1 (le_refl _) (by simp)
      simpa using this
    unfold mkdirAllFrom
    rw [h1]
    refine ih (pre ++ [x]) fs ?_
    intro k hk1 hk2
    have := h (k + 1) (by omega) (by simpa using Nat.succ_le_succ hk2)
    rw [List.take_succ_cons, List.append_cons] at this
    exact this

theorem mkdirAllFrom_spec : ∀ (rest : List String) (pre : Path) (fs fs' : FS),
    mkdirAllFrom fs pre rest = .ok fs' →
    (∀ q, fs'.lookup q ≠ fs.lookup q →
      fs.lookup q = none ∧ fs'.lookup q = some .dir ∧
      ∃ k, 1 ≤ k ∧ k ≤ rest.length ∧ q = pre ++ rest.take k) ∧
    (∀ k, 1 ≤ k → k ≤ rest.length → fs'.lookup (pre ++ rest.take k) = some .dir) ∧
    fs'.statErr = fs.statErr ∧ fs'.removeErr = fs.removeErr := by
  intro rest
  induction rest with
  | nil =>
    intro pre fs fs' hok
    cases hok
    refine ⟨fun q hq => absurd rfl hq, fun k hk1 hk2 => ?_, rfl, rfl⟩
    exact absurd (hk1.trans hk2) (by simp)
  | cons x rest ih =>
    intro pre fs fs' hok
    unfold mkdirAllFrom at hok
    have hshift : ∀ (k : Nat), 1 ≤ k → k ≤ rest.length →
        (pre ++ [x]) ++ rest.take k = pre ++ (x :: rest).take (k + 1) := by
      intro k hk1 hk2
      rw [List.take_succ_cons]
      simp
    cases hl : fs.lookup (pre ++ [x]) with
    | some n =>
      cases n with
      | dir =>
        rw [hl] at hok
        rcases ih (pre ++ [x]) fs fs' hok with ⟨hframe, hdirs, hfaults⟩
        refine ⟨?_, ?_, hfaults⟩
        · intro q hq
          rcases hframe q hq with ⟨h1, h2, k, hk1, hk2, hk3⟩
          exact ⟨h1, h2, k + 1, by omega, by simpa using Nat.succ_le_succ hk2,
            by rw [hk3, hshift k hk1 hk2]⟩
        · intro k hk1 hk2
          match k, hk1 with
          | 1, _ =>
            by_cases hch : fs'.lookup (pre ++ (x :: rest).take 1) = fs.lookup
                (pre ++ (x :: rest).take 1)
            · rw [hch]
              simpa using hl
            · exact (hframe _ hch).2.1
          | k + 2, _ =>
            have hk2b : k + 1 ≤ rest.length := by simpa using hk2
            have := hdirs (k + 1) (by omega) hk2b
            rw [hshift (k + 1) (by omega) hk2b] at this
            exact this
      | file =>
        rw [hl] at hok
        cases hok
      | symlink d =>
        rw [hl] at hok
        cases hok
    | none =>
      rw [hl] at hok
      rcases ih (pre ++ [x]) (fs.insert (pre ++ [x]) .dir) fs' hok with
        ⟨hframe, hdirs, hfaults⟩
      have hins : ∀ q, (fs.insert (pre ++ [x]) .dir).lookup q
          = if pre ++ [x] = q then some .dir else fs.lookup q := fun q =>
        lookup_insert fs (pre ++ [x]) .dir q
      refine ⟨?_, ?_, ?_⟩
      · intro q hq
        by_cases hq2 : fs'.lookup q = (fs.insert (pre ++ [x]) .dir).lookup q
        · rw [hq2, hins q] at hq ⊢
          by_cases hqx : pre ++ [x] = q
          · rw [if_pos hqx] at hq ⊢
            refine ⟨?_, rfl, 1, le_refl _, by simp, by simp [← hqx]⟩
            rw [← hqx]
            exact hl
          · rw [if_neg hqx] at hq
            exact absurd rfl hq
        · rcases hframe q hq2 with ⟨h1, h2, k, hk1, hk2, hk3⟩
          rw [hins q] at h1
          by_cases hqx : pre ++ [x] = q
          · rw [if_pos hqx] at h1
            cases h1
          · rw [if_neg hqx] at h1
            exact ⟨h1, h2, k + 1, by omega, by simpa using Nat.succ_le_succ hk2,
              by rw [hk3, hshift k hk1 hk2]⟩
      · intro k hk1 hk2
        match k, hk1 with
        | 1, _ =>
          by_cases hch : fs'.lookup (pre ++ (x :: rest).take 1)
              = (fs.insert (pre ++ [x]) .dir).lookup (pre ++ (x :: rest).take 1)
          · rw [hch, hins]
            simp
          · exact (hframe _ hch).2.1
        | k + 2, _ =>
          have hk2b : k + 1 ≤ rest.length := by simpa using hk2
          have := hdirs (k + 1) (by omega) hk2b
          rw [hshift (k + 1) (by omega) hk2b] at this
          exact this
      · rw [hfaults.1, hfaults.2]
        exact ⟨rfl, rfl⟩

/-! ## C1: preservation of the source view under target-area mutations -/

theorem srcEntries_insert (S : Path) (fs : FS) (p : Path) (n : FSNode)
    (hp : ¬ S <+: p) : srcEntries S (fs.insert p n) = srcEntries S fs := by
  unfold srcEntries FS.insert
  rw [List.filter_cons]
  rw [if_neg (by simp only [List.isPrefixOf_iff_prefix]; simpa using hp)]
  rw [List.filter_comm]
  refine List.filter_eq_self.mpr ?_
  intro e he
  have hpre : S <+: e.1 := (List.isPrefixOf_iff_prefix).mp ((List.mem_filter.mp he).2)
  simp only [bne_iff_ne, ne_eq]
  intro hep
  exact hp (hep ▸ hpre)

theorem srcEntries_erase (S : Path) (fs : FS) (p : Path)
    (hp : ¬ S <+: p) : srcEntries S (fs.erase p) = srcEntries S fs := by
  unfold srcEntries FS.erase
  rw [List.filter_comm]
  refine List.filter_eq_self.mpr ?_
  intro e he
  have hpre : S <+: e.1 := (List.isPrefixOf_iff_prefix).mp ((List.mem_filter.mp he).2)
  simp only [bne_iff_ne, ne_eq]
  intro hep
  exact hp (hep ▸ hpre)

theorem srcEntries_removeOp (S : Path) (fs : FS) (p : Path) (hp : ¬ S <+: p) :
    srcEntries S (fs.removeOp p).1 = srcEntries S fs := by
  unfold FS.removeOp
  by_cases h1 : fs.removeErr.contains p = true
  · rw [if_pos h1]
  · rw [if_neg h1]
    cases hl : fs.lookup p with
    | none => simp only [hl]
    | some n =>
      cases n with
      | file => simp only [hl]; exact srcEntries_erase S fs p hp
      | symlink d => simp only [hl]; exact srcEntries_erase S fs p hp
      | dir =>
        simp only [hl]
        by_cases h2 : fs.entries.any (fun e => p.isPrefixOf e.1 && e.1 != p) = true
        · rw [if_pos h2]
        · rw [if_neg h2]
          exact srcEntries_erase S fs p hp

theorem srcEntries_mkdirAllFrom (S : Path) :
    ∀ (rest : List String) (pre : Path) (fs fs' : FS),
    mkdirAllFrom fs pre rest = .ok fs' →
    (∀ k, 1 ≤ k → k ≤ rest.length → ¬ S <+: pre ++ rest.take k) →
    srcEntries S fs' = srcEntries S fs := by
  intro rest
  induction rest with
  | nil =>
    intro pre fs fs' hok _
    cases hok
    rfl
  | cons x rest ih =>
    intro pre fs fs' hok hout
    unfold mkdirAllFrom at hok
    have hout1 : ¬ S <+: pre ++ [x] := by
      have := hout 1 (le_refl _) (by simp)
      simpa using this
    have houtk : ∀ k, 1 ≤ k → k ≤ rest.length → ¬ S <+: (pre ++ [x]) ++ rest.take k := by
      intro k hk1 hk2
      have := hout (k + 1) (by omega) (by simpa using Nat.succ_le_succ hk2)
      rw [List.take_succ_cons] at this
      simpa using this
    cases hl : fs.lookup (pre ++ [x]) with
    | some n =>
      cases n with
      | dir =>
        rw [hl] at hok
        exact ih (pre ++ [x]) fs fs' hok houtk
      | file => rw [hl] at hok; cases hok
      | symlink d => rw [hl] at hok; cases hok
    | none =>
      rw [hl] at hok
      rw [ih (pre ++ [x]) (fs.insert (pre ++ [x]) .dir) fs' hok houtk]
      exact srcEntries_insert S fs (pre ++ [x]) .dir hout1

/-- Looking up any path in a filesystem without symlink entries never
yields a symlink (used to discharge the no-symlink hypothesis at concrete
filesystems). -/
theorem lookup_no_symlink (fs : FS)
    (h : fs.entries.all
      (fun e => match e.2 with | FSNode.symlink _ => false | _ => true) = true)
    (q : Path) (d : LinkDest) :
    fs.lookup q ≠ some (.symlink d) := by
  intro hq
  unfold FS.lookup at hq
  cases hf : fs.entries.find? fun e => e.1 == q with
  | none => rw [hf] at hq; cases hq
  | some e =>
    rw [hf] at hq
    have hmem := List.mem_of_find?_eq_some hf
    have heq : e.2 = FSNode.symlink d := by
      simpa using hq
    have hall := List.all_eq_true.mp h e hmem
    rw [heq] at hall
    cases hall

/-! ## C1: plain-path helpers -/

theorem plainPath_append (a b : Path) :
    plainPath (a ++ b) = (plainPath a && plainPath b) := by
  unfold plainPath
  exact List.all_append

theorem plainPath_dropLast (p : Path) (h : plainPath p = true) :
    plainPath p.dropLast = true := by
  unfold plainPath at h ⊢
  rw [List.all_eq_true] at h ⊢
  intro x hx
  exact h x (List.dropLast_subset p hx)

/-! ## C1: `readDir` facts -/

theorem readDir_member (fs : FS) (p : Path) (es : List (String × FSNode))
    (hok : fs.readDir p = .ok es) :
    ∀ q ∈ es, fs.lookup (p ++ [q.1]) = some q.2 := by
  intro q hq
  unfold FS.readDir at hok
  cases hl : fs.lookup p with
  | none => rw [hl] at hok; cases hok
  | some n =>
    cases n with
    | file => rw [hl] at hok; cases hok
    | symlink d => rw [hl] at hok; cases hok
    | dir =>
      rw [hl] at hok
      have hes : es = (sortPaths (((fs.entries.filterMap fun e =>
          if e.1.dropLast == p && e.1 != ([] : Path) then e.1.getLast? else none).dedup).map
            ([·]))).filterMap (dirChild fs p) := by
        cases hok
        rfl
      rw [hes] at hq
      rcases List.mem_filterMap.mp hq with ⟨a, _, ha⟩
      cases a with
      | nil => cases ha
      | cons name resta =>
        cases resta with
        | cons y ys => cases ha
        | nil =>
          have ha' : (fs.lookup (p ++ [name])).map (name, ·) = some q := ha
          cases hlk : fs.lookup (p ++ [name]) with
          | none => rw [hlk] at ha'; cases ha'
          | some node =>
            rw [hlk] at ha'
            have ha2 : some (name, node) = some q := ha'
            have heq : name = q.1 ∧ node = q.2 := by
              cases ha2
              exact ⟨rfl, rfl⟩
            rw [← heq.1, ← heq.2]
            exact hlk

theorem insertPath_perm (x : Path) (l : List Path) :
    List.Perm (insertPath x l) (x :: l) := by
  induction l with
  | nil => exact List.Perm.refl _
  | cons y ys ih =>
    unfold insertPath
    by_cases h : pathLe x y = true
    · rw [if_pos h]
    · rw [if_neg h]
      exact (List.Perm.cons y ih).trans (List.Perm.swap x y ys)

theorem sortPaths_perm (l : List Path) : List.Perm (sortPaths l) l := by
  induction l with
  | nil => exact List.Perm.refl _
  | cons x xs ih =>
    unfold sortPaths
    exact (insertPath_perm x (sortPaths xs)).trans (List.Perm.cons x ih)

theorem filterMap_names_nodup (fs : FS) (p : Path) :
    ∀ l : List Path, l.Nodup →
    ((l.filterMap (dirChild fs p)).map Prod.fst).Nodup := by
  intro l
  induction l with
  | nil => intro _; exact List.nodup_nil
  | cons a l ihl =>
    intro hnd
    rw [List.filterMap_cons]
    have htail := ihl (List.Nodup.of_cons hnd)
    cases a with
    | nil => exact htail
    | cons name resta =>
      cases resta with
      | cons y ys => exact htail
      | nil =>
        have hd : dirChild fs p [name] = (fs.lookup (p ++ [name])).map (name, ·) := rfl
        rw [hd]
        cases hlk : fs.lookup (p ++ [name]) with
        | none => exact htail
        | some node =>
          show (((name, node) :: l.filterMap (dirChild fs p)).map Prod.fst).Nodup
          rw [List.map_cons]
          refine List.Nodup.cons ?_ htail
          intro hmem
          rcases List.mem_map.mp hmem with ⟨q, hq, hq1⟩
          rcases List.mem_filterMap.mp hq with ⟨b, hb, hbq⟩
          cases b with
          | nil => cases hbq
          | cons name2 restb =>
            cases restb with
            | cons y2 ys2 => cases hbq
            | nil =>
              have hbq' : (fs.lookup (p ++ [name2])).map (name2, ·) = some q := hbq
              cases hlk2 : fs.lookup (p ++ [name2]) with
              | none => rw [hlk2] at hbq'; cases hbq'
              | some node2 =>
                rw [hlk2] at hbq'
                have hbq2 : some (name2, node2) = some q := hbq'
                have hq1' : name2 = name := by
                  cases hbq2
                  simpa using hq1
                rw [hq1'] at hb
                exact (List.nodup_cons.mp hnd).1 hb

theorem readDir_names_nodup (fs : FS) (p : Path) (es : List (String × FSNode))
    (hok : fs.readDir p = .ok es) : (es.map Prod.fst).Nodup := by
  unfold FS.readDir at hok
  cases hl : fs.lookup p with
  | none => rw [hl] at hok; cases hok
  | some n =>
    cases n with
    | file => rw [hl] at hok; cases hok
    | symlink d => rw [hl] at hok; cases hok
    | dir =>
      rw [hl] at hok
      have hes : es = (sortPaths (((fs.entries.filterMap fun e =>
          if e.1.dropLast == p && e.1 != ([] : Path) then e.1.getLast? else none).dedup).map
            ([·]))).filterMap (dirChild fs p) := by
        cases hok
        rfl
      have hnd : (sortPaths (((fs.entries.filterMap fun e =>
          if e.1.dropLast == p && e.1 != ([] : Path) then e.1.getLast? else none).dedup).map
            ([·]))).Nodup := by
        refine (sortPaths_perm _).nodup_iff.mpr ?_
        refine List.Nodup.map ?_ (List.nodup_dedup _)
        intro a b hab
        simpa using hab
      rw [hes]
      exact filterMap_names_nodup fs p _ hnd

/-! ## C1: `createSymlink` in an already-converged state is a lock-only no-op -/

theorem mkdirAll_noop (fs : FS) (target : Path) (hdirs : DirsOK fs target) :
    fs.mkdirAll target.dropLast = .ok fs := by
  unfold FS.mkdirAll
  refine mkdirAllFrom_noop target.dropLast [] fs ?_
  intro k hk1 hk2
  have hpre : List.take k target.dropLast <+: target.dropLast := List.take_prefix _ _
  have hlen : (List.take k target.dropLast).length = k := by
    rw [List.length_take]
    omega
  have hne : List.take k target.dropLast ≠ [] := by
    intro hnil
    rw [hnil] at hlen
    simp at hlen
    omega
  simpa using hdirs _ hpre hne

theorem createSymlink_noop (now : Nat) (source target : Path) (isFolded : Bool)
    (st : LinkState) (d : LinkDest)
    (hl : st.fs.lookup target = some (.symlink d)) (hres : d.resolve target = source)
    (hdirs : DirsOK st.fs target) (hstat : st.fs.statErr = []) :
    createSymlink false now source target isFolded st
      = ({ st with lock := st.lock.addSymlink target source isFolded now }, none) := by
  have hmk : st.fs.mkdirAll target.dropLast = .ok st.fs := mkdirAll_noop st.fs target hdirs
  have hls : st.fs.lstat target = .ok (some (.symlink d)) := by
    unfold FS.lstat
    rw [hstat]
    simp [hl]
  unfold createSymlink createCheck
  simp only [Bool.false_eq_true, if_false, hmk, hls, hres, if_pos]

/-! ## C1: what a successful `createSymlink` run establishes -/

theorem createSymlink_post (now : Nat) (source target : Path) (isFolded : Bool)
    (st st2 : LinkState)
    (hrun : createSymlink false now source target isFolded st = (st2, none))
    (hse : st.fs.statErr = []) (hre : st.fs.removeErr = [])
    (hplt : plainPath target.dropLast = true) (hpls : plainPath source = true) :
    Estab st2.fs source target ∧ DirsOK st2.fs target ∧
    st2.lock = st.lock.addSymlink target source isFolded now ∧
    st2.fs.statErr = [] ∧ st2.fs.removeErr = [] ∧
    (∀ q, st2.fs.lookup q ≠ st.fs.lookup q →
      q = target ∨ (st.fs.lookup q = none ∧ st2.fs.lookup q = some FSNode.dir ∧
        q ≠ [] ∧ q <+: target.dropLast)) ∧
    (∀ root, ¬ root <+: target → srcEntries root st2.fs = srcEntries root st.fs) := by
  unfold createSymlink at hrun
  simp only [Bool.false_eq_true, if_false] at hrun
  cases hmk : st.fs.mkdirAll target.dropLast with
  | error e =>
    rw [hmk] at hrun
    have hcon := congrArg Prod.snd hrun
    simp at hcon
  | ok fs1 =>
    rw [hmk] at hrun
    have hrun1 : createCheck false now source target isFolded
        ⟨fs1, st.lock, st.created, st.removed, st.errors⟩ = (st2, none) := hrun
    rcases mkdirAllFrom_spec target.dropLast [] st.fs fs1 hmk with ⟨mframe, mdirs, mse, mre⟩
    have hse1 : fs1.statErr = [] := by rw [mse, hse]
    have hre1 : fs1.removeErr = [] := by rw [mre, hre]
    have hdirs1 : DirsOK fs1 target := by
      intro pre hpre hne
      have hlen1 : 1 ≤ pre.length := by
        cases pre with
        | nil => exact absurd rfl hne
        | cons a l => simp
      have hlen2 : pre.length ≤ target.dropLast.length := hpre.length_le
      have := mdirs pre.length hlen1 hlen2
      rw [List.nil_append, ← List.prefix_iff_eq_take.mp hpre] at this
      exact this
    have hframe1 : ∀ q, fs1.lookup q ≠ st.fs.lookup q →
        st.fs.lookup q = none ∧ fs1.lookup q = some FSNode.dir ∧
        q ≠ [] ∧ q <+: target.dropLast := by
      intro q hq
      rcases mframe q hq with ⟨h1, h2, k, hk1, hk2, hk3⟩
      rw [List.nil_append] at hk3
      refine ⟨h1, h2, ?_, hk3 ▸ List.take_prefix _ _⟩
      intro hnil
      rw [hnil] at hk3
      have hlt : (List.take k target.dropLast).length = k := by
        rw [List.length_take]
        omega
      rw [← hk3] at hlt
      simp at hlt
      omega
    have hsrc1 : ∀ root, ¬ root <+: target →
        srcEntries root fs1 = srcEntries root st.fs := by
      intro root hroot
      refine srcEntries_mkdirAllFrom root target.dropLast [] st.fs fs1 hmk ?_
      intro k hk1 hk2 hcon
      rw [List.nil_append] at hcon
      exact hroot (hcon.trans ((List.take_prefix _ _).trans (List.dropLast_prefix target)))
    have htne : ∀ pre : Path, pre <+: target.dropLast → pre ≠ [] → target ≠ pre := by
      intro pre hpre hne he
      have h2 : pre.length ≤ target.length - 1 := by
        have := hpre.length_le
        rw [List.length_dropLast] at this
        omega
      rw [← he] at h2
      have h3 : 1 ≤ target.length := by
        rw [he]
        cases pre with
        | nil => exact absurd rfl hne
        | cons a l => simp
      omega
    have hlstat : fs1.lstat target = .ok (fs1.lookup target) := by
      unfold FS.lstat
      rw [hse1]
      simp
    unfold createCheck at hrun1
    simp only [hlstat] at hrun1
    cases hlk : fs1.lookup target with
    | some existing =>
      rw [hlk] at hrun1
      cases existing with
      | file =>
        have hcon := congrArg Prod.snd hrun1
        simp at hcon
      | dir =>
        have hcon := congrArg Prod.snd hrun1
        simp at hcon
      | symlink dd =>
        have hrun2 : (if dd.resolve target = source then
              ((⟨fs1, st.lock.addSymlink target source isFolded now,
                  st.created, st.removed, st.errors⟩ : LinkState), (none : Option GoError))
            else
              match fs1.removeOp target with
              | (_, RemoveOutcome.failed) =>
                ((⟨fs1, st.lock, st.created, st.removed, st.errors⟩ : LinkState),
                  some (GoError.removeExisting target))
              | (fs2, _) =>
                createFinish false now source target isFolded
                  ⟨fs2, st.lock, st.created, st.removed, st.errors⟩)
            = (st2, none) := hrun1
        by_cases hres : dd.resolve target = source
        · rw [if_pos hres] at hrun2
          have hst2 : (⟨fs1, st.lock.addSymlink target source isFolded now,
              st.created, st.removed, st.errors⟩ : LinkState) = st2 :=
            congrArg Prod.fst hrun2
          rw [← hst2]
          refine ⟨⟨dd, hlk, hres⟩, hdirs1, rfl, hse1, hre1, ?_, ?_⟩
          · intro q hq
            rcases hframe1 q hq with ⟨h1, h2, h3, h4⟩
            exact Or.inr ⟨h1, h2, h3, h4⟩
          · exact hsrc1
        · rw [if_neg hres] at hrun2
          have hrm : fs1.removeOp target = (fs1.erase target, .ok) := by
            unfold FS.removeOp
            rw [hre1, hlk]
            simp
          rw [hrm] at hrun2
          have hrun3 : createFinish false now source target isFolded
              ⟨fs1.erase target, st.lock, st.created, st.removed, st.errors⟩
              = (st2, none) := hrun2
          unfold createFinish at hrun3
          have hel : (fs1.erase target).lookup target = none := by
            rw [lookup_erase]
            simp
          simp only [Bool.false_eq_true, if_false, hel] at hrun3
          have hst2 : (⟨(fs1.erase target).insert target
                (.symlink ⟨false, goRel target.dropLast source⟩),
              st.lock.addSymlink target source isFolded now,
              st.created ++ [target], st.removed, st.errors⟩ : LinkState) = st2 :=
            congrArg Prod.fst hrun3
          rw [← hst2]
          have hfin : ∀ q, ((fs1.erase target).insert target
              (.symlink ⟨false, goRel target.dropLast source⟩)).lookup q
              = if target = q then some (.symlink ⟨false, goRel target.dropLast source⟩)
                else fs1.lookup q := by
            intro q
            rw [lookup_insert, lookup_erase]
            by_cases h : target = q
            · rw [if_pos h, if_pos h]
            · rw [if_neg h, if_neg h, if_neg h]
          refine ⟨?_, ?_, rfl, hse1, hre1, ?_, ?_⟩
          · refine ⟨⟨false, goRel target.dropLast source⟩, ?_, ?_⟩
            · show ((fs1.erase target).insert target
                (.symlink ⟨false, goRel target.dropLast source⟩)).lookup target
                = some (.symlink ⟨false, goRel target.dropLast source⟩)
              rw [hfin, if_pos rfl]
            · exact resolve_goRel target source hplt hpls
          · intro pre hpre hne
            show ((fs1.erase target).insert target
                (.symlink ⟨false, goRel target.dropLast source⟩)).lookup pre
                = some FSNode.dir
            rw [hfin, if_neg (htne pre hpre hne)]
            exact hdirs1 pre hpre hne
          · intro q hq
            have hq' : ((fs1.erase target).insert target
                (.symlink ⟨false, goRel target.dropLast source⟩)).lookup q
                ≠ st.fs.lookup q := hq
            rw [hfin] at hq'
            by_cases h : target = q
            · exact Or.inl h.symm
            · rw [if_neg h] at hq'
              rcases hframe1 q hq' with ⟨h1, h2, h3, h4⟩
              refine Or.inr ⟨h1, ?_, h3, h4⟩
              show ((fs1.erase target).insert target
                  (.symlink ⟨false, goRel target.dropLast source⟩)).lookup q
                  = some FSNode.dir
              rw [hfin, if_neg h]
              exact h2
          · intro root hroot
            show srcEntries root ((fs1.erase target).insert target
                (.symlink ⟨false, goRel target.dropLast source⟩)) = srcEntries root st.fs
            rw [srcEntries_insert root _ target _ hroot,
              srcEntries_erase root _ target hroot]
            exact hsrc1 root hroot
    | none =>
      rw [hlk] at hrun1
      have hrun2 : createFinish false now source target isFolded
          ⟨fs1, st.lock, st.created, st.removed, st.errors⟩ = (st2, none) := hrun1
      unfold createFinish at hrun2
      simp only [Bool.false_eq_true, if_false, hlk] at hrun2
      have hst2 : (⟨fs1.insert target
            (.symlink ⟨false, goRel target.dropLast source⟩),
          st.lock.addSymlink target source isFolded now,
          st.created ++ [target], st.removed, st.errors⟩ : LinkState) = st2 :=
        congrArg Prod.fst hrun2
      rw [← hst2]
      refine ⟨?_, ?_, rfl, hse1, hre1, ?_, ?_⟩
      · refine ⟨⟨false, goRel target.dropLast source⟩, ?_, ?_⟩
        · show (fs1.insert target
              (.symlink ⟨false, goRel target.dropLast source⟩)).lookup target
            = some (.symlink ⟨false, goRel target.dropLast source⟩)
          rw [lookup_insert, if_pos rfl]
        · exact resolve_goRel target source hplt hpls
      · intro pre hpre hne
        show (fs1.insert target
            (.symlink ⟨false, goRel target.dropLast source⟩)).lookup pre
          = some FSNode.dir
        rw [lookup_insert, if_neg (htne pre hpre hne)]
        exact hdirs1 pre hpre hne
      · intro q hq
        have hq' : (fs1.insert target
            (.symlink ⟨false, goRel target.dropLast source⟩)).lookup q
            ≠ st.fs.lookup q := hq
        rw [lookup_insert] at hq'
        by_cases h : target = q
        · exact Or.inl h.symm
        · rw [if_neg h] at hq'
          rcases hframe1 q hq' with ⟨h1, h2, h3, h4⟩
          refine Or.inr ⟨h1, ?_, h3, h4⟩
          show (fs1.insert target
              (.symlink ⟨false, goRel target.dropLast source⟩)).lookup q
            = some FSNode.dir
          rw [lookup_insert, if_neg h]
          exact h2
      · intro root hroot
        show srcEntries root (fs1.insert target
            (.symlink ⟨false, goRel target.dropLast source⟩)) = srcEntries root st.fs
        rw [srcEntries_insert root _ target _ hroot]
        exact hsrc1 root hroot

/-! ## C1: the dead-link phase on healthy records -/

theorem deadCheck_healthy (fs : FS) (r : SymlinkRec)
    (hse : fs.statErr = []) (hh : HealthyRec fs r) :
    deadCheck fs r = .ok false := by
  rcases hh with ⟨⟨d, hl, hres⟩, nd, hnd, hnds⟩
  have hls : fs.lstat r.target = .ok (some (.symlink d)) := by
    unfold FS.lstat
    rw [hse]
    simp [hl]
  unfold deadCheck
  rw [hls]
  show (if fs.statNotExist (fs.entries.length + 1) (d.resolve r.target) then Except.ok true
    else if d.resolve r.target ≠ r.source then Except.ok true else Except.ok false)
    = Except.ok false
  rw [hres]
  have hsn : fs.statNotExist (fs.entries.length + 1) r.source = false := by
    unfold FS.statNotExist
    rw [hnd]
    cases nd with
    | file => rfl
    | dir => rfl
    | symlink dd => exact absurd rfl (hnds dd)
  rw [hsn]
  simp

theorem deadLoop_all_ok (fs : FS) : ∀ rs : List SymlinkRec,
    (∀ r ∈ rs, deadCheck fs r = .ok false) → deadLoop fs rs = .ok [] := by
  intro rs
  induction rs with
  | nil => intro _; rfl
  | cons r rest ih =>
    intro h
    unfold deadLoop
    rw [h r (by simp)]
    exact ih fun r2 hr2 => h r2 (by simp [hr2])

theorem sorted_mem (l : LockFile) (r : SymlinkRec) (hr : r ∈ l.sorted) :
    ∃ k, l.lookup k = some r := by
  unfold LockFile.sorted at hr
  rcases List.mem_filterMap.mp hr with ⟨k, _, hk⟩
  exact ⟨k, hk⟩

theorem getDeadSymlinks_healthy (fs : FS) (l : LockFile)
    (hse : fs.statErr = [])
    (h : ∀ k r, l.lookup k = some r → HealthyRec fs r) :
    getDeadSymlinks fs l = .ok [] := by
  unfold getDeadSymlinks
  refine deadLoop_all_ok fs l.sorted ?_
  intro r hr
  rcases sorted_mem l r hr with ⟨k, hk⟩
  exact deadCheck_healthy fs r hse (h k r hk)

theorem getDeadSymlinks_lockNew (fs : FS) (n : Nat) :
    getDeadSymlinks fs (lockNew n) = .ok [] := rfl

/-! ## C1: keys found by lookup are entry keys -/

theorem lookup_key_mem (fs : FS) (q : Path) (n : FSNode) (h : fs.lookup q = some n) :
    ∃ e ∈ fs.entries, e.1 = q ∧ e.2 = n := by
  unfold FS.lookup at h
  cases hf : fs.entries.find? fun e => e.1 == q with
  | none => rw [hf] at h; cases h
  | some e =>
    rw [hf] at h
    refine ⟨e, List.mem_of_find?_eq_some hf, ?_, ?_⟩
    · have := List.find?_some hf
      simpa using this
    · simpa using h

/-! ## C1: the shape of the reference call list -/

theorem walkCalls_shape (cfg : Config) (pkg : Package) (fs0 : FS) :
    ∀ (fuel : Nat) (tk : WalkTask) (c : Path × Path × Bool),
    c ∈ walkCalls cfg pkg fs0 fuel tk →
    ∃ name rel, c.1 = tk.src ++ name :: rel ∧ c.2.1 = tk.tgt ++ name :: rel ∧
      (∀ s t es, tk = .entries s t es → name ∈ es.map Prod.fst) := by
  intro fuel
  induction fuel with
  | zero =>
    intro tk c hc
    simp [walkCalls] at hc
  | succ fuel ih =>
    intro tk c hc
    cases tk with
    | dir s t =>
      unfold walkCalls at hc
      cases hrd : fs0.readDir s with
      | error e =>
        rw [hrd] at hc
        exact absurd hc (by simp)
      | ok es =>
        rw [hrd] at hc
        have hc2 : c ∈ walkCalls cfg pkg fs0 fuel (.entries s t es) := hc
        rcases ih (.entries s t es) c hc2 with ⟨name, rel, h1, h2, _⟩
        exact ⟨name, rel, h1, h2, fun s' t' es' he => by cases he⟩
    | entries s t es =>
      cases es with
      | nil => simp [walkCalls] at hc
      | cons e rest =>
        rcases e with ⟨name0, node0⟩
        unfold walkCalls at hc
        by_cases hig : cfg.shouldIgnore (relString (s.drop pkg.source.length) name0) = true
        · simp only [hig, if_true] at hc
          rcases ih (.entries s t rest) c hc with ⟨name, rel, h1, h2, h3⟩
          refine ⟨name, rel, h1, h2, fun s' t' es' he => ?_⟩
          cases he
          exact List.mem_cons_of_mem _ (h3 s t rest rfl)
        · simp only [Bool.not_eq_true] at hig
          simp only [hig, Bool.false_eq_true, if_false] at hc
          have hhead : ∀ ff : Bool, c = (s ++ [name0], t ++ [name0], ff) →
              ∃ name rel, c.1 = s ++ name :: rel ∧ c.2.1 = t ++ name :: rel ∧
              (∀ s' t' es', WalkTask.entries s t ((name0, node0) :: rest)
                = .entries s' t' es' → name ∈ es'.map Prod.fst) := by
            intro ff hce
            refine ⟨name0, [], by rw [hce], by rw [hce], fun s' t' es' he => ?_⟩
            cases he
            simp
          have hrest : c ∈ walkCalls cfg pkg fs0 fuel (.entries s t rest) →
              ∃ name rel, c.1 = s ++ name :: rel ∧ c.2.1 = t ++ name :: rel ∧
              (∀ s' t' es', WalkTask.entries s t ((name0, node0) :: rest)
                = .entries s' t' es' → name ∈ es'.map Prod.fst) := by
            intro hcr
            rcases ih (.entries s t rest) c hcr with ⟨name, rel, h1, h2, h3⟩
            refine ⟨name, rel, h1, h2, fun s' t' es' he => ?_⟩
            cases he
            exact List.mem_cons_of_mem _ (h3 s t rest rfl)
          cases node0 with
          | dir =>
            by_cases hfold : shouldFold pkg name0 (s.drop pkg.source.length) = true
            · simp only [hfold, if_true] at hc
              rcases List.mem_cons.mp hc with hce | hcr
              · exact hhead true hce
              · exact hrest hcr
            · simp only [Bool.not_eq_true] at hfold
              simp only [hfold, Bool.false_eq_true, if_false] at hc
              rcases List.mem_append.mp hc with hcd | hcr
              · rcases ih (.dir (s ++ [name0]) (t ++ [name0])) c hcd with
                  ⟨name, rel, h1, h2, _⟩
                refine ⟨name0, name :: rel, ?_, ?_, fun s' t' es' he => ?_⟩
                · rw [h1]
                  show (s ++ [name0]) ++ name :: rel = s ++ name0 :: name :: rel
                  rw [List.append_assoc]
                  rfl
                · rw [h2]
                  show (t ++ [name0]) ++ name :: rel = t ++ name0 :: name :: rel
                  rw [List.append_assoc]
                  rfl
                · cases he
                  simp
              · exact hrest hcr
          | file =>
            rcases List.mem_cons.mp hc with hce | hcr
            · exact hhead false hce
            · exact hrest hcr
          | symlink d =>
            rcases List.mem_cons.mp hc with hce | hcr
            · exact hhead false hce
            · exact hrest hcr

/-! ## C1: every reference call points at an existing source node -/

theorem walkCalls_node (cfg : Config) (pkg : Package) (fs0 : FS) :
    ∀ (fuel : Nat) (tk : WalkTask),
    (∀ s t es, tk = .entries s t es → EsOK fs0 s es) →
    ∀ c ∈ walkCalls cfg pkg fs0 fuel tk, ∃ n, fs0.lookup c.1 = some n := by
  intro fuel
  induction fuel with
  | zero =>
    intro tk _ c hc
    simp [walkCalls] at hc
  | succ fuel ih =>
    intro tk hes c hc
    cases tk with
    | dir s t =>
      unfold walkCalls at hc
      cases hrd : fs0.readDir s with
      | error e =>
        rw [hrd] at hc
        exact absurd hc (by simp)
      | ok es =>
        rw [hrd] at hc
        refine ih (.entries s t es) ?_ c hc
        intro s' t' es' he
        cases he
        exact readDir_member fs0 s es hrd
    | entries s t es =>
      cases es with
      | nil => simp [walkCalls] at hc
      | cons e rest =>
        rcases e with ⟨name0, node0⟩
        have hesok := hes s t ((name0, node0) :: rest) rfl
        have hesrest : ∀ s' t' es', WalkTask.entries s t rest = .entries s' t' es' →
            EsOK fs0 s' es' := by
          intro s' t' es' he
          cases he
          exact fun p hp => hesok p (List.mem_cons_of_mem _ hp)
        unfold walkCalls at hc
        by_cases hig : cfg.shouldIgnore (relString (s.drop pkg.source.length) name0) = true
        · simp only [hig, if_true] at hc
          exact ih (.entries s t rest) hesrest c hc
        · simp only [Bool.not_eq_true] at hig
          simp only [hig, Bool.false_eq_true, if_false] at hc
          cases node0 with
          | dir =>
            by_cases hfold : shouldFold pkg name0 (s.drop pkg.source.length) = true
            · simp only [hfold, if_true] at hc
              rcases List.mem_cons.mp hc with hce | hcr
              · rw [hce]
                exact ⟨.dir, hesok (name0, .dir) (by simp)⟩
              · exact ih (.entries s t rest) hesrest c hcr
            · simp only [Bool.not_eq_true] at hfold
              simp only [hfold, Bool.false_eq_true, if_false] at hc
              rcases List.mem_append.mp hc with hcd | hcr
              · refine ih (.dir (s ++ [name0]) (t ++ [name0])) ?_ c hcd
                intro s' t' es' he
                cases he
              · exact ih (.entries s t rest) hesrest c hcr
          | file =>
            rcases List.mem_cons.mp hc with hce | hcr
            · rw [hce]
              exact ⟨.file, hesok (name0, .file) (by simp)⟩
            · exact ih (.entries s t rest) hesrest c hcr
          | symlink d =>
            rcases List.mem_cons.mp hc with hce | hcr
            · rw [hce]
              exact ⟨.symlink d, hesok (name0, .symlink d) (by simp)⟩
            · exact ih (.entries s t rest) hesrest c hcr

/-! ## C1: reference call targets are pairwise prefix-incomparable -/

theorem walkCalls_pairwise (cfg : Config) (pkg : Package) (fs0 : FS) :
    ∀ (fuel : Nat) (tk : WalkTask),
    (∀ s t es, tk = .entries s t es → (es.map Prod.fst).Nodup) →
    List.Pairwise TgtSep (walkCalls cfg pkg fs0 fuel tk) := by
  intro fuel
  induction fuel with
  | zero =>
    intro tk _
    simp [walkCalls]
  | succ fuel ih =>
    intro tk hnd
    cases tk with
    | dir s t =>
      unfold walkCalls
      cases hrd : fs0.readDir s with
      | error e => simp
      | ok es =>
        refine ih (.entries s t es) ?_
        intro s' t' es' he
        cases he
        exact readDir_names_nodup fs0 s es hrd
    | entries s t es =>
      cases es with
      | nil => simp [walkCalls]
      | cons e rest =>
        rcases e with ⟨name0, node0⟩
        have hnd0 : (name0 :: rest.map Prod.fst).Nodup := hnd s t ((name0, node0) :: rest) rfl
        have hname0 : name0 ∉ rest.map Prod.fst := (List.nodup_cons.mp hnd0).1
        have hndrest : ∀ s' t' es', WalkTask.entries s t rest = .entries s' t' es' →
            (es'.map Prod.fst).Nodup := by
          intro s' t' es' he
          cases he
          exact (List.nodup_cons.mp hnd0).2
        have hrest_tgt : ∀ c ∈ walkCalls cfg pkg fs0 fuel (.entries s t rest),
            ∃ name rel, c.2.1 = t ++ name :: rel ∧ name ∈ rest.map Prod.fst := by
          intro c hc
          rcases walkCalls_shape cfg pkg fs0 fuel (.entries s t rest) c hc with
            ⟨name, rel, _, h2, h3⟩
          exact ⟨name, rel, h2, h3 s t rest rfl⟩
        have hsep_head : ∀ ff : Bool, ∀ c2 ∈ walkCalls cfg pkg fs0 fuel (.entries s t rest),
            TgtSep (s ++ [name0], t ++ [name0], ff) c2 := by
          intro ff c2 hc2
          rcases hrest_tgt c2 hc2 with ⟨name, rel, h2, hmem⟩
          constructor
          · intro hpre
            rw [h2] at hpre
            have hpre2 : t ++ [name0] <+: t ++ name :: rel := hpre
            have hp3 := (List.prefix_append_right_inj t).mp hpre2
            rcases List.cons_prefix_cons.mp hp3 with ⟨heq, _⟩
            refine hname0 ?_
            rw [heq]
            exact hmem
          · intro hpre
            rw [h2] at hpre
            have hpre2 : t ++ name :: rel <+: t ++ [name0] := hpre
            have hp3 := (List.prefix_append_right_inj t).mp hpre2
            rcases List.cons_prefix_cons.mp hp3 with ⟨heq, _⟩
            refine hname0 ?_
            rw [← heq]
            exact hmem
        unfold walkCalls
        by_cases hig : cfg.shouldIgnore (relString (s.drop pkg.source.length) name0) = true
        · simp only [hig, if_true]
          exact ih (.entries s t rest) hndrest
        · simp only [Bool.not_eq_true] at hig
          simp only [hig, Bool.false_eq_true, if_false]
          cases node0 with
          | dir =>
            by_cases hfold : shouldFold pkg name0 (s.drop pkg.source.length) = true
            · simp only [hfold, if_true]
              exact List.Pairwise.cons (hsep_head true) (ih (.entries s t rest) hndrest)
            · simp only [Bool.not_eq_true] at hfold
              simp only [hfold, Bool.false_eq_true, if_false]
              rw [List.pairwise_append]
              refine ⟨?_, ih (.entries s t rest) hndrest, ?_⟩
              · refine ih (.dir (s ++ [name0]) (t ++ [name0])) ?_
                intro s' t' es' he
                cases he
              · intro c1 hc1 c2 hc2
                rcases walkCalls_shape cfg pkg fs0 fuel
                    (.dir (s ++ [name0]) (t ++ [name0])) c1 hc1 with ⟨n1, r1, _, h21, _⟩
                rcases hrest_tgt c2 hc2 with ⟨n2, r2, h22, hmem2⟩
                constructor
                · intro hpre
                  rw [h21, h22] at hpre
                  have hpre2 : (t ++ [name0]) ++ n1 :: r1 <+: t ++ n2 :: r2 := hpre
                  rw [List.append_assoc] at hpre2
                  have hp3 := (List.prefix_append_right_inj t).mp hpre2
                  have hp4 : name0 :: n1 :: r1 <+: n2 :: r2 := hp3
                  rcases List.cons_prefix_cons.mp hp4 with ⟨heq, _⟩
                  refine hname0 ?_
                  rw [heq]
                  exact hmem2
                · intro hpre
                  rw [h22, h21] at hpre
                  have hpre2 : t ++ n2 :: r2 <+: (t ++ [name0]) ++ n1 :: r1 := hpre
                  rw [List.append_assoc] at hpre2
                  have hp3 := (List.prefix_append_right_inj t).mp hpre2
                  have hp4 : n2 :: r2 <+: name0 :: n1 :: r1 := hp3
                  rcases List.cons_prefix_cons.mp hp4 with ⟨heq, _⟩
                  refine hname0 ?_
                  rw [← heq]
                  exact hmem2
          | file =>
            exact List.Pairwise.cons (hsep_head false) (ih (.entries s t rest) hndrest)
          | symlink d =>
            exact List.Pairwise.cons (hsep_head false) (ih (.entries s t rest) hndrest)

/-! ## C1: the first walk establishes every reference call and touches only
the target area -/

theorem walk_run1 (cfg : Config) (pkg : Package) (now : Nat) (fs0 : FS) (T : Path)
    (hplT : plainPath T = true)
    (hkeys : ∀ e ∈ fs0.entries, plainPath e.1 = true)
    (hsep1 : ¬ pkg.source <+: T) (hsep2 : ¬ T <+: pkg.source) :
    ∀ (fuel : Nat) (tk : WalkTask) (st st' : LinkState),
    walkGo false cfg pkg now fuel tk st = (st', none) →
    TaskGeom fs0 pkg.source T tk →
    srcEntries pkg.source st.fs = srcEntries pkg.source fs0 →
    st.fs.statErr = [] → st.fs.removeErr = [] →
    (srcEntries pkg.source st'.fs = srcEntries pkg.source fs0) ∧
    st'.fs.statErr = [] ∧ st'.fs.removeErr = [] ∧
    (∀ q, st'.fs.lookup q ≠ st.fs.lookup q →
      (∃ c ∈ walkCalls cfg pkg fs0 fuel tk, q = c.2.1) ∨
      (st.fs.lookup q = none ∧ st'.fs.lookup q = some FSNode.dir ∧ q ≠ [] ∧
        ∃ c ∈ walkCalls cfg pkg fs0 fuel tk, q <+: c.2.1.dropLast)) ∧
    (∀ c ∈ walkCalls cfg pkg fs0 fuel tk, Estab st'.fs c.1 c.2.1 ∧ DirsOK st'.fs c.2.1) ∧
    (∀ t2 r2, st'.lock.lookup t2 = some r2 → st.lock.lookup t2 = some r2 ∨
      ∃ c ∈ walkCalls cfg pkg fs0 fuel tk, c.2.1 = t2 ∧ r2 = ⟨c.1, t2, now, c.2.2⟩) ∧
    (∀ (nowB : Nat) (stB : LinkState),
      srcEntries pkg.source stB.fs = srcEntries pkg.source fs0 →
      stB.fs.statErr = [] →
      (∀ c ∈ walkCalls cfg pkg fs0 fuel tk, Estab stB.fs c.1 c.2.1 ∧ DirsOK stB.fs c.2.1) →
      ∃ lock2, walkGo false cfg pkg nowB fuel tk stB = ({ stB with lock := lock2 }, none)) := by
  have hTnot : ∀ rel2 : List String, ¬ pkg.source <+: T ++ rel2 := by
    intro rel2 hcon
    rcases List.prefix_or_prefix_of_prefix hcon (List.prefix_append T rel2) with h | h
    · exact hsep1 h
    · exact hsep2 h
  intro fuel
  induction fuel with
  | zero =>
    intro tk st st' hrun _ _ _ _
    simp [walkGo, Prod.ext_iff] at hrun
  | succ fuel ih =>
    intro tk st st' hrun hgeom hsrc hse hre
    cases tk with
    | dir s t =>
      have hgeom' : ∃ r, s = pkg.source ++ r ∧ t = T ++ r ∧ plainPath r = true := hgeom
      rcases hgeom' with ⟨r, hsr, htr, hplr⟩
      unfold walkGo at hrun
      cases hrd : st.fs.readDir s with
      | error e =>
        rw [hrd] at hrun
        have hcon := congrArg Prod.snd hrun
        simp at hcon
      | ok es =>
        rw [hrd] at hrun
        have hrun2 : walkGo false cfg pkg now fuel (.entries s t es) st = (st', none) := hrun
        have hspre : List.isPrefixOf pkg.source s = true := by
          rw [hsr]
          exact (List.isPrefixOf_iff_prefix).mpr (List.prefix_append _ _)
        have hrdd : fs0.readDir s = .ok es := by
          rw [← readDir_eq_of_srcEntries_eq pkg.source st.fs fs0 hsrc s hspre]
          exact hrd
        have hwc : walkCalls cfg pkg fs0 (fuel + 1) (.dir s t)
            = walkCalls cfg pkg fs0 fuel (.entries s t es) := by
          conv_lhs => unfold walkCalls
          rw [hrdd]
        have hgeom2 : TaskGeom fs0 pkg.source T (.entries s t es) :=
          ⟨⟨r, hsr, htr, hplr⟩, readDir_member fs0 s es hrdd,
            readDir_names_nodup fs0 s es hrdd⟩
        rcases ih (.entries s t es) st st' hrun2 hgeom2 hsrc hse hre with
          ⟨h1, h2, h3, h4, h5, h6, h7⟩
        rw [hwc]
        refine ⟨h1, h2, h3, h4, h5, h6, ?_⟩
        intro nowB stB hsrcB hseB hestB
        have hrdB : stB.fs.readDir s = .ok es := by
          rw [readDir_eq_of_srcEntries_eq pkg.source stB.fs fs0 hsrcB s hspre]
          exact hrdd
        have hred : walkGo false cfg pkg nowB (fuel + 1) (.dir s t) stB
            = walkGo false cfg pkg nowB fuel (.entries s t es) stB := by
          conv_lhs => unfold walkGo
          rw [hrdB]
        rw [hred]
        exact h7 nowB stB hsrcB hseB hestB
    | entries s t es =>
      cases es with
      | nil =>
        unfold walkGo at hrun
        have hst : st = st' := congrArg Prod.fst hrun
        subst hst
        refine ⟨hsrc, hse, hre, ?_, ?_, ?_, ?_⟩
        · intro q hq
          exact absurd rfl hq
        · intro c hc
          simp [walkCalls] at hc
        · intro t2 r2 h
          exact Or.inl h
        · intro nowB stB _ _ _
          exact ⟨stB.lock, rfl⟩
      | cons e rest =>
        rcases e with ⟨name0, node0⟩
        have hgeom' : (∃ r, s = pkg.source ++ r ∧ t = T ++ r ∧ plainPath r = true) ∧
            EsOK fs0 s ((name0, node0) :: rest) ∧
            (((name0, node0) :: rest).map Prod.fst).Nodup := hgeom
        rcases hgeom' with ⟨⟨r, hsr, htr, hplr⟩, hesok, hndes⟩
        have hndes' : (name0 :: rest.map Prod.fst).Nodup := hndes
        have hname0 : name0 ∉ rest.map Prod.fst := (List.nodup_cons.mp hndes').1
        have hgeomrest : TaskGeom fs0 pkg.source T (.entries s t rest) :=
          ⟨⟨r, hsr, htr, hplr⟩, fun p hp => hesok p (List.mem_cons_of_mem _ hp),
            (List.nodup_cons.mp hndes').2⟩
        unfold walkGo at hrun
        by_cases hig : cfg.shouldIgnore (relString (s.drop pkg.source.length) name0) = true
        · simp only [hig, if_true] at hrun
          have hwc : walkCalls cfg pkg fs0 (fuel + 1)
              (.entries s t ((name0, node0) :: rest))
              = walkCalls cfg pkg fs0 fuel (.entries s t rest) := by
            conv_lhs => unfold walkCalls
            simp only [hig, if_true]
          rcases ih (.entries s t rest) st st' hrun hgeomrest hsrc hse hre with
            ⟨h1, h2, h3, h4, h5, h6, h7⟩
          rw [hwc]
          refine ⟨h1, h2, h3, h4, h5, h6, ?_⟩
          intro nowB stB hsrcB hseB hestB
          have hred : walkGo false cfg pkg nowB (fuel + 1)
              (.entries s t ((name0, node0) :: rest)) stB
              = walkGo false cfg pkg nowB fuel (.entries s t rest) stB := by
            conv_lhs => unfold walkGo
            simp only [hig, if_true]
          rw [hred]
          exact h7 nowB stB hsrcB hseB hestB
        · simp only [Bool.not_eq_true] at hig
          simp only [hig, Bool.false_eq_true, if_false] at hrun
          have hlook0 : fs0.lookup (s ++ [name0]) = some node0 :=
            hesok (name0, node0) (by simp)
          have hplkey : plainPath (s ++ [name0]) = true := by
            rcases lookup_key_mem fs0 (s ++ [name0]) node0 hlook0 with ⟨e2, hmem, hk, _⟩
            rw [← hk]
            exact hkeys e2 hmem
          have hplname : plainPath ([name0] : Path) = true := by
            rw [plainPath_append] at hplkey
            exact (Bool.and_eq_true_iff.mp hplkey).2
          have hplt' : plainPath (t ++ [name0]).dropLast = true := by
            have hdl : (t ++ [name0]).dropLast = t := by simp
            rw [hdl, htr, plainPath_append, hplT, hplr]
            rfl
          have hTnot' : ¬ pkg.source <+: t ++ [name0] := by
            rw [htr, List.append_assoc]
            exact hTnot (r ++ [name0])
          have hrest_tgt : ∀ c ∈ walkCalls cfg pkg fs0 fuel (.entries s t rest),
              ∃ name rel, c.2.1 = t ++ name :: rel ∧ name ∈ rest.map Prod.fst := by
            intro c hc
            rcases walkCalls_shape cfg pkg fs0 fuel (.entries s t rest) c hc with
              ⟨name, rel, _, h2, h3⟩
            exact ⟨name, rel, h2, h3 s t rest rfl⟩
          have hpw : ∀ c2 ∈ walkCalls cfg pkg fs0 fuel (.entries s t rest),
              ¬ c2.2.1 <+: t ++ [name0] ∧ ¬ t ++ [name0] <+: c2.2.1 := by
            intro c2 hc2
            rcases hrest_tgt c2 hc2 with ⟨name, rel, h2, hmem⟩
            constructor
            · intro hpre
              rw [h2] at hpre
              have hp3 := (List.prefix_append_right_inj t).mp hpre
              rcases List.cons_prefix_cons.mp hp3 with ⟨heq, _⟩
              refine hname0 ?_
              rw [← heq]
              exact hmem
            · intro hpre
              rw [h2] at hpre
              have hp3 := (List.prefix_append_right_inj t).mp hpre
              rcases List.cons_prefix_cons.mp hp3 with ⟨heq, _⟩
              refine hname0 ?_
              rw [heq]
              exact hmem
          have hstep : ∀ (ff : Bool) (st2 : LinkState),
              createSymlink false now (s ++ [name0]) (t ++ [name0]) ff st = (st2, none) →
              walkGo false cfg pkg now fuel (.entries s t rest) st2 = (st', none) →
              (∀ (nowB : Nat) (stB : LinkState),
                walkGo false cfg pkg nowB (fuel + 1)
                  (.entries s t ((name0, node0) :: rest)) stB
                = (match createSymlink false nowB (s ++ [name0]) (t ++ [name0]) ff stB with
                   | (st2, some e) => (st2, some e)
                   | (st2, none) =>
                     walkGo false cfg pkg nowB fuel (.entries s t rest) st2)) →
              (srcEntries pkg.source st'.fs = srcEntries pkg.source fs0) ∧
              st'.fs.statErr = [] ∧ st'.fs.removeErr = [] ∧
              (∀ q, st'.fs.lookup q ≠ st.fs.lookup q →
                (∃ c ∈ (s ++ [name0], t ++ [name0], ff)
                    :: walkCalls cfg pkg fs0 fuel (.entries s t rest), q = c.2.1) ∨
                (st.fs.lookup q = none ∧ st'.fs.lookup q = some FSNode.dir ∧ q ≠ [] ∧
                  ∃ c ∈ (s ++ [name0], t ++ [name0], ff)
                    :: walkCalls cfg pkg fs0 fuel (.entries s t rest),
                    q <+: c.2.1.dropLast)) ∧
              (∀ c ∈ (s ++ [name0], t ++ [name0], ff)
                  :: walkCalls cfg pkg fs0 fuel (.entries s t rest),
                Estab st'.fs c.1 c.2.1 ∧ DirsOK st'.fs c.2.1) ∧
              (∀ t2 r2, st'.lock.lookup t2 = some r2 → st.lock.lookup t2 = some r2 ∨
                ∃ c ∈ (s ++ [name0], t ++ [name0], ff)
                  :: walkCalls cfg pkg fs0 fuel (.entries s t rest),
                  c.2.1 = t2 ∧ r2 = ⟨c.1, t2, now, c.2.2⟩) ∧
              (∀ (nowB : Nat) (stB : LinkState),
                srcEntries pkg.source stB.fs = srcEntries pkg.source fs0 →
                stB.fs.statErr = [] →
                (∀ c ∈ (s ++ [name0], t ++ [name0], ff)
                    :: walkCalls cfg pkg fs0 fuel (.entries s t rest),
                  Estab stB.fs c.1 c.2.1 ∧ DirsOK stB.fs c.2.1) →
                ∃ lock2, walkGo false cfg pkg nowB (fuel + 1)
                  (.entries s t ((name0, node0) :: rest)) stB
                  = ({ stB with lock := lock2 }, none)) := by
            intro ff st2 hcs hrun2 hredB
            rcases createSymlink_post now (s ++ [name0]) (t ++ [name0]) ff st st2 hcs
              hse hre hplt' hplkey with
              ⟨hest2, hdirs2, hlock2, hse2, hre2, hframe2, hsrcp2⟩
            have hsrc2 : srcEntries pkg.source st2.fs = srcEntries pkg.source fs0 := by
              rw [hsrcp2 pkg.source hTnot']
              exact hsrc
            rcases ih (.entries s t rest) st2 st' hrun2 hgeomrest hsrc2 hse2 hre2 with
              ⟨ihsrc, ihse, ihre, ihframe, ihest, ihlock, ihrun2⟩
            have hunch : ∀ q nd, st2.fs.lookup q = some nd →
                (∀ c2 ∈ walkCalls cfg pkg fs0 fuel (.entries s t rest), q ≠ c2.2.1) →
                st'.fs.lookup q = some nd := by
              intro q nd hq hnot
              by_cases hch : st'.fs.lookup q = st2.fs.lookup q
              · rw [hch]
                exact hq
              · rcases ihframe q hch with ⟨c2, hc2, he⟩ | ⟨hn, _, _, _⟩
                · exact absurd he (hnot c2 hc2)
                · rw [hq] at hn
                  cases hn
            refine ⟨ihsrc, ihse, ihre, ?_, ?_, ?_, ?_⟩
            · intro q hq
              by_cases hch : st'.fs.lookup q = st2.fs.lookup q
              · have hq2 : st2.fs.lookup q ≠ st.fs.lookup q := by
                  rw [← hch]
                  exact hq
                rcases hframe2 q hq2 with he | ⟨h1, h2, h3, h4⟩
                · exact Or.inl ⟨_, List.mem_cons_self _ _, he⟩
                · refine Or.inr ⟨h1, by rw [hch]; exact h2, h3,
                    _, List.mem_cons_self _ _, h4⟩
              · rcases ihframe q hch with ⟨c2, hc2, he⟩ | ⟨hn2, hd2, hne2, c2, hc2, hp2⟩
                · exact Or.inl ⟨c2, List.mem_cons_of_mem _ hc2, he⟩
                · by_cases hch2 : st2.fs.lookup q = st.fs.lookup q
                  · refine Or.inr ⟨by rw [← hch2]; exact hn2, hd2, hne2,
                      c2, List.mem_cons_of_mem _ hc2, hp2⟩
                  · rcases hframe2 q hch2 with he | ⟨_, h2, _, _⟩
                    · rcases hest2 with ⟨d2, hl2, _⟩
                      rw [he, hl2] at hn2
                      cases hn2
                    · rw [h2] at hn2
                      cases hn2
            · intro c hc
              rcases List.mem_cons.mp hc with hce | hcr
              · subst hce
                constructor
                · rcases hest2 with ⟨d2, hl2, hres2⟩
                  refine ⟨d2, ?_, hres2⟩
                  refine hunch _ _ hl2 ?_
                  intro c2 hc2 he
                  refine (hpw c2 hc2).1 ?_
                  rw [← he]
                · intro pre hpre hne
                  refine hunch _ _ (hdirs2 pre hpre hne) ?_
                  intro c2 hc2 he
                  refine (hpw c2 hc2).1 ?_
                  rw [← he]
                  exact hpre.trans (List.dropLast_prefix _)
              · exact ihest c hcr
            · intro t2 r2 hl'
              rcases ihlock t2 r2 hl' with hst2 | ⟨c2, hc2, he1, he2⟩
              · rw [hlock2] at hst2
                rw [lookup_addSymlink] at hst2
                by_cases he : t ++ [name0] = t2
                · subst he
                  rw [if_pos rfl] at hst2
                  refine Or.inr ⟨_, List.mem_cons_self _ _, rfl, ?_⟩
                  have h2 := hst2.symm
                  cases h2
                  rfl
                · rw [if_neg he] at hst2
                  exact Or.inl hst2
              · exact Or.inr ⟨c2, List.mem_cons_of_mem _ hc2, he1, he2⟩
            · intro nowB stB hsrcB hseB hestB
              rcases hestB _ (List.mem_cons_self _ _) with ⟨⟨dB, hlB, hresB⟩, hdirsB⟩
              have hnoop := createSymlink_noop nowB (s ++ [name0]) (t ++ [name0]) ff stB
                dB hlB hresB hdirsB hseB
              have hestB2 : ∀ c ∈ walkCalls cfg pkg fs0 fuel (.entries s t rest),
                  Estab stB.fs c.1 c.2.1 ∧ DirsOK stB.fs c.2.1 :=
                fun c hc => hestB c (List.mem_cons_of_mem _ hc)
              rcases ihrun2 nowB ⟨stB.fs, stB.lock.addSymlink (t ++ [name0])
                  (s ++ [name0]) ff nowB, stB.created, stB.removed, stB.errors⟩
                  hsrcB hseB hestB2 with ⟨lock2, hres⟩
              refine ⟨lock2, ?_⟩
              rw [hredB nowB stB, hnoop]
              exact hres
          cases node0 with
          | file =>
            rcases hcs : createSymlink false now (s ++ [name0]) (t ++ [name0]) false st
              with ⟨st2, oe⟩
            rw [hcs] at hrun
            cases oe with
            | some e =>
              have hcon := congrArg Prod.snd hrun
              simp at hcon
            | none =>
              have hrun2 : walkGo false cfg pkg now fuel (.entries s t rest) st2
                  = (st', none) := hrun
              have hwc : walkCalls cfg pkg fs0 (fuel + 1)
                  (.entries s t ((name0, .file) :: rest))
                  = (s ++ [name0], t ++ [name0], false)
                    :: walkCalls cfg pkg fs0 fuel (.entries s t rest) := by
                conv_lhs => unfold walkCalls
                simp only [hig, Bool.false_eq_true, if_false]
              have hredB : ∀ (nowB : Nat) (stB : LinkState),
                  walkGo false cfg pkg nowB (fuel + 1)
                    (.entries s t ((name0, FSNode.file) :: rest)) stB
                  = (match createSymlink false nowB (s ++ [name0]) (t ++ [name0])
                        false stB with
                     | (st2, some e) => (st2, some e)
                     | (st2, none) =>
                       walkGo false cfg pkg nowB fuel (.entries s t rest) st2) := by
                intro nowB stB
                conv_lhs => unfold walkGo
                simp only [hig, Bool.false_eq_true, if_false]
              rw [hwc]
              exact hstep false st2 hcs hrun2 hredB
          | symlink d =>
            rcases hcs : createSymlink false now (s ++ [name0]) (t ++ [name0]) false st
              with ⟨st2, oe⟩
            rw [hcs] at hrun
            cases oe with
            | some e =>
              have hcon := congrArg Prod.snd hrun
              simp at hcon
            | none =>
              have hrun2 : walkGo false cfg pkg now fuel (.entries s t rest) st2
                  = (st', none) := hrun
              have hwc : walkCalls cfg pkg fs0 (fuel + 1)
                  (.entries s t ((name0, .symlink d) :: rest))
                  = (s ++ [name0], t ++ [name0], false)
                    :: walkCalls cfg pkg fs0 fuel (.entries s t rest) := by
                conv_lhs => unfold walkCalls
                simp only [hig, Bool.false_eq_true, if_false]
              have hredB : ∀ (nowB : Nat) (stB : LinkState),
                  walkGo false cfg pkg nowB (fuel + 1)
                    (.entries s t ((name0, FSNode.symlink d) :: rest)) stB
                  = (match createSymlink false nowB (s ++ [name0]) (t ++ [name0])
                        false stB with
                     | (st2, some e) => (st2, some e)
                     | (st2, none) =>
                       walkGo false cfg pkg nowB fuel (.entries s t rest) st2) := by
                intro nowB stB
                conv_lhs => unfold walkGo
                simp only [hig, Bool.false_eq_true, if_false]
              rw [hwc]
              exact hstep false st2 hcs hrun2 hredB
          | dir =>
            by_cases hfold : shouldFold pkg name0 (s.drop pkg.source.length) = true
            · simp only [hfold, if_true] at hrun
              rcases hcs : createSymlink false now (s ++ [name0]) (t ++ [name0]) true st
                with ⟨st2, oe⟩
              rw [hcs] at hrun
              cases oe with
              | some e =>
                have hcon := congrArg Prod.snd hrun
                simp at hcon
              | none =>
                have hrun2 : walkGo false cfg pkg now fuel (.entries s t rest) st2
                    = (st', none) := hrun
                have hwc : walkCalls cfg pkg fs0 (fuel + 1)
                    (.entries s t ((name0, .dir) :: rest))
                    = (s ++ [name0], t ++ [name0], true)
                      :: walkCalls cfg pkg fs0 fuel (.entries s t rest) := by
                  conv_lhs => unfold walkCalls
                  simp only [hig, Bool.false_eq_true, if_false, hfold, if_true]
                have hredB : ∀ (nowB : Nat) (stB : LinkState),
                    walkGo false cfg pkg nowB (fuel + 1)
                      (.entries s t ((name0, FSNode.dir) :: rest)) stB
                    = (match createSymlink false nowB (s ++ [name0]) (t ++ [name0])
                          true stB with
                       | (st2, some e) => (st2, some e)
                       | (st2, none) =>
                         walkGo false cfg pkg nowB fuel (.entries s t rest) st2) := by
                  intro nowB stB
                  conv_lhs => unfold walkGo
                  simp only [hig, Bool.false_eq_true, if_false, hfold, if_true]
                rw [hwc]
                exact hstep true st2 hcs hrun2 hredB
            · simp only [Bool.not_eq_true] at hfold
              simp only [hfold, Bool.false_eq_true, if_false] at hrun
              rcases hwd : walkGo false cfg pkg now fuel
                  (.dir (s ++ [name0]) (t ++ [name0])) st with ⟨st2, oe⟩
              rw [hwd] at hrun
              cases oe with
              | some e =>
                have hcon := congrArg Prod.snd hrun
                simp at hcon
              | none =>
                have hrun2 : walkGo false cfg pkg now fuel (.entries s t rest) st2
                    = (st', none) := hrun
                have hgeomchild : TaskGeom fs0 pkg.source T
                    (.dir (s ++ [name0]) (t ++ [name0])) := by
                  refine ⟨r ++ [name0], ?_, ?_, ?_⟩
                  · rw [hsr, List.append_assoc]
                  · rw [htr, List.append_assoc]
                  · rw [plainPath_append, hplr, hplname]
                    rfl
                rcases ih (.dir (s ++ [name0]) (t ++ [name0])) st st2 hwd hgeomchild
                  hsrc hse hre with ⟨ihsrc1, ihse1, ihre1, ihframe1, ihest1, ihlock1, ihrun2a⟩
                rcases ih (.entries s t rest) st2 st' hrun2 hgeomrest ihsrc1 ihse1 ihre1
                  with ⟨ihsrc2, ihse2, ihre2, ihframe2, ihest2, ihlock2, ihrun2b⟩
                have hwc : walkCalls cfg pkg fs0 (fuel + 1)
                    (.entries s t ((name0, .dir) :: rest))
                    = walkCalls cfg pkg fs0 fuel (.dir (s ++ [name0]) (t ++ [name0]))
                      ++ walkCalls cfg pkg fs0 fuel (.entries s t rest) := by
                  conv_lhs => unfold walkCalls
                  simp only [hig, Bool.false_eq_true, if_false, hfold]
                have hdir_tgt : ∀ c ∈ walkCalls cfg pkg fs0 fuel
                    (.dir (s ++ [name0]) (t ++ [name0])),
                    ∃ rel, c.2.1 = t ++ name0 :: rel := by
                  intro c hc
                  rcases walkCalls_shape cfg pkg fs0 fuel
                    (.dir (s ++ [name0]) (t ++ [name0])) c hc with ⟨n1, r1, _, h2, _⟩
                  refine ⟨n1 :: r1, ?_⟩
                  rw [h2]
                  show (t ++ [name0]) ++ n1 :: r1 = t ++ name0 :: n1 :: r1
                  rw [List.append_assoc]
                  rfl
                have hpwx : ∀ c1 ∈ walkCalls cfg pkg fs0 fuel
                    (.dir (s ++ [name0]) (t ++ [name0])),
                    ∀ c2 ∈ walkCalls cfg pkg fs0 fuel (.entries s t rest),
                    ¬ c2.2.1 <+: c1.2.1 ∧ ¬ c1.2.1 <+: c2.2.1 := by
                  intro c1 hc1 c2 hc2
                  rcases hdir_tgt c1 hc1 with ⟨rel1, h21⟩
                  rcases hrest_tgt c2 hc2 with ⟨n2, r2, h22, hmem2⟩
                  constructor
                  · intro hpre
                    rw [h21, h22] at hpre
                    have hp3 := (List.prefix_append_right_inj t).mp hpre
                    rcases List.cons_prefix_cons.mp hp3 with ⟨heq, _⟩
                    refine hname0 ?_
                    rw [← heq]
                    exact hmem2
                  · intro hpre
                    rw [h21, h22] at hpre
                    have hp3 := (List.prefix_append_right_inj t).mp hpre
                    rcases List.cons_prefix_cons.mp hp3 with ⟨heq, _⟩
                    refine hname0 ?_
                    rw [heq]
                    exact hmem2
                have hunch : ∀ q nd, st2.fs.lookup q = some nd →
                    (∀ c2 ∈ walkCalls cfg pkg fs0 fuel (.entries s t rest), q ≠ c2.2.1) →
                    st'.fs.lookup q = some nd := by
                  intro q nd hq hnot
                  by_cases hch : st'.fs.lookup q = st2.fs.lookup q
                  · rw [hch]
                    exact hq
                  · rcases ihframe2 q hch with ⟨c2, hc2, he⟩ | ⟨hn, _, _, _⟩
                    · exact absurd he (hnot c2 hc2)
                    · rw [hq] at hn
                      cases hn
                rw [hwc]
                refine ⟨ihsrc2, ihse2, ihre2, ?_, ?_, ?_, ?_⟩
                · intro q hq
                  by_cases hch : st'.fs.lookup q = st2.fs.lookup q
                  · have hq2 : st2.fs.lookup q ≠ st.fs.lookup q := by
                      rw [← hch]
                      exact hq
                    rcases ihframe1 q hq2 with ⟨c1, hc1, he⟩ | ⟨h1, h2, h3, c1, hc1, h4⟩
                    · exact Or.inl ⟨c1, List.mem_append_left _ hc1, he⟩
                    · exact Or.inr ⟨h1, by rw [hch]; exact h2, h3,
                        c1, List.mem_append_left _ hc1, h4⟩
                  · rcases ihframe2 q hch with ⟨c2, hc2, he⟩ | ⟨hn2, hd2, hne2, c2, hc2, hp2⟩
                    · exact Or.inl ⟨c2, List.mem_append_right _ hc2, he⟩
                    · by_cases hch2 : st2.fs.lookup q = st.fs.lookup q
                      · refine Or.inr ⟨by rw [← hch2]; exact hn2, hd2, hne2,
                          c2, List.mem_append_right _ hc2, hp2⟩
                      · rcases ihframe1 q hch2 with ⟨c1, hc1, he⟩ | ⟨_, h2, _, _⟩
                        · rcases ihest1 c1 hc1 with ⟨⟨d1, hl1, _⟩, _⟩
                          rw [he, hl1] at hn2
                          cases hn2
                        · rw [h2] at hn2
                          cases hn2
                · intro c hc
                  rcases List.mem_append.mp hc with hc1 | hc2
                  · rcases ihest1 c hc1 with ⟨⟨d1, hl1, hres1⟩, hdo1⟩
                    constructor
                    · refine ⟨d1, ?_, hres1⟩
                      refine hunch _ _ hl1 ?_
                      intro c2 hc2 he
                      refine (hpwx c hc1 c2 hc2).1 ?_
                      rw [← he]
                    · intro pre hpre hne
                      refine hunch _ _ (hdo1 pre hpre hne) ?_
                      intro c2 hc2 he
                      refine (hpwx c hc1 c2 hc2).1 ?_
                      rw [← he]
                      exact hpre.trans (List.dropLast_prefix _)
                  · exact ihest2 c hc2
                · intro t2 r2 hl'
                  rcases ihlock2 t2 r2 hl' with hst2 | ⟨c2, hc2, he1, he2⟩
                  · rcases ihlock1 t2 r2 hst2 with hst1 | ⟨c1, hc1, he1, he2⟩
                    · exact Or.inl hst1
                    · exact Or.inr ⟨c1, List.mem_append_left _ hc1, he1, he2⟩
                  · exact Or.inr ⟨c2, List.mem_append_right _ hc2, he1, he2⟩
                · intro nowB stB hsrcB hseB hestB
                  have hestBa : ∀ c ∈ walkCalls cfg pkg fs0 fuel
                      (.dir (s ++ [name0]) (t ++ [name0])),
                      Estab stB.fs c.1 c.2.1 ∧ DirsOK stB.fs c.2.1 :=
                    fun c hc => hestB c (List.mem_append_left _ hc)
                  rcases ihrun2a nowB stB hsrcB hseB hestBa with ⟨l1, hresA⟩
                  have hestBb : ∀ c ∈ walkCalls cfg pkg fs0 fuel (.entries s t rest),
                      Estab ({ stB with lock := l1 } : LinkState).fs c.1 c.2.1 ∧
                      DirsOK ({ stB with lock := l1 } : LinkState).fs c.2.1 :=
                    fun c hc => hestB c (List.mem_append_right _ hc)
                  rcases ihrun2b nowB { stB with lock := l1 } hsrcB hseB hestBb
                    with ⟨l2, hresB2⟩
                  refine ⟨l2, ?_⟩
                  have hred : walkGo false cfg pkg nowB (fuel + 1)
                      (.entries s t ((name0, FSNode.dir) :: rest)) stB
                      = (match walkGo false cfg pkg nowB fuel
                          (.dir (s ++ [name0]) (t ++ [name0])) stB with
                         | (st2, some e) => (st2, some e)
                         | (st2, none) =>
                           walkGo false cfg pkg nowB fuel (.entries s t rest) st2) := by
                    conv_lhs => unfold walkGo
                    simp only [hig, Bool.false_eq_true, if_false, hfold]
                  rw [hred, hresA]
                  exact hresB2

/-! ## C1: idempotence of `Link` (amended statement) -/

theorem link_idempotent_aux
    (cfg : Config) (pkg : Package) (T : Path) (fs : FS)
    (now0 now1 now2 fuel : Nat) (st1 : LinkState)
    (hcfg : cfg.packages = [pkg]) (htgt : pkg.targets = [T])
    (hsep1 : ¬ pkg.source <+: T) (hsep2 : ¬ T <+: pkg.source)
    (hplT : plainPath T = true)
    (hkeys : ∀ e ∈ fs.entries, plainPath e.1 = true)
    (hnosym : ∀ q d, pkg.source <+: q → fs.lookup q ≠ some (.symlink d))
    (hse : fs.statErr = []) (hre : fs.removeErr = [])
    (hrun1 : Link false cfg now1 fuel fs (lockNew now0) = .ok st1)
    (herr1 : st1.errors = []) :
    ∃ st2, Link false cfg now2 fuel st1.fs st1.lock = .ok st2 ∧
      st2.fs = st1.fs ∧ st2.created = [] ∧ st2.removed = [] ∧ st2.errors = [] := by
  unfold Link at hrun1
  rw [getDeadSymlinks_lockNew] at hrun1
  have hrun1' : Except.ok (linkPackages false cfg now1 fuel cfg.packages
      ⟨fs, lockNew now0, [], [], []⟩) = Except.ok st1 := hrun1
  have hlp : linkPackages false cfg now1 fuel cfg.packages
      ⟨fs, lockNew now0, [], [], []⟩ = st1 := Except.ok.inj hrun1'
  rw [hcfg] at hlp
  have hlt : linkTargets false cfg pkg now1 fuel pkg.targets
      ⟨fs, lockNew now0, [], [], []⟩ = st1 := hlp
  rw [htgt] at hlt
  unfold linkTargets linkDirectory at hlt
  rcases hwd : walkGo false cfg pkg now1 fuel (.dir pkg.source T)
      ⟨fs, lockNew now0, [], [], []⟩ with ⟨stA, out⟩
  rw [hwd] at hlt
  cases out with
  | some e =>
    have h2 : ({ stA with errors := stA.errors ++ [e] } : LinkState) = st1 := hlt
    rw [← h2] at herr1
    have herr2 : stA.errors ++ [e] = [] := herr1
    simp at herr2
  | none =>
    have h2 : stA = st1 := hlt
    subst h2
    have hgeom : TaskGeom fs pkg.source T (.dir pkg.source T) :=
      ⟨[], (List.append_nil _).symm, (List.append_nil _).symm, rfl⟩
    rcases walk_run1 cfg pkg now1 fs T hplT hkeys hsep1 hsep2 fuel
      (.dir pkg.source T) ⟨fs, lockNew now0, [], [], []⟩ stA hwd hgeom rfl hse hre with
      ⟨W1src, W1se, W1re, _, W1est, W1lock, W1run2⟩
    have hdead2 : getDeadSymlinks stA.fs stA.lock = .ok [] := by
      refine getDeadSymlinks_healthy stA.fs stA.lock W1se ?_
      intro k rec hk
      rcases W1lock k rec hk with h0 | ⟨c, hc, hck, hcr⟩
      · simp [lockNew, LockFile.lookup] at h0
      · subst hcr
        rcases walkCalls_shape cfg pkg fs fuel (.dir pkg.source T) c hc with
          ⟨name, rel, h1, _, _⟩
        have hSpre : pkg.source <+: c.1 := by
          rw [h1]
          exact List.prefix_append _ _
        rcases walkCalls_node cfg pkg fs fuel (.dir pkg.source T)
          (fun s t es he => by cases he) c hc with ⟨n, hn⟩
        have hn1 : stA.fs.lookup c.1 = some n := by
          rw [lookup_eq_of_srcEntries_eq pkg.source stA.fs fs W1src c.1
            ((List.isPrefixOf_iff_prefix).mpr hSpre)]
          exact hn
        have hnsym : ∀ d, n ≠ FSNode.symlink d := by
          intro d hd
          rw [hd] at hn
          exact hnosym c.1 d hSpre hn
        refine ⟨?_, n, ?_, hnsym⟩
        · have hQ := (W1est c hc).1
          rw [hck] at hQ
          exact hQ
        · exact hn1
    rcases W1run2 now2 ⟨stA.fs, stA.lock, [], [], []⟩ W1src W1se W1est with
      ⟨lock2, hres⟩
    have hfinal : linkTargets false cfg pkg now2 fuel [T] ⟨stA.fs, stA.lock, [], [], []⟩
        = ⟨stA.fs, lock2, [], [], []⟩ := by
      unfold linkTargets linkDirectory
      rw [show walkGo false cfg pkg now2 fuel (.dir pkg.source T)
          ⟨stA.fs, stA.lock, [], [], []⟩
          = ((⟨stA.fs, lock2, [], [], []⟩ : LinkState), none) from hres]
      rfl
    refine ⟨⟨stA.fs, lock2, [], [], []⟩, ?_, rfl, rfl, rfl, rfl⟩
    unfold Link
    rw [hdead2]
    show Except.ok (linkPackages false cfg now2 fuel cfg.packages
        ⟨stA.fs, stA.lock, [], [], []⟩)
      = Except.ok (⟨stA.fs, lock2, [], [], []⟩ : LinkState)
    rw [hcfg]
    show Except.ok (linkTargets false cfg pkg now2 fuel pkg.targets
        ⟨stA.fs, stA.lock, [], [], []⟩)
      = Except.ok (⟨stA.fs, lock2, [], [], []⟩ : LinkState)
    rw [htgt, hfinal]

/-- C1 (amended): running `Link` twice in succession with no filesystem
changes between the runs yields on the second run a result whose `Created`
and `Errors` lists are empty (and an unchanged filesystem), provided the
configuration is a single package with a single target whose source and
target are prefix-incomparable, the initial lockfile is fresh, the
filesystem's entry paths are plain and hold no symlinks at or under the
package source, no stat or remove faults are injected, and the first run
completes with an empty `Errors` list.  (The unrestricted claim is refuted
by `C1_counterexample`.) -/
theorem C1_link_idempotent
    (cfg : Config) (pkg : Package) (T : Path) (fs : FS)
    (now0 now1 now2 fuel : Nat) (st1 : LinkState)
    (hcfg : cfg.packages = [pkg]) (htgt : pkg.targets = [T])
    (hsep1 : ¬ pkg.source <+: T) (hsep2 : ¬ T <+: pkg.source)
    (hplT : plainPath T = true)
    (hkeys : ∀ e ∈ fs.entries, plainPath e.1 = true)
    (hnosym : ∀ q d, pkg.source <+: q → fs.lookup q ≠ some (.symlink d))
    (hse : fs.statErr = []) (hre : fs.removeErr = [])
    (hrun1 : Link false cfg now1 fuel fs (lockNew now0) = .ok st1)
    (herr1 : st1.errors = []) :
    ∃ st2, Link false cfg now2 fuel st1.fs st1.lock = .ok st2 ∧
      st2.fs = st1.fs ∧ st2.created = [] ∧ st2.removed = [] ∧ st2.errors = [] :=
  link_idempotent_aux cfg pkg T fs now0 now1 now2 fuel st1 hcfg htgt hsep1 hsep2
    hplT hkeys hnosym hse hre hrun1 herr1

/-- Counterexample to C1 as frozen (universally quantified over
configurations and filesystems): a regular file occupying a target path
makes both runs report a conflict error; a dangling symlink inside the
source tree makes the second run re-create its link even though the first
run reported no errors; and two packages projecting different sources onto
one shared target make the second run re-create the target even though the
first run reported no errors. -/
theorem C1_counterexample :
    (((Link false cfgPlain 1 10 fsConflict (lockNew 0)).bind fun st1 =>
        Link false cfgPlain 2 10 st1.fs st1.lock).toOption.map (fun st2 => st2.errors)
      ≠ some []) ∧
    ((Link false cfgPlain 1 10 fsDangling (lockNew 0)).toOption.map (fun st1 => st1.errors)
      = some []) ∧
    (((Link false cfgPlain 1 10 fsDangling (lockNew 0)).bind fun st1 =>
        Link false cfgPlain 2 10 st1.fs st1.lock).toOption.map (fun st2 => st2.created)
      ≠ some []) ∧
    ((Link false cfgTwo 1 10 fsTwo (lockNew 0)).toOption.map (fun st1 => st1.errors)
      = some []) ∧
    (((Link false cfgTwo 1 10 fsTwo (lockNew 0)).bind fun st1 =>
        Link false cfgTwo 2 10 st1.fs st1.lock).toOption.map (fun st2 => st2.created)
      ≠ some []) := by
  refine ⟨by decide, by decide, by decide, by decide, by decide⟩

/-- Witness for C1 (amended) at the concrete configuration `cfgPlain` over
`fsDry`: the first run produces `linkStateRun1` with no errors, and the
second run changes nothing. -/
theorem C1_link_idempotent_witness :
    ∃ st2, Link false cfgPlain 2 10 linkStateRun1.fs linkStateRun1.lock = .ok st2 ∧
      st2.fs = linkStateRun1.fs ∧ st2.created = [] ∧ st2.removed = [] ∧
      st2.errors = [] :=
  C1_link_idempotent cfgPlain pkgPlain ["t"] fsDry 0 1 2 10 linkStateRun1
    rfl rfl (by decide) (by decide) (by decide) (by decide)
    (fun q d _ => lookup_no_symlink fsDry (by decide) q d)
    rfl rfl rfl rfl

end Farm
